import Mathlib

/-!
Verification development for the MyCraft voxel engine.

The definitions below are a shallow embedding of the chunk meshing,
lighting, worker-pool and chunk-management code:

* greedy mesher (meshChunk and its helpers),
* light engine (calculateLight phases and both BFS flood-fill loops),
* worker pool (queueTask / dispose state machine),
* chunk manager (setBlock write-through and dirty propagation,
  mesh-queueing and the failure continuation).

Byte arrays (Uint8Array) are embedded as total functions from the flat
index to the stored byte; map lookups that can miss return Option.
Float-valued mesh attributes are embedded as rationals: every value the
claims depend on (ambient-occlusion weights, integer vertex coordinates,
counts) is exactly representable.
-/

set_option maxRecDepth 4000

namespace MyCraft

/-- Chunk lateral extent, as in the source constants. -/
def CHUNK_SIZE : Nat := 16

/-- Chunk height, as in the source constants. -/
def CHUNK_HEIGHT : Nat := 256

/-- Texture atlas edge length in tiles. -/
def ATLAS_SIZE : Nat := 16

/-- A byte array (Uint8Array) embedded as a total index-to-byte function. -/
def ByteFn : Type := Nat → Nat

/-- Simplified block descriptor passed to the mesher (interface BlockInfo). -/
structure BlockInfo where
  id : Nat
  transparent : Bool
  solid : Bool
  lightEmission : Nat
  faceTop : Nat
  faceBottom : Nat
  faceSide : Nat
  deriving DecidableEq, Repr

/-- The blockInfo table: JS array indexing returns undefined out of range,
embedded as Option. -/
def BlockTable : Type := Nat → Option BlockInfo

/-- Neighbour map keyed by the (dx, dz) chunk offset; a key that is absent
or maps to null yields none. -/
def NeighborMap : Type := Int × Int → Option ByteFn

namespace Mesher

/-- Flat XZY index, identical to blockIndex in the mesher module. -/
def blockIndex (x y z : Nat) : Nat :=
  (x * CHUNK_SIZE + z) * CHUNK_HEIGHT + y

/-- Read a block id, returning 0 (air) out of bounds (function getBlock). -/
def getBlock (blocks : ByteFn) (x y z : Int) : Nat :=
  if x < 0 ∨ CHUNK_SIZE ≤ x ∨ y < 0 ∨ CHUNK_HEIGHT ≤ y ∨ z < 0 ∨ CHUNK_SIZE ≤ z then 0
  else blocks (blockIndex x.toNat y.toNat z.toNat)

/-- Sample a block that may live in a lateral neighbour chunk
(function getBlockOrNeighbor).  Missing neighbour data reads as air. -/
def getBlockOrNeighbor (blocks : ByteFn) (lx ly lz : Int)
    (neighbors : NeighborMap) : Nat :=
  if ly < 0 ∨ CHUNK_HEIGHT ≤ ly then 0
  else
    let nx : Int := if lx < 0 then -1 else if CHUNK_SIZE ≤ lx then 1 else 0
    let sx : Int := if lx < 0 then lx + CHUNK_SIZE else if CHUNK_SIZE ≤ lx then lx - CHUNK_SIZE else lx
    let nz : Int := if lz < 0 then -1 else if CHUNK_SIZE ≤ lz then 1 else 0
    let sz : Int := if lz < 0 then lz + CHUNK_SIZE else if CHUNK_SIZE ≤ lz then lz - CHUNK_SIZE else lz
    if nx = 0 ∧ nz = 0 then blocks (blockIndex sx.toNat ly.toNat sz.toNat)
    else
      match neighbors (nx, nz) with
      | none => 0
      | some nb => nb (blockIndex sx.toNat ly.toNat sz.toNat)

/-- Sample a packed light byte that may live in a lateral neighbour chunk
(function getLightOrNeighbor).  Above the world reads as full sunlight 0xF0,
below as 0, and a missing neighbour as full sunlight. -/
def getLightOrNeighbor (light : ByteFn) (lx ly lz : Int)
    (neighborLights : NeighborMap) : Nat :=
  if CHUNK_HEIGHT ≤ ly then 0xF0
  else if ly < 0 then 0x00
  else
    let nx : Int := if lx < 0 then -1 else if CHUNK_SIZE ≤ lx then 1 else 0
    let sx : Int := if lx < 0 then lx + CHUNK_SIZE else if CHUNK_SIZE ≤ lx then lx - CHUNK_SIZE else lx
    let nz : Int := if lz < 0 then -1 else if CHUNK_SIZE ≤ lz then 1 else 0
    let sz : Int := if lz < 0 then lz + CHUNK_SIZE else if CHUNK_SIZE ≤ lz then lz - CHUNK_SIZE else lz
    if nx = 0 ∧ nz = 0 then light (blockIndex sx.toNat ly.toNat sz.toNat)
    else
      match neighborLights (nx, nz) with
      | none => 0xF0
      | some nb => nb (blockIndex sx.toNat ly.toNat sz.toNat)

/-- Direction enum values and outward normals, as in the source. -/
def DIR_UP : Nat := 0

/-- Direction enum value for -Y. -/
def DIR_DOWN : Nat := 1

/-- Direction enum value for -Z. -/
def DIR_NORTH : Nat := 2

/-- Direction enum value for +Z. -/
def DIR_SOUTH : Nat := 3

/-- Direction enum value for +X. -/
def DIR_EAST : Nat := 4

/-- Direction enum value for -X. -/
def DIR_WEST : Nat := 5

/-- Outward normal vector for each direction (DIRECTION_NORMALS). -/
def dirNormal (dir : Nat) : Int × Int × Int :=
  if dir = DIR_UP then (0, 1, 0)
  else if dir = DIR_DOWN then (0, -1, 0)
  else if dir = DIR_NORTH then (0, 0, -1)
  else if dir = DIR_SOUTH then (0, 0, 1)
  else if dir = DIR_EAST then (1, 0, 0)
  else (-1, 0, 0)

/-- Face-texture selector (function dirToFace): 0 = top, 1 = bottom, 2 = side. -/
def faceTexture (info : BlockInfo) (dir : Nat) : Nat :=
  if dir = DIR_UP then info.faceTop
  else if dir = DIR_DOWN then info.faceBottom
  else info.faceSide

/-- Per-corner ambient occlusion (function vertexAO).  Inputs are 0 or 1. -/
def vertexAO (side1 side2 corner : Nat) : ℚ :=
  if side1 = 1 ∧ side2 = 1 then 1/4
  else
    match side1 + side2 + corner with
    | 0 => 1
    | 1 => 3/4
    | 2 => 1/2
    | _ => 1/4

/-- 1 when the block id occludes light (function isOccluder). -/
def isOccluder (blockId : Nat) (blockInfo : BlockTable) : Nat :=
  if blockId = 0 then 0
  else
    match blockInfo blockId with
    | some info => if info.solid ∧ ¬info.transparent then 1 else 0
    | none => 0

/-- AO for the four corners of a face (function computeFaceAO); the order
follows the quad winding of the source. -/
def computeFaceAO (x y z : Int) (dir : Nat) (blocks : ByteFn)
    (neighbors : NeighborMap) (blockInfo : BlockTable) : ℚ × ℚ × ℚ × ℚ :=
  let g : Int → Int → Int → Nat := fun dx dy dz =>
    isOccluder (getBlockOrNeighbor blocks (x + dx) (y + dy) (z + dz) neighbors) blockInfo
  if dir = DIR_UP then
    let s0 := g (-1) 1 0;  let s1 := g 1 1 0
    let s2 := g 0 1 (-1);  let s3 := g 0 1 1
    let c0 := g (-1) 1 (-1); let c1 := g 1 1 (-1)
    let c2 := g 1 1 1; let c3 := g (-1) 1 1
    (vertexAO s0 s2 c0, vertexAO s1 s2 c1, vertexAO s1 s3 c2, vertexAO s0 s3 c3)
  else if dir = DIR_DOWN then
    let s0 := g (-1) (-1) 0;  let s1 := g 1 (-1) 0
    let s2 := g 0 (-1) (-1);  let s3 := g 0 (-1) 1
    let c0 := g (-1) (-1) (-1); let c1 := g 1 (-1) (-1)
    let c2 := g 1 (-1) 1; let c3 := g (-1) (-1) 1
    (vertexAO s0 s3 c3, vertexAO s1 s3 c2, vertexAO s1 s2 c1, vertexAO s0 s2 c0)
  else if dir = DIR_NORTH then
    let s0 := g (-1) 0 (-1);  let s1 := g 1 0 (-1)
    let s2 := g 0 (-1) (-1);  let s3 := g 0 1 (-1)
    let c0 := g (-1) (-1) (-1); let c1 := g 1 (-1) (-1)
    let c2 := g 1 1 (-1); let c3 := g (-1) 1 (-1)
    (vertexAO s1 s2 c1, vertexAO s0 s2 c0, vertexAO s0 s3 c3, vertexAO s1 s3 c2)
  else if dir = DIR_SOUTH then
    let s0 := g (-1) 0 1;  let s1 := g 1 0 1
    let s2 := g 0 (-1) 1;  let s3 := g 0 1 1
    let c0 := g (-1) (-1) 1; let c1 := g 1 (-1) 1
    let c2 := g 1 1 1; let c3 := g (-1) 1 1
    (vertexAO s0 s2 c0, vertexAO s1 s2 c1, vertexAO s1 s3 c2, vertexAO s0 s3 c3)
  else if dir = DIR_EAST then
    let s0 := g 1 0 (-1);  let s1 := g 1 0 1
    let s2 := g 1 (-1) 0;  let s3 := g 1 1 0
    let c0 := g 1 (-1) (-1); let c1 := g 1 (-1) 1
    let c2 := g 1 1 1; let c3 := g 1 1 (-1)
    (vertexAO s1 s2 c1, vertexAO s0 s2 c0, vertexAO s0 s3 c3, vertexAO s1 s3 c2)
  else if dir = DIR_WEST then
    let s0 := g (-1) 0 (-1);  let s1 := g (-1) 0 1
    let s2 := g (-1) (-1) 0;  let s3 := g (-1) 1 0
    let c0 := g (-1) (-1) (-1); let c1 := g (-1) (-1) 1
    let c2 := g (-1) 1 1; let c3 := g (-1) 1 (-1)
    (vertexAO s0 s2 c0, vertexAO s1 s2 c1, vertexAO s1 s3 c2, vertexAO s0 s3 c3)
  else (1, 1, 1, 1)

/-- Atlas UV rectangle for a tile (function atlasUV), returned as
(u0, v0, u1, v1) in texture space with the anti-bleed inset. -/
def atlasUV (texIndex : Nat) (u0 v0 u1 v1 : ℚ) : ℚ × ℚ × ℚ × ℚ :=
  let col : ℚ := (texIndex % ATLAS_SIZE : Nat)
  let row : ℚ := (texIndex / ATLAS_SIZE : Nat)
  let tileU : ℚ := 1 / (ATLAS_SIZE : ℚ)
  let tileV : ℚ := 1 / (ATLAS_SIZE : ℚ)
  let eps : ℚ := 1/1000
  let baseU := col * tileU + eps
  let baseV := row * tileV + eps
  let maxU := (col + 1) * tileU - eps
  let maxV := (row + 1) * tileV - eps
  (baseU + (maxU - baseU) * min u0 1,
   baseV + (maxV - baseV) * min v0 1,
   baseU + (maxU - baseU) * min u1 1,
   baseV + (maxV - baseV) * min v1 1)

/-- Growing output buffers of one draw pass (interface TempArrays). -/
structure TempArrays where
  positions : List Int
  normals : List Int
  uvs : List ℚ
  aos : List ℚ
  lights : List Nat
  indices : List Nat
  vertexCount : Nat
  deriving DecidableEq, Repr

/-- Empty buffers (function createTemp). -/
def createTemp : TempArrays :=
  ⟨[], [], [], [], [], [], 0⟩

/-- One quad ready to be pushed, with the routing flag of its source block.
The source computes these values inline in the emission part of meshChunk;
they are collected here so the two draw passes can be folded over them. -/
structure Quad where
  v0 : Int × Int × Int
  v1 : Int × Int × Int
  v2 : Int × Int × Int
  v3 : Int × Int × Int
  normal : Int × Int × Int
  uv : ℚ × ℚ × ℚ × ℚ
  ao : ℚ × ℚ × ℚ × ℚ
  faceLight : Nat
  transparentPass : Bool
  deriving DecidableEq, Repr

/-- Append one quad to a draw pass (function pushQuad), including the
AO-driven diagonal flip of the two triangles. -/
def pushQuad (tmp : TempArrays) (q : Quad) : TempArrays :=
  let i := tmp.vertexCount
  let (a0, a1, a2, a3) := q.ao
  let (u0, v0q, u1, v1q) := q.uv
  let (nx, ny, nz) := q.normal
  { positions := tmp.positions ++
      [q.v0.1, q.v0.2.1, q.v0.2.2, q.v1.1, q.v1.2.1, q.v1.2.2,
       q.v2.1, q.v2.2.1, q.v2.2.2, q.v3.1, q.v3.2.1, q.v3.2.2]
    normals := tmp.normals ++ [nx, ny, nz, nx, ny, nz, nx, ny, nz, nx, ny, nz]
    uvs := tmp.uvs ++ [u0, v1q, u1, v1q, u1, v0q, u0, v0q]
    aos := tmp.aos ++ [a0, a1, a2, a3]
    lights := tmp.lights ++ [q.faceLight, q.faceLight, q.faceLight, q.faceLight]
    indices := tmp.indices ++
      (if a0 + a2 > a1 + a3 then [i, i + 1, i + 2, i, i + 2, i + 3]
       else [i + 1, i + 2, i + 3, i, i + 1, i + 3])
    vertexCount := tmp.vertexCount + 4 }

/-- Finished geometry of one draw pass (interface MeshData); the typed-array
conversion of the source is the identity on the stored values. -/
structure MeshData where
  positions : List Int
  normals : List Int
  uvs : List ℚ
  aos : List ℚ
  lights : List Nat
  indices : List Nat
  deriving DecidableEq, Repr

/-- Convert finished buffers (function toMeshData). -/
def toMeshData (tmp : TempArrays) : MeshData :=
  ⟨tmp.positions, tmp.normals, tmp.uvs, tmp.aos, tmp.lights, tmp.indices⟩

/-- Sweep-axis slice count for a direction (dSize in meshChunk). -/
def dSize (dir : Nat) : Nat :=
  if dir = DIR_UP ∨ dir = DIR_DOWN then CHUNK_HEIGHT else CHUNK_SIZE

/-- First tangent-axis extent for a direction (uSize in meshChunk). -/
def uSize (_dir : Nat) : Nat := CHUNK_SIZE

/-- Second tangent-axis extent for a direction (vSize in meshChunk). -/
def vSize (dir : Nat) : Nat :=
  if dir = DIR_UP ∨ dir = DIR_DOWN then CHUNK_SIZE else CHUNK_HEIGHT

/-- Local voxel coordinates of mask cell (u, v) in slice d: the source
assigns pos[dAxis] = d, pos[uAxis] = u, pos[vAxis] = v with the per-direction
axis decomposition. -/
def posOf (dir : Nat) (d u v : Nat) : Nat × Nat × Nat :=
  if dir = DIR_UP ∨ dir = DIR_DOWN then (u, d, v)
  else if dir = DIR_NORTH ∨ dir = DIR_SOUTH then (u, v, d)
  else (d, v, u)

/-- The face-visibility test of the mask building loop in meshChunk:
a face is visible when the neighbour across it is air, or is transparent
and (the current block is opaque or the two block ids differ). -/
def faceVisible (info : BlockInfo) (blockId neighborId : Nat)
    (blockInfo : BlockTable) : Bool :=
  if neighborId = 0 then true
  else
    match blockInfo neighborId with
    | some neighborInfo =>
        if neighborInfo.transparent ∧ (¬info.transparent ∨ blockId ≠ neighborId) then true
        else false
    | none => false

/-- Value written into the visibility mask for the voxel at local position
(lx, ly, lz) for face direction dir: 0 when no face, otherwise the block id
packed with the sampled face light (mask building loop of meshChunk). -/
def maskAt (dir : Nat) (lx ly lz : Int) (blocks : ByteFn)
    (neighbors : NeighborMap) (blockInfo : BlockTable) (light : ByteFn)
    (neighborLights : NeighborMap) : Nat :=
  let blockId := getBlock blocks lx ly lz
  if blockId = 0 then 0
  else
    match blockInfo blockId with
    | none => 0
    | some info =>
        let (nx, ny, nz) := dirNormal dir
        let nlx := lx + nx
        let nly := ly + ny
        let nlz := lz + nz
        let neighborId := getBlockOrNeighbor blocks nlx nly nlz neighbors
        if faceVisible info blockId neighborId blockInfo then
          let faceLight := getLightOrNeighbor light nlx nly nlz neighborLights
          blockId ||| (faceLight <<< 8)
        else 0

/-- Mask value of cell (u, v) in slice d of direction dir. -/
def maskCell (dir d u v : Nat) (blocks : ByteFn) (neighbors : NeighborMap)
    (blockInfo : BlockTable) (light : ByteFn) (neighborLights : NeighborMap) : Nat :=
  let (lx, ly, lz) := posOf dir d u v
  maskAt dir lx ly lz blocks neighbors blockInfo light neighborLights

/-- The freshly built mask of one slice as a flat cell-index function,
indexed v * uSize + u exactly as in the source. -/
def sliceMask (dir d : Nat) (blocks : ByteFn) (neighbors : NeighborMap)
    (blockInfo : BlockTable) (light : ByteFn) (neighborLights : NeighborMap) :
    Nat → Nat :=
  fun i => maskCell dir d (i % uSize dir) (i / uSize dir) blocks neighbors blockInfo light neighborLights

/-- A merged rectangle found by the greedy pass: origin (u, v), extents
(w, h) and the shared mask value. -/
structure Rect where
  u : Nat
  v : Nat
  w : Nat
  h : Nat
  val : Nat
  deriving DecidableEq, Repr

/-- Width growth of the greedy merge: extend w while the next cell of the
row matches the mask value exactly.  fuel bounds the loop; uS is enough. -/
def growWidth (m : Nat → Nat) (uS v u mv : Nat) : Nat → Nat → Nat
  | w, 0 => w
  | w, fuel + 1 =>
      if u + w < uS ∧ m (v * uS + (u + w)) = mv then growWidth m uS v u mv (w + 1) fuel
      else w

/-- True when all w cells of row v starting at column u hold mv (the inner
wu loop of the height growth). -/
def rowMatches (m : Nat → Nat) (uS v u mv : Nat) : Nat → Bool
  | 0 => true
  | w + 1 => rowMatches m uS v u mv w && decide (m (v * uS + (u + w)) = mv)

/-- Height growth of the greedy merge: extend h while the whole next row of
width w matches. -/
def growHeight (m : Nat → Nat) (uS vS v u mv w : Nat) : Nat → Nat → Nat
  | h, 0 => h
  | h, fuel + 1 =>
      if v + h < vS ∧ rowMatches m uS (v + h) u mv w then growHeight m uS vS v u mv w (h + 1) fuel
      else h

/-- Clear the merged w×h region of the mask starting at (u, v); matches the
source's per-cell zeroing on every index of the form row * uS + col with
col < uS. -/
def clearRegion (m : Nat → Nat) (uS u v w h : Nat) : Nat → Nat :=
  fun i =>
    if v ≤ i / uS ∧ i / uS < v + h ∧ u ≤ i % uS ∧ i % uS < u + w then 0 else m i

/-- Scan one mask row from column u, emitting merged rectangles and the
cleared mask (inner u loop of the greedy merge; u advances by w). -/
def mergeRow (uS vS v : Nat) : (Nat → Nat) → Nat → Nat → List Rect × (Nat → Nat)
  | m, _, 0 => ([], m)
  | m, u, fuel + 1 =>
      if u < uS then
        let mv := m (v * uS + u)
        if mv = 0 then mergeRow uS vS v m (u + 1) fuel
        else
          let w := growWidth m uS v u mv 1 uS
          let hgt := growHeight m uS vS v u mv w 1 vS
          let m1 := clearRegion m uS u v w hgt
          let (rs, m2) := mergeRow uS vS v m1 (u + w) fuel
          (⟨u, v, w, hgt, mv⟩ :: rs, m2)
      else ([], m)

/-- Scan mask rows v, v+1, ... (outer v loop of the greedy merge), threading
the progressively cleared mask. -/
def mergeRows (uS vS : Nat) : (Nat → Nat) → Nat → Nat → List Rect
  | _, _, 0 => []
  | m, v, fuel + 1 =>
      if v < vS then
        let (rs, m1) := mergeRow uS vS v m 0 uS
        rs ++ mergeRows uS vS m1 (v + 1) fuel
      else []

/-- All merged rectangles of one slice mask, in source emission order. -/
def mergeMask (m : Nat → Nat) (uS vS : Nat) : List Rect :=
  mergeRows uS vS m 0 vS

/-- Base corner of the emitted quad in local coordinates: base[dAxis] = d
(+1 for the positive-facing directions UP, SOUTH, EAST), base[uAxis] = u,
base[vAxis] = v. -/
def quadBase (dir d u v : Nat) : Int × Int × Int :=
  if dir = DIR_UP then ((u : Int), (d : Int) + 1, (v : Int))
  else if dir = DIR_DOWN then ((u : Int), (d : Int), (v : Int))
  else if dir = DIR_NORTH then ((u : Int), (v : Int), (d : Int))
  else if dir = DIR_SOUTH then ((u : Int), (v : Int), (d : Int) + 1)
  else if dir = DIR_EAST then ((d : Int) + 1, (v : Int), (u : Int))
  else ((d : Int), (v : Int), (u : Int))

/-- Edge vector along the first tangent axis, of length w (du). -/
def quadDu (dir : Nat) (w : Nat) : Int × Int × Int :=
  if dir = DIR_EAST ∨ dir = DIR_WEST then (0, 0, (w : Int)) else ((w : Int), 0, 0)

/-- Edge vector along the second tangent axis, of length h (dv). -/
def quadDv (dir : Nat) (h : Nat) : Int × Int × Int :=
  if dir = DIR_UP ∨ dir = DIR_DOWN then (0, 0, (h : Int)) else (0, (h : Int), 0)

/-- Componentwise triple addition used to build quad corners. -/
def vadd (a b : Int × Int × Int) : Int × Int × Int :=
  (a.1 + b.1, a.2.1 + b.2.1, a.2.2 + b.2.2)

/-- Fallback block descriptor: looking up a mask block id that is absent
from the table would fault in the source; merged rectangles built from
maskCell never contain such an id, so this default is unreachable there. -/
def fallbackInfo (blockId : Nat) : BlockInfo :=
  ⟨blockId, true, false, 0, 0, 0, 0⟩

/-- Build the quad for one merged rectangle of slice d in direction dir
(the emission part of the greedy merge loop in meshChunk). -/
def emitQuad (cx cz : Int) (dir d : Nat) (r : Rect) (blocks : ByteFn)
    (neighbors : NeighborMap) (blockInfo : BlockTable) : Quad :=
  let blockId := r.val &&& 0xFF
  let faceLight := (r.val >>> 8) &&& 0xFF
  let info := (blockInfo blockId).getD (fallbackInfo blockId)
  let texIndex := faceTexture info dir
  let wx : Int := cx * CHUNK_SIZE
  let wz : Int := cz * CHUNK_SIZE
  let base := quadBase dir d r.u r.v
  let b := (base.1 + wx, base.2.1, base.2.2 + wz)
  let bdu := vadd b (quadDu dir r.w)
  let bdv := vadd b (quadDv dir r.h)
  let bduv := vadd (vadd b (quadDu dir r.w)) (quadDv dir r.h)
  let (q0, q1, q2, q3) :=
    if dir = DIR_UP then (b, bdu, bduv, bdv)
    else if dir = DIR_DOWN then (bdv, bduv, bdu, b)
    else if dir = DIR_NORTH then (bdu, b, bdv, bduv)
    else if dir = DIR_SOUTH then (b, bdu, bduv, bdv)
    else if dir = DIR_EAST then (b, bdv, bduv, bdu)
    else if dir = DIR_WEST then (bdu, bduv, bdv, b)
    else (b, bdu, bduv, bdv)
  let uv := atlasUV texIndex 0 0 1 1
  let aoPos := posOf dir d r.u r.v
  let ao := computeFaceAO aoPos.1 aoPos.2.1 aoPos.2.2 dir blocks neighbors blockInfo
  ⟨q0, q1, q2, q3, dirNormal dir, uv, ao, faceLight, info.transparent⟩

/-- All quads of one slice, in emission order. -/
def sliceQuads (cx cz : Int) (dir d : Nat) (blocks : ByteFn)
    (neighbors : NeighborMap) (blockInfo : BlockTable) (light : ByteFn)
    (neighborLights : NeighborMap) : List Quad :=
  (mergeMask (sliceMask dir d blocks neighbors blockInfo light neighborLights)
      (uSize dir) (vSize dir)).map
    (fun r => emitQuad cx cz dir d r blocks neighbors blockInfo)

/-- All quads of one face direction, slices in sweep order. -/
def dirQuads (cx cz : Int) (dir : Nat) (blocks : ByteFn)
    (neighbors : NeighborMap) (blockInfo : BlockTable) (light : ByteFn)
    (neighborLights : NeighborMap) : List Quad :=
  (List.range (dSize dir)).flatMap
    (fun d => sliceQuads cx cz dir d blocks neighbors blockInfo light neighborLights)

/-- Every quad meshChunk emits, over the 6 directions in source order. -/
def allQuads (cx cz : Int) (blocks : ByteFn) (neighbors : NeighborMap)
    (blockInfo : BlockTable) (light : ByteFn) (neighborLights : NeighborMap) :
    List Quad :=
  (List.range 6).flatMap
    (fun dir => dirQuads cx cz dir blocks neighbors blockInfo light neighborLights)

/-- Route one quad into the opaque or transparent pass, per the source
block's transparency flag (target selection in meshChunk). -/
def routeQuad (acc : TempArrays × TempArrays) (q : Quad) : TempArrays × TempArrays :=
  if q.transparentPass then (acc.1, pushQuad acc.2 q) else (pushQuad acc.1 q, acc.2)

/-- Greedy meshing entry point (function meshChunk): returns the opaque and
transparent draw-pass geometry. -/
def meshChunk (blocks : ByteFn) (cx cz : Int) (neighborBlocks : NeighborMap)
    (blockInfo : BlockTable) (light : ByteFn) (neighborLights : NeighborMap) :
    MeshData × MeshData :=
  let qs := allQuads cx cz blocks neighborBlocks blockInfo light neighborLights
  let passes := qs.foldl routeQuad (createTemp, createTemp)
  (toMeshData passes.1, toMeshData passes.2)

end Mesher

namespace LightEngine

/-- Flat XZY index (function idx of LightEngine.ts). -/
def idx (x y z : Nat) : Nat :=
  (x * CHUNK_SIZE + z) * CHUNK_HEIGHT + y

/-- The 6-connected neighbour offsets, in the order of the DX/DY/DZ tables. -/
def neighborOffsets : List (Int × Int × Int) :=
  [(1, 0, 0), (-1, 0, 0), (0, 1, 0), (0, -1, 0), (0, 0, 1), (0, 0, -1)]

/-- In-chunk bounds test used before every neighbour access. -/
def inBounds3 (nx ny nz : Int) : Bool :=
  decide (0 ≤ nx) && decide (nx < (CHUNK_SIZE : Int)) &&
  decide (0 ≤ ny) && decide (ny < (CHUNK_HEIGHT : Int)) &&
  decide (0 ≤ nz) && decide (nz < (CHUNK_SIZE : Int))

/-- Pointwise store into a light array. -/
def writeByte (l : ByteFn) (i v : Nat) : ByteFn :=
  fun j => if j = i then v else l j

/-- Phase 1 inner loop: scan one column top-down, setting sunlight 15 on
transparent voxels and stopping at the first opaque one. -/
def colScan (blocks : ByteFn) (isT : Nat → Bool) (x z : Nat) :
    Nat → ByteFn → ByteFn
  | 0, l =>
      if isT (blocks (idx x 0 z)) then writeByte l (idx x 0 z) 0xF0 else l
  | y + 1, l =>
      if isT (blocks (idx x (y + 1) z)) then
        colScan blocks isT x z y (writeByte l (idx x (y + 1) z) 0xF0)
      else l

/-- Phase 1: column sunlight over all (x, z), starting from the cleared
array (light.fill(0)). -/
def phase1 (blocks : ByteFn) (isT : Nat → Bool) : ByteFn :=
  (List.range CHUNK_SIZE).foldl
    (fun l x =>
      (List.range CHUNK_SIZE).foldl
        (fun l z => colScan blocks isT x z (CHUNK_HEIGHT - 1) l) l)
    (fun _ => 0)

/-- Frontier test of the phase 2 seeding scan: some in-bounds transparent
neighbour has a sunlight nibble below 15. -/
def isFrontier (blocks : ByteFn) (isT : Nat → Bool) (l : ByteFn)
    (x y z : Nat) : Bool :=
  neighborOffsets.any fun o =>
    let nx := (x : Int) + o.1
    let ny := (y : Int) + o.2.1
    let nz := (z : Int) + o.2.2
    if inBounds3 nx ny nz then
      let ni := idx nx.toNat ny.toNat nz.toNat
      isT (blocks ni) && decide (l ni >>> 4 < 15)
    else false

/-- Phase 2 seeding, one column: top-down scan with the foundDark flag;
frontier full-sun voxels above the first dark cell are enqueued. -/
def seedColumn (blocks : ByteFn) (isT : Nat → Bool) (l : ByteFn) (x z : Nat) :
    Nat → Bool → List (Nat × Nat × Nat)
  | y, foundDark =>
      let sun := l (idx x y z) >>> 4
      let here :=
        if sun = 15 ∧ foundDark = false then
          if isFrontier blocks isT l x y z then [(x, y, z)] else []
        else []
      let foundDark1 :=
        if sun = 15 ∧ foundDark = false then foundDark
        else if sun < 15 then true else foundDark
      here ++ (match y with
        | 0 => []
        | y1 + 1 => seedColumn blocks isT l x z y1 foundDark1)

/-- Phase 2 seeding over all columns, in source scan order. -/
def sunSeeds (blocks : ByteFn) (isT : Nat → Bool) (l : ByteFn) :
    List (Nat × Nat × Nat) :=
  (List.range CHUNK_SIZE).foldl
    (fun acc x =>
      (List.range CHUNK_SIZE).foldl
        (fun acc z => acc ++ seedColumn blocks isT l x z (CHUNK_HEIGHT - 1) false)
        acc)
    []

/-- One neighbour propagation of the sunlight BFS body: attenuate by one
(straight-down propagation at level 15 keeps 15), skip non-positive levels,
and overwrite the stored sun nibble only when strictly greater, enqueueing
the written voxel. -/
def propagateSun (blocks : ByteFn) (isT : Nat → Bool) (l : ByteFn)
    (level : Nat) (x y z : Nat) (o : Int × Int × Int) :
    ByteFn × List (Nat × Nat × Nat) :=
  let nx := (x : Int) + o.1
  let ny := (y : Int) + o.2.1
  let nz := (z : Int) + o.2.2
  if inBounds3 nx ny nz then
    let ni := idx nx.toNat ny.toNat nz.toNat
    if isT (blocks ni) then
      let newLevel := if o.2.1 = -1 ∧ level = 15 then 15 else level - 1
      if newLevel = 0 then (l, [])
      else if newLevel > l ni >>> 4 then
        (writeByte l ni ((newLevel <<< 4) ||| (l ni &&& 0x0F)),
         [(nx.toNat, ny.toNat, nz.toNat)])
      else (l, [])
    else (l, [])
  else (l, [])

/-- Process one popped voxel of the sunlight BFS: its level is read once,
then all 6 neighbours are visited in table order. -/
def sunStep (blocks : ByteFn) (isT : Nat → Bool) (l : ByteFn)
    (c : Nat × Nat × Nat) : ByteFn × List (Nat × Nat × Nat) :=
  let level := l (idx c.1 c.2.1 c.2.2) >>> 4
  neighborOffsets.foldl
    (fun acc o =>
      let r := propagateSun blocks isT acc.1 level c.1 c.2.1 c.2.2 o
      (r.1, acc.2 ++ r.2))
    (l, [])

/-- One neighbour propagation of the block-light BFS body: uniform
attenuation of one, low nibble only, sun nibble untouched. -/
def propagateBlk (blocks : ByteFn) (isT : Nat → Bool) (l : ByteFn)
    (level : Nat) (x y z : Nat) (o : Int × Int × Int) :
    ByteFn × List (Nat × Nat × Nat) :=
  let nx := (x : Int) + o.1
  let ny := (y : Int) + o.2.1
  let nz := (z : Int) + o.2.2
  if inBounds3 nx ny nz then
    let ni := idx nx.toNat ny.toNat nz.toNat
    if isT (blocks ni) then
      let newLevel := level - 1
      if newLevel = 0 then (l, [])
      else if newLevel > (l ni &&& 0x0F) then
        (writeByte l ni ((l ni &&& 0xF0) ||| newLevel),
         [(nx.toNat, ny.toNat, nz.toNat)])
      else (l, [])
    else (l, [])
  else (l, [])

/-- Process one popped voxel of the block-light BFS. -/
def blkStep (blocks : ByteFn) (isT : Nat → Bool) (l : ByteFn)
    (c : Nat × Nat × Nat) : ByteFn × List (Nat × Nat × Nat) :=
  let level := l (idx c.1 c.2.1 c.2.2) &&& 0x0F
  neighborOffsets.foldl
    (fun acc o =>
      let r := propagateBlk blocks isT acc.1 level c.1 c.2.1 c.2.2 o
      (r.1, acc.2 ++ r.2))
    (l, [])

/-- Fuel-indexed work-queue loop shared by both flood fills: pop the head,
run the step, append its pushes FIFO.  Returns none only when the fuel runs
out with work remaining. -/
def bfsLoop (step : ByteFn → Nat × Nat × Nat → ByteFn × List (Nat × Nat × Nat)) :
    Nat → List (Nat × Nat × Nat) → ByteFn → Option ByteFn
  | _, [], l => some l
  | 0, _ :: _, _ => none
  | fuel + 1, c :: rest, l =>
      let r := step l c
      bfsLoop step fuel (rest ++ r.2) r.1

/-- Phase 3 seeding: set the low nibble of every emissive voxel and enqueue
it, in x, z, y scan order. -/
def blkSeeds (blocks : ByteFn) (emissions : Nat → Nat) (l0 : ByteFn) :
    ByteFn × List (Nat × Nat × Nat) :=
  (List.range CHUNK_SIZE).foldl
    (fun acc x =>
      (List.range CHUNK_SIZE).foldl
        (fun acc z =>
          (List.range CHUNK_HEIGHT).foldl
            (fun acc y =>
              let i := idx x y z
              let em := emissions (blocks i)
              if em > 0 then
                (writeByte acc.1 i ((acc.1 i &&& 0xF0) ||| em), acc.2 ++ [(x, y, z)])
              else acc)
            acc)
        acc)
    (l0, [])

/-- Number of voxels in one chunk. -/
def CHUNK_VOLUME : Nat := CHUNK_SIZE * CHUNK_HEIGHT * CHUNK_SIZE

/-- Remaining headroom of the sunlight nibbles; strictly decreases at every
BFS write, which bounds the total work. -/
def sunPotential (l : ByteFn) : Nat :=
  Finset.sum (Finset.range CHUNK_VOLUME) (fun i => 15 - min 15 (l i >>> 4))

/-- Remaining headroom of the block-light nibbles. -/
def blkPotential (l : ByteFn) : Nat :=
  Finset.sum (Finset.range CHUNK_VOLUME) (fun i => 15 - min 15 (l i &&& 0x0F))

/-- Fuel that provably suffices for either flood fill. -/
def fuelBound (pot qlen : Nat) : Nat :=
  7 * pot + qlen + 1

/-- Full light computation (function calculateLight): phase 1 column
sunlight, phase 2 sunlight BFS, phase 3 block-light seeding and BFS.  The
BFS loops are run with the fuel bound; the termination theorem shows the
fuel is never exhausted, so the getD fallbacks are unreachable. -/
def calculateLight (blocks : ByteFn) (isT : Nat → Bool) (emissions : Nat → Nat) :
    ByteFn :=
  let l1 := phase1 blocks isT
  let q2 := sunSeeds blocks isT l1
  let l2 := (bfsLoop (sunStep blocks isT) (fuelBound (sunPotential l1) q2.length) q2 l1).getD l1
  let s3 := blkSeeds blocks emissions l2
  (bfsLoop (blkStep blocks isT) (fuelBound (blkPotential s3.1) s3.2.length) s3.2 s3.1).getD s3.1

end LightEngine

namespace Pool

/-- WorkerPool state: per-worker busy flags (WorkerEntry.busy), the FIFO
queue of still-pending task ids, and the resolver map from worker index to
the task id currently in flight on that worker.  Task payloads and promise
callbacks are abstracted to the task id carried by both. -/
structure PoolState where
  workers : List Bool
  queue : List Nat
  resolvers : List (Nat × Nat)
  deriving DecidableEq, Repr

/-- Index of the first idle worker (workers.find of queueTask). -/
def firstIdle (ws : List Bool) : Option Nat :=
  ws.findIdx? (fun b => b = false)

/-- Mark one worker busy (dispatch sets entry.busy = true). -/
def setBusy (ws : List Bool) (i : Nat) : List Bool :=
  ws.set i true

/-- Enqueue a task (method queueTask): dispatch immediately to the first
idle worker if any, otherwise push the task id onto the FIFO queue. -/
def queueTask (s : PoolState) (id : Nat) : PoolState :=
  match firstIdle s.workers with
  | some i =>
      { s with workers := setBusy s.workers i, resolvers := s.resolvers ++ [(i, id)] }
  | none => { s with queue := s.queue ++ [id] }

/-- Observable outcome of dispose: the final pool state, the task ids whose
promises were rejected, and how many workers were terminated. -/
structure DisposeResult where
  state : PoolState
  rejected : List Nat
  terminated : Nat
  deriving DecidableEq, Repr

/-- Dispose the pool (method dispose): terminate every worker, reject every
still-queued task, clear the queue and the resolver map.  In-flight tasks —
the ones recorded in resolvers — are cleared without being rejected. -/
def dispose (s : PoolState) : DisposeResult :=
  { state := { workers := [], queue := [], resolvers := [] }
    rejected := s.queue
    terminated := s.workers.length }

end Pool

namespace Manager

/-- Chunk-local flat index (Chunk.getIndex). -/
def getIndex (x y z : Nat) : Nat :=
  (x * CHUNK_SIZE + z) * CHUNK_HEIGHT + y

/-- Chunk bounds check (Chunk.inBounds). -/
def inBounds (x y z : Int) : Bool :=
  decide (0 ≤ x) && decide (x < (CHUNK_SIZE : Int)) &&
  decide (0 ≤ y) && decide (y < (CHUNK_HEIGHT : Int)) &&
  decide (0 ≤ z) && decide (z < (CHUNK_SIZE : Int))

/-- One loaded chunk: coordinates, flat block data, dirty flag. -/
structure Chunk where
  cx : Int
  cz : Int
  data : ByteFn
  dirty : Bool

/-- Chunk.setBlock: out-of-bounds writes are silent no-ops; the store and
the dirty flag happen only when the stored value actually changes. -/
def chunkSetBlock (c : Chunk) (x y z : Int) (t : Nat) : Chunk :=
  if inBounds x y z then
    let i := getIndex x.toNat y.toNat z.toNat
    if c.data i ≠ t then
      { c with data := fun j => if j = i then t else c.data j, dirty := true }
    else c
  else c

/-- ChunkManager state relevant to the claims: the loaded-chunk map keyed
by chunk coordinates, and the meshing-in-progress key set. -/
structure CMState where
  chunks : Int × Int → Option Chunk
  meshing : Int × Int → Bool

/-- Mark a chunk dirty when it is loaded (private markDirty). -/
def markDirty (s : CMState) (cx cz : Int) : CMState :=
  match s.chunks (cx, cz) with
  | some c =>
      { s with chunks := fun k => if k = (cx, cz) then some { c with dirty := true } else s.chunks k }
  | none => s

/-- ChunkManager.setBlock: resolve world coordinates to a chunk and local
coordinates (JS Math.floor division and remainder normalisation), write
through, then mark lateral neighbours dirty on boundary columns. -/
def setBlock (s : CMState) (wx wy wz : Int) (t : Nat) : CMState :=
  let cx := Int.fdiv wx CHUNK_SIZE
  let cz := Int.fdiv wz CHUNK_SIZE
  match s.chunks (cx, cz) with
  | none => s
  | some c =>
      let lx := (Int.tmod wx CHUNK_SIZE + CHUNK_SIZE).tmod CHUNK_SIZE
      let lz := (Int.tmod wz CHUNK_SIZE + CHUNK_SIZE).tmod CHUNK_SIZE
      let c1 := chunkSetBlock c lx wy lz t
      let s1 : CMState :=
        { s with chunks := fun k => if k = (cx, cz) then some c1 else s.chunks k }
      let s2 := if lx = 0 then markDirty s1 (cx - 1) cz else s1
      let s3 := if lx = (CHUNK_SIZE : Int) - 1 then markDirty s2 (cx + 1) cz else s2
      let s4 := if lz = 0 then markDirty s3 cx (cz - 1) else s3
      if lz = (CHUNK_SIZE : Int) - 1 then markDirty s4 cx (cz + 1) else s4

/-- State effect of queueChunkMesh on its chunk key: add the key to
meshingInProgress and clear the chunk's dirty flag (the job snapshot and
worker message do not touch manager state). -/
def queueChunkMesh (s : CMState) (k : Int × Int) : CMState :=
  { chunks := fun k2 =>
      if k2 = k then (s.chunks k2).map (fun c => { c with dirty := false })
      else s.chunks k2
    meshing := fun k2 => if k2 = k then true else s.meshing k2 }

/-- Failure continuation of the mesh job promise: the catch handler logs
the error (returned flag) and the finally handler removes the key from
meshingInProgress.  Nothing else changes: in particular the chunk's dirty
flag is not touched. -/
def onMeshJobFailure (s : CMState) (k : Int × Int) : CMState × Bool :=
  ({ s with meshing := fun k2 => if k2 = k then false else s.meshing k2 }, true)

end Manager

/-! Claim C2: WorkerPool.dispose and outstanding jobs. -/

/-- A pool with one busy worker running task 42 and task 7 queued. -/
def poolC2 : Pool.PoolState :=
  ⟨[true], [7], [(0, 42)]⟩

/-- C2 counterexample: disposing a pool with task 42 in flight (recorded in
the resolver map) and task 7 queued rejects only the queued task 7; the
in-flight task 42 is not rejected, contradicting the claim that every
outstanding job is rejected. -/
theorem c2_inflight_not_rejected :
    (0, 42) ∈ poolC2.resolvers ∧
    (Pool.dispose poolC2).rejected = [7] ∧
    42 ∉ (Pool.dispose poolC2).rejected := by
  refine ⟨?_, rfl, ?_⟩ <;> decide

/-- C2 (amended): dispose terminates every worker and rejects exactly the
still-queued jobs, clearing the queue and the resolver map; jobs already
dispatched to a worker are dropped without being rejected. -/
theorem c2_dispose_rejects_queued_only (s : Pool.PoolState) :
    (Pool.dispose s).rejected = s.queue ∧
    (Pool.dispose s).terminated = s.workers.length ∧
    (Pool.dispose s).state.workers = [] ∧
    (Pool.dispose s).state.queue = [] ∧
    (Pool.dispose s).state.resolvers = [] :=
  ⟨rfl, rfl, rfl, rfl, rfl⟩

/-! Claim C3: mesh-job failure leaves the chunk clean, not dirty. -/

/-- A manager with a single dirty chunk at key (0, 0) and nothing meshing. -/
def cmC3 : Manager.CMState :=
  { chunks := fun k => if k = (0, 0) then some ⟨0, 0, fun _ => 0, true⟩ else none
    meshing := fun _ => false }

/-- C3 counterexample: queueing the chunk mesh clears the dirty flag, and
the failure continuation (log + clear in-flight marker) leaves it false, so
the failed chunk is not left dirty as the claim states. -/
theorem c3_failed_chunk_not_dirty :
    (((Manager.onMeshJobFailure (Manager.queueChunkMesh cmC3 (0, 0)) (0, 0)).1.chunks
        (0, 0)).map (fun c => c.dirty)) = some false := by
  decide

/-- C3 (amended): when a mesh job for a loaded chunk fails, the coordinator
logs the failure and removes the in-flight marker, and the chunk's dirty
flag — cleared when the job was queued — stays false, so the chunk is not
re-queued by a later dirty scan. -/
theorem c3_failure_logs_and_clears_marker (s : Manager.CMState)
    (k : Int × Int) (c : Manager.Chunk) (h : s.chunks k = some c) :
    (Manager.onMeshJobFailure (Manager.queueChunkMesh s k) k).2 = true ∧
    (Manager.onMeshJobFailure (Manager.queueChunkMesh s k) k).1.meshing k = false ∧
    ((Manager.onMeshJobFailure (Manager.queueChunkMesh s k) k).1.chunks k).map
        (fun c => c.dirty) = some false := by
  refine ⟨rfl, by simp [Manager.onMeshJobFailure, Manager.queueChunkMesh], ?_⟩
  simp [Manager.onMeshJobFailure, Manager.queueChunkMesh, h]

/-- C3 witness: the amended theorem applied to the concrete one-chunk
manager state. -/
theorem c3_failure_logs_and_clears_marker_witness :
    (Manager.onMeshJobFailure (Manager.queueChunkMesh cmC3 (0, 0)) (0, 0)).2 = true ∧
    (Manager.onMeshJobFailure (Manager.queueChunkMesh cmC3 (0, 0)) (0, 0)).1.meshing (0, 0) = false ∧
    ((Manager.onMeshJobFailure (Manager.queueChunkMesh cmC3 (0, 0)) (0, 0)).1.chunks (0, 0)).map
        (fun c => c.dirty) = some false :=
  c3_failure_logs_and_clears_marker cmC3 (0, 0) ⟨0, 0, fun _ => 0, true⟩ (by simp [cmC3])

/-! Claim C8: world-space setBlock write-through and dirty propagation. -/

/-- Truncated remainder of any integer by 16 lies in (-16, 16). -/
theorem tmod16_bounds (x : Int) : -16 < x.tmod 16 ∧ x.tmod 16 < 16 := by
  obtain ⟨d, hd⟩ : ∃ d, x.tdiv 16 = d := ⟨_, rfl⟩
  have h1 : x.tmod 16 = x - 16 * d := by rw [← hd]; exact Int.tmod_def x 16
  have h2 : x.tmod 16 < 16 := Int.tmod_lt_of_pos x (by norm_num)
  refine ⟨?_, h2⟩
  rcases le_or_lt 0 x with hx | hx
  · have := Int.tmod_nonneg (b := 16) hx
    omega
  · have hn : (-x).tmod 16 = -x - 16 * ((-x).tdiv 16) := Int.tmod_def (-x) 16
    have hdn : (-x).tdiv 16 = -(x.tdiv 16) := Int.neg_tdiv x 16
    have h4 : (-x).tmod 16 < 16 := Int.tmod_lt_of_pos (-x) (by norm_num)
    rw [hdn, hd] at hn
    omega

/-- The JS double-remainder normalisation lands in [0, 16). -/
theorem jsLocal_bounds (x : Int) :
    0 ≤ (x.tmod 16 + 16).tmod 16 ∧ (x.tmod 16 + 16).tmod 16 < 16 := by
  have h := tmod16_bounds x
  exact ⟨Int.tmod_nonneg 16 (by omega), Int.tmod_lt_of_pos _ (by norm_num)⟩

/-- markDirty leaves every other chunk key untouched. -/
theorem markDirty_chunks_ne (s : Manager.CMState) (a b : Int) (k : Int × Int)
    (h : k ≠ (a, b)) : (Manager.markDirty s a b).chunks k = s.chunks k := by
  unfold Manager.markDirty
  cases hm : s.chunks (a, b) <;> simp [h]

/-- markDirty sets the dirty flag of a loaded chunk. -/
theorem markDirty_marks (s : Manager.CMState) (a b : Int) (c : Manager.Chunk)
    (h : s.chunks (a, b) = some c) :
    ((Manager.markDirty s a b).chunks (a, b)).map (fun ch => ch.dirty) = some true := by
  unfold Manager.markDirty
  rw [h]
  simp

/-- setBlock stores the write-through result at the resolved chunk key. -/
theorem setBlock_chunks_main (s : Manager.CMState) (wx wy wz : Int) (t : Nat)
    (c : Manager.Chunk)
    (hc : s.chunks (Int.fdiv wx CHUNK_SIZE, Int.fdiv wz CHUNK_SIZE) = some c) :
    (Manager.setBlock s wx wy wz t).chunks (Int.fdiv wx CHUNK_SIZE, Int.fdiv wz CHUNK_SIZE) =
      some (Manager.chunkSetBlock c
        ((Int.tmod wx CHUNK_SIZE + CHUNK_SIZE).tmod CHUNK_SIZE) wy
        ((Int.tmod wz CHUNK_SIZE + CHUNK_SIZE).tmod CHUNK_SIZE) t) := by
  simp only [Manager.setBlock, hc]
  simp only [CHUNK_SIZE] at *
  split_ifs <;>
    simp_all <;>
    (repeat rw [markDirty_chunks_ne]) <;>
    first
      | (simp; done)
      | omega
      | (simp only [ne_eq, Prod.mk.injEq, not_and]; intros; omega)

/-- Projection of a literal manager state. -/
theorem mkCMState_chunks (f : Int × Int → Option Manager.Chunk)
    (m : Int × Int → Bool) (k : Int × Int) :
    (Manager.CMState.mk f m).chunks k = f k := rfl

/-- Marking any chunk dirty preserves an already-true dirty flag at any key. -/
theorem markDirty_preserves_marked (s : Manager.CMState) (a b : Int) (k : Int × Int)
    (h : (s.chunks k).map (fun ch => ch.dirty) = some true) :
    ((Manager.markDirty s a b).chunks k).map (fun ch => ch.dirty) = some true := by
  unfold Manager.markDirty
  cases hm : s.chunks (a, b) with
  | none => simpa using h
  | some c =>
      by_cases hk : k = (a, b)
      · subst hk
        simp
      · simpa [hk] using h

/-- Conditional markDirty also preserves an established dirty flag. -/
theorem markDirty_if_preserves (p : Prop) [Decidable p] (s : Manager.CMState)
    (a b : Int) (k : Int × Int)
    (h : (s.chunks k).map (fun ch => ch.dirty) = some true) :
    (((if p then Manager.markDirty s a b else s)).chunks k).map (fun ch => ch.dirty) =
      some true := by
  split
  · exact markDirty_preserves_marked s a b k h
  · exact h

/-- A boundary write at local x = 0 marks the west neighbour chunk dirty. -/
theorem setBlock_marks_west (s : Manager.CMState) (wx wy wz : Int) (t : Nat)
    (c cn : Manager.Chunk)
    (hc : s.chunks (Int.fdiv wx CHUNK_SIZE, Int.fdiv wz CHUNK_SIZE) = some c)
    (hlx : (Int.tmod wx CHUNK_SIZE + CHUNK_SIZE).tmod CHUNK_SIZE = 0)
    (hcn : s.chunks (Int.fdiv wx CHUNK_SIZE - 1, Int.fdiv wz CHUNK_SIZE) = some cn) :
    ((Manager.setBlock s wx wy wz t).chunks
        (Int.fdiv wx CHUNK_SIZE - 1, Int.fdiv wz CHUNK_SIZE)).map (fun ch => ch.dirty) =
      some true := by
  simp only [Manager.setBlock, hc]
  simp only [CHUNK_SIZE] at *
  apply markDirty_if_preserves
  apply markDirty_if_preserves
  apply markDirty_if_preserves
  rw [if_pos hlx]
  apply markDirty_marks _ _ _ cn
  simp only [mkCMState_chunks]
  rw [if_neg]
  · exact hcn
  · simp only [ne_eq, Prod.mk.injEq, not_and]
    intros
    omega

/-- A boundary write at local x = 15 marks the east neighbour chunk dirty. -/
theorem setBlock_marks_east (s : Manager.CMState) (wx wy wz : Int) (t : Nat)
    (c cn : Manager.Chunk)
    (hc : s.chunks (Int.fdiv wx CHUNK_SIZE, Int.fdiv wz CHUNK_SIZE) = some c)
    (hlx : (Int.tmod wx CHUNK_SIZE + CHUNK_SIZE).tmod CHUNK_SIZE = (CHUNK_SIZE : Int) - 1)
    (hcn : s.chunks (Int.fdiv wx CHUNK_SIZE + 1, Int.fdiv wz CHUNK_SIZE) = some cn) :
    ((Manager.setBlock s wx wy wz t).chunks
        (Int.fdiv wx CHUNK_SIZE + 1, Int.fdiv wz CHUNK_SIZE)).map (fun ch => ch.dirty) =
      some true := by
  simp only [Manager.setBlock, hc]
  simp only [CHUNK_SIZE] at *
  norm_num at hlx
  apply markDirty_if_preserves
  apply markDirty_if_preserves
  rw [if_pos]
  swap
  · norm_num [hlx]
  apply markDirty_marks _ _ _ cn
  split_ifs <;>
    (repeat rw [markDirty_chunks_ne]) <;>
    first
      | (simp only [mkCMState_chunks]
         rw [if_neg]
         · exact hcn
         · simp only [ne_eq, Prod.mk.injEq, not_and]
           intros
           omega)
      | (simp only [ne_eq, Prod.mk.injEq, not_and]; intros; omega)

/-- A boundary write at local z = 0 marks the north neighbour chunk dirty. -/
theorem setBlock_marks_north (s : Manager.CMState) (wx wy wz : Int) (t : Nat)
    (c cn : Manager.Chunk)
    (hc : s.chunks (Int.fdiv wx CHUNK_SIZE, Int.fdiv wz CHUNK_SIZE) = some c)
    (hlz : (Int.tmod wz CHUNK_SIZE + CHUNK_SIZE).tmod CHUNK_SIZE = 0)
    (hcn : s.chunks (Int.fdiv wx CHUNK_SIZE, Int.fdiv wz CHUNK_SIZE - 1) = some cn) :
    ((Manager.setBlock s wx wy wz t).chunks
        (Int.fdiv wx CHUNK_SIZE, Int.fdiv wz CHUNK_SIZE - 1)).map (fun ch => ch.dirty) =
      some true := by
  simp only [Manager.setBlock, hc]
  simp only [CHUNK_SIZE] at *
  apply markDirty_if_preserves
  rw [if_pos hlz]
  apply markDirty_marks _ _ _ cn
  split_ifs <;>
    (repeat rw [markDirty_chunks_ne]) <;>
    first
      | (simp only [mkCMState_chunks]
         rw [if_neg]
         · exact hcn
         · simp only [ne_eq, Prod.mk.injEq, not_and]
           intros
           omega)
      | (simp only [ne_eq, Prod.mk.injEq, not_and]; intros; omega)

/-- A boundary write at local z = 15 marks the south neighbour chunk dirty. -/
theorem setBlock_marks_south (s : Manager.CMState) (wx wy wz : Int) (t : Nat)
    (c cn : Manager.Chunk)
    (hc : s.chunks (Int.fdiv wx CHUNK_SIZE, Int.fdiv wz CHUNK_SIZE) = some c)
    (hlz : (Int.tmod wz CHUNK_SIZE + CHUNK_SIZE).tmod CHUNK_SIZE = (CHUNK_SIZE : Int) - 1)
    (hcn : s.chunks (Int.fdiv wx CHUNK_SIZE, Int.fdiv wz CHUNK_SIZE + 1) = some cn) :
    ((Manager.setBlock s wx wy wz t).chunks
        (Int.fdiv wx CHUNK_SIZE, Int.fdiv wz CHUNK_SIZE + 1)).map (fun ch => ch.dirty) =
      some true := by
  simp only [Manager.setBlock, hc]
  simp only [CHUNK_SIZE] at *
  norm_num at hlz
  rw [if_pos]
  swap
  · norm_num [hlz]
  apply markDirty_marks _ _ _ cn
  split_ifs <;>
    (repeat rw [markDirty_chunks_ne]) <;>
    first
      | (simp only [mkCMState_chunks]
         rw [if_neg]
         · exact hcn
         · simp only [ne_eq, Prod.mk.injEq, not_and]
           intros
           omega)
      | (simp only [ne_eq, Prod.mk.injEq, not_and]; intros; omega)

/-- An in-bounds, value-changing chunk write stores the value and raises
the dirty flag. -/
theorem chunkSetBlock_effect (c : Manager.Chunk) (x y z : Int) (t : Nat)
    (hb : Manager.inBounds x y z = true)
    (hne : c.data (Manager.getIndex x.toNat y.toNat z.toNat) ≠ t) :
    (Manager.chunkSetBlock c x y z t).data
        (Manager.getIndex x.toNat y.toNat z.toNat) = t ∧
    (Manager.chunkSetBlock c x y z t).dirty = true := by
  unfold Manager.chunkSetBlock
  simp [hb, hne]

/-- A manager holding chunk (0, 0) whose blocks are all id 1, clean. -/
def cmC8 : Manager.CMState :=
  { chunks := fun k => if k = (0, 0) then some ⟨0, 0, fun _ => 1, false⟩ else none
    meshing := fun _ => false }

/-- C8 counterexample: writing the value a voxel already holds resolves to
a loaded chunk and is accepted, but Chunk.setBlock only dirties the chunk
when the stored value changes, so the dirty flag stays false —
contradicting the claim that every resolving edit sets the dirty flag. -/
theorem c8_same_value_write_not_dirty :
    ((Manager.setBlock cmC8 0 5 0 1).chunks (0, 0)).map (fun ch => ch.dirty) =
      some false := by
  decide

/-- C8 (amended): for an edit that resolves to a loaded chunk, the write
through and the dirty flag happen provided the y coordinate is in bounds
and the new block id differs from the stored one; independently of those
provisos (the four markDirty calls run even when Chunk.setBlock is a
no-op), an edit resolving to local lateral coordinate 0 or S-1 marks the
adjacent loaded neighbour chunk dirty. -/
theorem c8_setBlock_effects
    (s : Manager.CMState) (wx wy wz : Int) (t : Nat) (c : Manager.Chunk)
    (hc : s.chunks (Int.fdiv wx CHUNK_SIZE, Int.fdiv wz CHUNK_SIZE) = some c) :
    (0 ≤ wy → wy < (CHUNK_HEIGHT : Int) →
      c.data (Manager.getIndex
        ((Int.tmod wx CHUNK_SIZE + CHUNK_SIZE).tmod CHUNK_SIZE).toNat wy.toNat
        ((Int.tmod wz CHUNK_SIZE + CHUNK_SIZE).tmod CHUNK_SIZE).toNat) ≠ t →
      (((Manager.setBlock s wx wy wz t).chunks
          (Int.fdiv wx CHUNK_SIZE, Int.fdiv wz CHUNK_SIZE)).map
          (fun ch => ch.data (Manager.getIndex
            ((Int.tmod wx CHUNK_SIZE + CHUNK_SIZE).tmod CHUNK_SIZE).toNat wy.toNat
            ((Int.tmod wz CHUNK_SIZE + CHUNK_SIZE).tmod CHUNK_SIZE).toNat)) = some t) ∧
      (((Manager.setBlock s wx wy wz t).chunks
          (Int.fdiv wx CHUNK_SIZE, Int.fdiv wz CHUNK_SIZE)).map
          (fun ch => ch.dirty) = some true)) ∧
    ((Int.tmod wx CHUNK_SIZE + CHUNK_SIZE).tmod CHUNK_SIZE = 0 →
      ∀ cn, s.chunks (Int.fdiv wx CHUNK_SIZE - 1, Int.fdiv wz CHUNK_SIZE) = some cn →
        ((Manager.setBlock s wx wy wz t).chunks
          (Int.fdiv wx CHUNK_SIZE - 1, Int.fdiv wz CHUNK_SIZE)).map
          (fun ch => ch.dirty) = some true) ∧
    ((Int.tmod wx CHUNK_SIZE + CHUNK_SIZE).tmod CHUNK_SIZE = (CHUNK_SIZE : Int) - 1 →
      ∀ cn, s.chunks (Int.fdiv wx CHUNK_SIZE + 1, Int.fdiv wz CHUNK_SIZE) = some cn →
        ((Manager.setBlock s wx wy wz t).chunks
          (Int.fdiv wx CHUNK_SIZE + 1, Int.fdiv wz CHUNK_SIZE)).map
          (fun ch => ch.dirty) = some true) ∧
    ((Int.tmod wz CHUNK_SIZE + CHUNK_SIZE).tmod CHUNK_SIZE = 0 →
      ∀ cn, s.chunks (Int.fdiv wx CHUNK_SIZE, Int.fdiv wz CHUNK_SIZE - 1) = some cn →
        ((Manager.setBlock s wx wy wz t).chunks
          (Int.fdiv wx CHUNK_SIZE, Int.fdiv wz CHUNK_SIZE - 1)).map
          (fun ch => ch.dirty) = some true) ∧
    ((Int.tmod wz CHUNK_SIZE + CHUNK_SIZE).tmod CHUNK_SIZE = (CHUNK_SIZE : Int) - 1 →
      ∀ cn, s.chunks (Int.fdiv wx CHUNK_SIZE, Int.fdiv wz CHUNK_SIZE + 1) = some cn →
        ((Manager.setBlock s wx wy wz t).chunks
          (Int.fdiv wx CHUNK_SIZE, Int.fdiv wz CHUNK_SIZE + 1)).map
          (fun ch => ch.dirty) = some true) := by
  refine ⟨?_, ?_, ?_, ?_, ?_⟩
  · intro hy0 hy1 hne
    have hbx := jsLocal_bounds wx
    have hbz := jsLocal_bounds wz
    have hb : Manager.inBounds ((Int.tmod wx CHUNK_SIZE + CHUNK_SIZE).tmod CHUNK_SIZE) wy
        ((Int.tmod wz CHUNK_SIZE + CHUNK_SIZE).tmod CHUNK_SIZE) = true := by
      simp only [Manager.inBounds, CHUNK_SIZE, CHUNK_HEIGHT, Bool.and_eq_true,
        decide_eq_true_eq] at *
      push_cast at *
      omega
    have heff := chunkSetBlock_effect c
      ((Int.tmod wx CHUNK_SIZE + CHUNK_SIZE).tmod CHUNK_SIZE) wy
      ((Int.tmod wz CHUNK_SIZE + CHUNK_SIZE).tmod CHUNK_SIZE) t hb hne
    constructor
    · rw [setBlock_chunks_main s wx wy wz t c hc]
      simpa using heff.1
    · rw [setBlock_chunks_main s wx wy wz t c hc]
      simpa using heff.2
  · exact fun hlx cn hcn => setBlock_marks_west s wx wy wz t c cn hc hlx hcn
  · exact fun hlx cn hcn => setBlock_marks_east s wx wy wz t c cn hc hlx hcn
  · exact fun hlz cn hcn => setBlock_marks_north s wx wy wz t c cn hc hlz hcn
  · exact fun hlz cn hcn => setBlock_marks_south s wx wy wz t c cn hc hlz hcn

/-- A manager holding a clean all-air chunk at (0, 0) and a clean west
neighbour at (-1, 0). -/
def cmW : Manager.CMState :=
  { chunks := fun k =>
      if k = (0, 0) then some ⟨0, 0, fun _ => 0, false⟩
      else if k = (-1, 0) then some ⟨-1, 0, fun _ => 0, false⟩
      else none
    meshing := fun _ => false }

/-- C8 witness: the amended theorem applied to a concrete boundary write
of stone at world (0, 5, 0), which dirties the edited chunk and its loaded
west neighbour. -/
theorem c8_setBlock_effects_witness :
    ((Manager.setBlock cmW 0 5 0 1).chunks (0, 0)).map (fun ch => ch.dirty) = some true ∧
    ((Manager.setBlock cmW 0 5 0 1).chunks (-1, 0)).map (fun ch => ch.dirty) = some true := by
  have h := c8_setBlock_effects cmW 0 5 0 1 ⟨0, 0, fun _ => 0, false⟩
    (by simp [cmW, CHUNK_SIZE])
  refine ⟨?_, ?_⟩
  · have h2 := (h.1 (by norm_num) (by simp [CHUNK_HEIGHT]) (by simp [Manager.getIndex])).2
    simpa [CHUNK_SIZE] using h2
  · have h3 := h.2.1 (by simp [CHUNK_SIZE]) ⟨-1, 0, fun _ => 0, false⟩
      (by simp [cmW, CHUNK_SIZE])
    simpa [CHUNK_SIZE] using h3

/-! Claim C4: determinism of meshChunk. -/

/-- C4: meshChunk is embedded as a pure function of its inputs — it reads
no global state and uses no randomness — so for every fixed input tuple
two invocations produce identical opaque and transparent MeshData,
including vertex counts, array values and index order. -/
theorem c4_meshChunk_deterministic (blocks : ByteFn) (cx cz : Int)
    (neighborBlocks : NeighborMap) (blockInfo : BlockTable) (light : ByteFn)
    (neighborLights : NeighborMap) :
    Mesher.meshChunk blocks cx cz neighborBlocks blockInfo light neighborLights =
      Mesher.meshChunk blocks cx cz neighborBlocks blockInfo light neighborLights :=
  rfl

/-! Claims C7 and C9: AO values and mesh-buffer shape. -/

namespace Mesher

/-- The categorical AO values of the spec. -/
def aoAllowed (a : ℚ) : Prop :=
  a = 1/4 ∨ a = 1/2 ∨ a = 3/4 ∨ a = 1

/-- vertexAO only ever returns one of the four categorical values. -/
theorem vertexAO_mem (s1 s2 c : Nat) : aoAllowed (vertexAO s1 s2 c) := by
  unfold vertexAO aoAllowed
  split_ifs
  · left; rfl
  · split
    · right; right; right; rfl
    · right; right; left; rfl
    · right; left; rfl
    · left; rfl

/-- All four corners produced by computeFaceAO are categorical AO values. -/
theorem computeFaceAO_mem (x y z : Int) (dir : Nat) (blocks : ByteFn)
    (neighbors : NeighborMap) (blockInfo : BlockTable) :
    aoAllowed (computeFaceAO x y z dir blocks neighbors blockInfo).1 ∧
    aoAllowed (computeFaceAO x y z dir blocks neighbors blockInfo).2.1 ∧
    aoAllowed (computeFaceAO x y z dir blocks neighbors blockInfo).2.2.1 ∧
    aoAllowed (computeFaceAO x y z dir blocks neighbors blockInfo).2.2.2 := by
  unfold computeFaceAO
  split_ifs <;>
    first
      | exact ⟨vertexAO_mem _ _ _, vertexAO_mem _ _ _, vertexAO_mem _ _ _, vertexAO_mem _ _ _⟩
      | exact ⟨Or.inr (Or.inr (Or.inr rfl)), Or.inr (Or.inr (Or.inr rfl)),
          Or.inr (Or.inr (Or.inr rfl)), Or.inr (Or.inr (Or.inr rfl))⟩

/-- A quad whose four AO corners are categorical values. -/
def quadAOok (q : Quad) : Prop :=
  aoAllowed q.ao.1 ∧ aoAllowed q.ao.2.1 ∧ aoAllowed q.ao.2.2.1 ∧ aoAllowed q.ao.2.2.2

/-- The AO corners of every emitted quad come from computeFaceAO. -/
theorem emitQuad_ao (cx cz : Int) (dir d : Nat) (r : Rect) (blocks : ByteFn)
    (neighbors : NeighborMap) (blockInfo : BlockTable) :
    (emitQuad cx cz dir d r blocks neighbors blockInfo).ao =
      computeFaceAO (posOf dir d r.u r.v).1 (posOf dir d r.u r.v).2.1
        (posOf dir d r.u r.v).2.2 dir blocks neighbors blockInfo :=
  rfl

/-- Every quad collected by allQuads has categorical AO corners. -/
theorem allQuads_aook (cx cz : Int) (blocks : ByteFn) (neighbors : NeighborMap)
    (blockInfo : BlockTable) (light : ByteFn) (neighborLights : NeighborMap) :
    ∀ q ∈ allQuads cx cz blocks neighbors blockInfo light neighborLights, quadAOok q := by
  intro q hq
  simp only [allQuads, dirQuads, sliceQuads, List.mem_flatMap, List.mem_map] at hq
  obtain ⟨dir, -, d, -, r, -, rfl⟩ := hq
  unfold quadAOok
  rw [emitQuad_ao]
  exact computeFaceAO_mem _ _ _ _ _ _ _

/-- The aos buffer of pushQuad extends the old one by the four corners. -/
theorem pushQuad_aos (t : TempArrays) (q : Quad) :
    (pushQuad t q).aos = t.aos ++ [q.ao.1, q.ao.2.1, q.ao.2.2.1, q.ao.2.2.2] :=
  rfl

/-- Folding routeQuad over AO-categorical quads keeps every stored AO value
categorical in both passes. -/
theorem foldl_routeQuad_aos (qs : List Quad) (acc : TempArrays × TempArrays)
    (hqs : ∀ q ∈ qs, quadAOok q)
    (h1 : ∀ a ∈ acc.1.aos, aoAllowed a) (h2 : ∀ a ∈ acc.2.aos, aoAllowed a) :
    (∀ a ∈ (qs.foldl routeQuad acc).1.aos, aoAllowed a) ∧
    (∀ a ∈ (qs.foldl routeQuad acc).2.aos, aoAllowed a) := by
  induction qs generalizing acc with
  | nil => exact ⟨h1, h2⟩
  | cons q qs ih =>
      have hq := hqs q (List.mem_cons_self q qs)
      have hstep : ∀ (tp : TempArrays), (∀ a ∈ tp.aos, aoAllowed a) →
          ∀ a ∈ (pushQuad tp q).aos, aoAllowed a := by
        intro tp ht a ha
        rw [pushQuad_aos] at ha
        rcases List.mem_append.mp ha with h | h
        · exact ht a h
        · simp only [List.mem_cons, List.not_mem_nil, or_false] at h
          rcases h with rfl | rfl | rfl | rfl
          · exact hq.1
          · exact hq.2.1
          · exact hq.2.2.1
          · exact hq.2.2.2
      refine ih (routeQuad acc q) (fun p hp => hqs p (List.mem_cons_of_mem q hp)) ?_ ?_ <;>
        · unfold routeQuad
          split <;>
            first
              | exact h1
              | exact h2
              | exact hstep _ h1
              | exact hstep _ h2

/-- Invariant of the growing per-pass buffers: every parallel array length
agrees with vertexCount and every stored index is below it. -/
def tempWF (t : TempArrays) : Prop :=
  t.positions.length = 3 * t.vertexCount ∧
  t.normals.length = 3 * t.vertexCount ∧
  t.uvs.length = 2 * t.vertexCount ∧
  t.aos.length = t.vertexCount ∧
  t.lights.length = t.vertexCount ∧
  2 * t.indices.length = 3 * t.vertexCount ∧
  (∀ i ∈ t.indices, i < t.vertexCount)

/-- The empty buffers are well formed. -/
theorem tempWF_empty : tempWF createTemp := by
  refine ⟨rfl, rfl, rfl, rfl, rfl, rfl, ?_⟩
  intro i hi
  simp [createTemp] at hi

/-- pushQuad preserves the buffer invariant: it adds 4 vertices, 12
position and normal entries, 8 uv entries, 4 AO and light entries and 6
indices, each index below the new vertex count. -/
theorem tempWF_push (t : TempArrays) (q : Quad) (h : tempWF t) :
    tempWF (pushQuad t q) := by
  obtain ⟨hp, hn, hu, ha, hl, hi, hidx⟩ := h
  unfold pushQuad
  refine ⟨?_, ?_, ?_, ?_, ?_, ?_, ?_⟩ <;>
    simp only [List.length_append, List.length_cons, List.length_nil]
  · simp only [hp]; ring
  · simp only [hn]; ring
  · simp only [hu]; ring
  · simp only [ha]
  · simp only [hl]
  · split <;> simp only [List.length_append, List.length_cons, List.length_nil] <;> omega
  · intro i hmem
    split at hmem <;>
      · rcases List.mem_append.mp hmem with h | h
        · exact Nat.lt_of_lt_of_le (hidx i h) (by omega)
        · simp only [List.mem_cons, List.not_mem_nil, or_false] at h
          rcases h with rfl | rfl | rfl | rfl | rfl | rfl <;> omega

/-- Folding routeQuad over any quad list preserves well-formedness of both
passes. -/
theorem foldl_routeQuad_wf (qs : List Quad) (acc : TempArrays × TempArrays)
    (h1 : tempWF acc.1) (h2 : tempWF acc.2) :
    tempWF (qs.foldl routeQuad acc).1 ∧ tempWF (qs.foldl routeQuad acc).2 := by
  induction qs generalizing acc with
  | nil => exact ⟨h1, h2⟩
  | cons q qs ih =>
      refine ih (routeQuad acc q) ?_ ?_ <;>
        · unfold routeQuad
          split <;>
            first
              | exact h1
              | exact h2
              | exact tempWF_push _ _ h1
              | exact tempWF_push _ _ h2

/-- Shape contract of a finished MeshData against its vertex count (the
length of the per-vertex aos array). -/
def wellFormed (m : MeshData) : Prop :=
  m.positions.length = 3 * m.aos.length ∧
  m.normals.length = 3 * m.aos.length ∧
  m.uvs.length = 2 * m.aos.length ∧
  m.lights.length = m.aos.length ∧
  2 * m.indices.length = 3 * m.aos.length ∧
  (∀ i ∈ m.indices, i < m.aos.length)

/-- Converting well-formed buffers yields well-formed MeshData. -/
theorem wellFormed_toMeshData (t : TempArrays) (h : tempWF t) :
    wellFormed (toMeshData t) := by
  obtain ⟨hp, hn, hu, ha, hl, hi, hidx⟩ := h
  exact ⟨by simp [toMeshData, hp, ha], by simp [toMeshData, hn, ha],
    by simp [toMeshData, hu, ha], by simp [toMeshData, hl, ha],
    by simp [toMeshData, hi, ha], by simpa [toMeshData, ha] using hidx⟩

end Mesher

/-- C9: both MeshData values returned by meshChunk are well formed — the
parallel arrays agree with the vertex count V (positions 3V, normals 3V,
uvs 2V, aos V, lights V, indices 3V/2) and every index is below V. -/
theorem c9_meshChunk_wellFormed (blocks : ByteFn) (cx cz : Int)
    (neighborBlocks : NeighborMap) (blockInfo : BlockTable) (light : ByteFn)
    (neighborLights : NeighborMap) :
    Mesher.wellFormed
      (Mesher.meshChunk blocks cx cz neighborBlocks blockInfo light neighborLights).1 ∧
    Mesher.wellFormed
      (Mesher.meshChunk blocks cx cz neighborBlocks blockInfo light neighborLights).2 := by
  have h := Mesher.foldl_routeQuad_wf
    (Mesher.allQuads cx cz blocks neighborBlocks blockInfo light neighborLights)
    (Mesher.createTemp, Mesher.createTemp) Mesher.tempWF_empty Mesher.tempWF_empty
  exact ⟨Mesher.wellFormed_toMeshData _ h.1, Mesher.wellFormed_toMeshData _ h.2⟩

/-- C7: ambient-occlusion weights.  First, the categorical mapping of
vertexAO on occluder flags in {0, 1}: 0 occluders give 1, 1 gives 3/4, two
non-adjacent occluders give 1/2, both edge occluders give 1/4 regardless
of the diagonal, and 3 occluders give 1/4 — so every value lies in
{1/4, 1/2, 3/4, 1}.  Second, every AO weight stored in either pass of any
meshChunk result is one of those four values. -/
theorem c7_ao_bounds :
    (∀ s1 s2 c : Nat, s1 ≤ 1 → s2 ≤ 1 → c ≤ 1 →
      Mesher.aoAllowed (Mesher.vertexAO s1 s2 c) ∧
      (s1 + s2 + c = 0 → Mesher.vertexAO s1 s2 c = 1) ∧
      (s1 + s2 + c = 1 → Mesher.vertexAO s1 s2 c = 3/4) ∧
      (s1 + s2 + c = 2 → ¬(s1 = 1 ∧ s2 = 1) → Mesher.vertexAO s1 s2 c = 1/2) ∧
      (s1 = 1 → s2 = 1 → Mesher.vertexAO s1 s2 c = 1/4) ∧
      (s1 + s2 + c = 3 → Mesher.vertexAO s1 s2 c = 1/4)) ∧
    (∀ (blocks : ByteFn) (cx cz : Int) (neighborBlocks : NeighborMap)
        (blockInfo : BlockTable) (light : ByteFn) (neighborLights : NeighborMap),
      (∀ a ∈ (Mesher.meshChunk blocks cx cz neighborBlocks blockInfo light
          neighborLights).1.aos, Mesher.aoAllowed a) ∧
      (∀ a ∈ (Mesher.meshChunk blocks cx cz neighborBlocks blockInfo light
          neighborLights).2.aos, Mesher.aoAllowed a)) := by
  constructor
  · intro s1 s2 c h1 h2 h3
    interval_cases s1 <;> interval_cases s2 <;> interval_cases c <;>
      exact ⟨Mesher.vertexAO_mem _ _ _,
        by intros; simp_all [Mesher.vertexAO],
        by intros; simp_all [Mesher.vertexAO],
        by intros; simp_all [Mesher.vertexAO],
        by intros; simp_all [Mesher.vertexAO],
        by intros; simp_all [Mesher.vertexAO]⟩
  · intro blocks cx cz neighborBlocks blockInfo light neighborLights
    have h := Mesher.foldl_routeQuad_aos
      (Mesher.allQuads cx cz blocks neighborBlocks blockInfo light neighborLights)
      (Mesher.createTemp, Mesher.createTemp)
      (Mesher.allQuads_aook cx cz blocks neighborBlocks blockInfo light neighborLights)
      (by intro a ha; simp [Mesher.createTemp] at ha)
      (by intro a ha; simp [Mesher.createTemp] at ha)
    exact ⟨fun a ha => h.1 a ha, fun a ha => h.2 a ha⟩

/-- C7 witness: the mapping conjunct applied at concrete occluder flags. -/
theorem c7_ao_bounds_witness :
    Mesher.aoAllowed (Mesher.vertexAO 1 1 0) ∧ Mesher.vertexAO 0 0 0 = 1 ∧
    Mesher.vertexAO 1 0 0 = 3/4 ∧ Mesher.vertexAO 1 0 1 = 1/2 ∧
    Mesher.vertexAO 1 1 0 = 1/4 ∧ Mesher.vertexAO 1 1 1 = 1/4 := by
  have h1 := (c7_ao_bounds.1 1 1 0 (by norm_num) (by norm_num) (by norm_num)).1
  have h2 := (c7_ao_bounds.1 0 0 0 (by norm_num) (by norm_num) (by norm_num)).2.1 (by norm_num)
  have h3 := (c7_ao_bounds.1 1 0 0 (by norm_num) (by norm_num) (by norm_num)).2.2.1 (by norm_num)
  have h4 := (c7_ao_bounds.1 1 0 1 (by norm_num) (by norm_num) (by norm_num)).2.2.2.1
    (by norm_num) (by norm_num)
  have h5 := (c7_ao_bounds.1 1 1 0 (by norm_num) (by norm_num) (by norm_num)).2.2.2.2.1
    rfl rfl
  have h6 := (c7_ao_bounds.1 1 1 1 (by norm_num) (by norm_num) (by norm_num)).2.2.2.2.2
    (by norm_num)
  exact ⟨h1, h2, h3, h4, h5, h6⟩

/-! Claim C5: the visibility (no-face) invariant of the mesher. -/

/-- Bitwise-or with a non-zero left operand is non-zero. -/
theorem lor_ne_zero_left (a x : Nat) (h : a ≠ 0) : a ||| x ≠ 0 := by
  obtain ⟨i, hi⟩ := Nat.ne_zero_implies_bit_true h
  intro hz
  have ht := Nat.testBit_lor a x i
  rw [hz] at ht
  simp [Nat.zero_testBit, hi] at ht

/-- C5: for two face-adjacent voxels holding block ids a and b: if both
hold the same transparent block type, neither side's visibility test fires
and the mask cell of either voxel stays 0 (no face); if a is opaque and b
is transparent (or air), a's side is visible and b's is not — exactly one
face, on the opaque side — and a's mask cell is non-zero. -/
theorem c5_no_face_invariant (bi : BlockTable) (a b : Nat) (ia ib : BlockInfo)
    (ha : bi a = some ia) (hb : bi b = some ib) (ha0 : a ≠ 0) (hb0 : b ≠ 0) :
    (ia.transparent = true → a = b →
      Mesher.faceVisible ia a b bi = false ∧ Mesher.faceVisible ib b a bi = false) ∧
    (ia.transparent = false → ib.transparent = true →
      Mesher.faceVisible ia a b bi = true ∧ Mesher.faceVisible ib b a bi = false) ∧
    (ia.transparent = false → Mesher.faceVisible ia a 0 bi = true) ∧
    (∀ (dir : Nat) (blocks : ByteFn) (nbs : NeighborMap) (light : ByteFn)
        (nl : NeighborMap) (lx ly lz : Int),
      Mesher.getBlock blocks lx ly lz = a →
      Mesher.getBlockOrNeighbor blocks (lx + (Mesher.dirNormal dir).1)
        (ly + (Mesher.dirNormal dir).2.1) (lz + (Mesher.dirNormal dir).2.2) nbs = b →
      (ia.transparent = true → a = b →
        Mesher.maskAt dir lx ly lz blocks nbs bi light nl = 0) ∧
      (ia.transparent = false → ib.transparent = true →
        Mesher.maskAt dir lx ly lz blocks nbs bi light nl ≠ 0)) := by
  refine ⟨?_, ?_, ?_, ?_⟩
  · intro htr hab
    subst hab
    rw [ha] at hb
    obtain rfl : ia = ib := by injection hb
    constructor <;> simp [Mesher.faceVisible, ha, ha0, htr]
  · intro hopa htr
    constructor
    · simp [Mesher.faceVisible, hb, hb0, htr, hopa]
    · simp [Mesher.faceVisible, ha, ha0, hopa]
  · intro _
    simp [Mesher.faceVisible]
  · intro dir blocks nbs light nl lx ly lz hga hgb
    constructor
    · intro htr hab
      subst hab
      rw [ha] at hb
      obtain rfl : ia = ib := by injection hb
      have hv : Mesher.faceVisible ia a a bi = false := by
        simp [Mesher.faceVisible, ha, ha0, htr]
      unfold Mesher.maskAt
      rw [hga]
      simp only [ha0, if_false, ha]
      rw [hgb, hv]
      simp
    · intro hopa htr
      have hv : Mesher.faceVisible ia a b bi = true := by
        simp [Mesher.faceVisible, hb, hb0, htr, hopa]
      unfold Mesher.maskAt
      rw [hga]
      simp only [ha0, if_false, ha]
      rw [hgb, hv]
      simp only [if_true]
      exact lor_ne_zero_left a _ ha0

/-- Block table with opaque stone (id 1) and transparent water (id 2). -/
def biC5 : BlockTable := fun id =>
  if id = 1 then some ⟨1, false, true, 0, 1, 1, 1⟩
  else if id = 2 then some ⟨2, true, false, 0, 3, 3, 3⟩
  else none

/-- C5 witness: the invariant applied to a concrete table where id 1 is
opaque stone and id 2 is transparent water. -/
theorem c5_no_face_invariant_witness :
    (Mesher.faceVisible ⟨2, true, false, 0, 3, 3, 3⟩ 2 2 biC5 = false) ∧
    (Mesher.faceVisible ⟨1, false, true, 0, 1, 1, 1⟩ 1 2 biC5 = true) ∧
    (Mesher.faceVisible ⟨2, true, false, 0, 3, 3, 3⟩ 2 1 biC5 = false) := by
  have h := c5_no_face_invariant biC5 2 2 ⟨2, true, false, 0, 3, 3, 3⟩
    ⟨2, true, false, 0, 3, 3, 3⟩ rfl rfl (by decide) (by decide)
  have h2 := c5_no_face_invariant biC5 1 2 ⟨1, false, true, 0, 1, 1, 1⟩
    ⟨2, true, false, 0, 3, 3, 3⟩ rfl rfl (by decide) (by decide)
  exact ⟨(h.1 rfl rfl).1, (h2.2.1 rfl rfl).1, (h2.2.1 rfl rfl).2⟩

/-! Claims C6 and C10: flood-fill monotonicity and termination. -/

namespace LightEngine

/-- High nibble of a sun-write byte: packing newLevel over a low nibble
recovers newLevel. -/
theorem sunWrite_hi (nl low : Nat) (hlow : low < 16) :
    ((nl <<< 4) ||| low) >>> 4 = nl := by
  apply Nat.eq_of_testBit_eq
  intro j
  have hlb : low.testBit (4 + j) = false := by
    apply Nat.testBit_lt_two_pow
    calc low < 16 := hlow
    _ = 2 ^ 4 := by norm_num
    _ ≤ 2 ^ (4 + j) := Nat.pow_le_pow_right (by norm_num) (by omega)
  have h4 : 4 ≤ 4 + j := Nat.le_add_right 4 j
  simp [Nat.testBit_shiftRight, Nat.testBit_lor, Nat.testBit_shiftLeft, hlb, h4,
    Nat.add_sub_cancel_left]

/-- Low nibble of a sun-write byte is untouched. -/
theorem sunWrite_lo (nl low : Nat) (hlow : low < 16) :
    ((nl <<< 4) ||| low) &&& 15 = low := by
  have h15 : (15 : Nat) = 2 ^ 4 - 1 := by norm_num
  rw [Nat.and_distrib_right]
  have h1 : (nl <<< 4) &&& 15 = 0 := by
    rw [Nat.shiftLeft_eq, h15, Nat.and_pow_two_sub_one_eq_mod]
    simp [Nat.mul_mod_left]
  have h2 : low &&& 15 = low := by
    rw [h15, Nat.and_pow_two_sub_one_eq_mod, Nat.mod_eq_of_lt (by norm_num; omega)]
  rw [h1, h2, Nat.zero_or]

/-- A sun-write byte stays below 256 when the new level is a nibble. -/
theorem sunWrite_lt (nl low : Nat) (hnl : nl < 16) (hlow : low < 16) :
    ((nl <<< 4) ||| low) < 256 := by
  have h1 : nl <<< 4 < 2 ^ 8 := by rw [Nat.shiftLeft_eq]; norm_num; omega
  have h2 : low < 2 ^ 8 := by norm_num; omega
  calc ((nl <<< 4) ||| low) < 2 ^ 8 := Nat.or_lt_two_pow h1 h2
  _ = 256 := by norm_num

/-- Low nibble of a block-light write byte: packing newLevel beside the
preserved high bits recovers newLevel. -/
theorem blkWrite_lo (hi nl : Nat) (hnl : nl < 16) :
    ((hi &&& 240) ||| nl) &&& 15 = nl := by
  have h15 : (15 : Nat) = 2 ^ 4 - 1 := by norm_num
  rw [Nat.and_distrib_right, Nat.and_assoc]
  have h0 : (240 : Nat) &&& 15 = 0 := by decide
  have h2 : nl &&& 15 = nl := by
    rw [h15, Nat.and_pow_two_sub_one_eq_mod, Nat.mod_eq_of_lt (by norm_num; omega)]
  rw [h0, Nat.and_zero, h2, Nat.zero_or]

/-- A block-light write byte stays below 256. -/
theorem blkWrite_lt (hi nl : Nat) (hhi : hi < 256) (hnl : nl < 16) :
    ((hi &&& 240) ||| nl) < 256 := by
  have h1 : (hi &&& 240) < 2 ^ 8 := lt_of_le_of_lt Nat.and_le_left (by norm_num; omega)
  have h2 : nl < 2 ^ 8 := by norm_num; omega
  calc ((hi &&& 240) ||| nl) < 2 ^ 8 := Nat.or_lt_two_pow h1 h2
  _ = 256 := by norm_num

/-- The low nibble extraction is always below 16. -/
theorem and15_lt (x : Nat) : x &&& 15 < 16 := by
  have h15 : (15 : Nat) = 2 ^ 4 - 1 := by norm_num
  rw [h15, Nat.and_pow_two_sub_one_eq_mod]
  have := Nat.mod_lt x (y := 2 ^ 4) (by norm_num)
  omega

/-- The sun nibble of a byte is below 16. -/
theorem shr4_lt (x : Nat) (hx : x < 256) : x >>> 4 < 16 := by
  rw [Nat.shiftRight_eq_div_pow]
  omega

end LightEngine

namespace LightEngine

/-- Case analysis of propagateSun: either it is a no-op, or it performs
exactly one guarded write at the neighbour index together with one push. -/
theorem propagateSun_cases (blocks : ByteFn) (isT : Nat → Bool) (l : ByteFn)
    (level : Nat) (x y z : Nat) (o : Int × Int × Int) :
    propagateSun blocks isT l level x y z o = (l, []) ∨
    (inBounds3 ((x : Int) + o.1) ((y : Int) + o.2.1) ((z : Int) + o.2.2) = true ∧
     isT (blocks (idx ((x : Int) + o.1).toNat ((y : Int) + o.2.1).toNat ((z : Int) + o.2.2).toNat)) = true ∧
     (if o.2.1 = -1 ∧ level = 15 then 15 else level - 1) ≠ 0 ∧
     (if o.2.1 = -1 ∧ level = 15 then 15 else level - 1) >
       l (idx ((x : Int) + o.1).toNat ((y : Int) + o.2.1).toNat ((z : Int) + o.2.2).toNat) >>> 4 ∧
     propagateSun blocks isT l level x y z o =
       (writeByte l (idx ((x : Int) + o.1).toNat ((y : Int) + o.2.1).toNat ((z : Int) + o.2.2).toNat)
          (((if o.2.1 = -1 ∧ level = 15 then 15 else level - 1) <<< 4) |||
            (l (idx ((x : Int) + o.1).toNat ((y : Int) + o.2.1).toNat ((z : Int) + o.2.2).toNat) &&& 0x0F)),
        [(((x : Int) + o.1).toNat, ((y : Int) + o.2.1).toNat, ((z : Int) + o.2.2).toNat)])) := by
  unfold propagateSun
  dsimp only []
  split_ifs <;>
    first
      | exact Or.inl rfl
      | (refine Or.inr ⟨?_, ?_, ?_, ?_, ?_⟩ <;> simp_all)

/-- Case analysis of propagateBlk, mirroring propagateSun_cases. -/
theorem propagateBlk_cases (blocks : ByteFn) (isT : Nat → Bool) (l : ByteFn)
    (level : Nat) (x y z : Nat) (o : Int × Int × Int) :
    propagateBlk blocks isT l level x y z o = (l, []) ∨
    (inBounds3 ((x : Int) + o.1) ((y : Int) + o.2.1) ((z : Int) + o.2.2) = true ∧
     isT (blocks (idx ((x : Int) + o.1).toNat ((y : Int) + o.2.1).toNat ((z : Int) + o.2.2).toNat)) = true ∧
     level - 1 ≠ 0 ∧
     level - 1 >
       l (idx ((x : Int) + o.1).toNat ((y : Int) + o.2.1).toNat ((z : Int) + o.2.2).toNat) &&& 0x0F ∧
     propagateBlk blocks isT l level x y z o =
       (writeByte l (idx ((x : Int) + o.1).toNat ((y : Int) + o.2.1).toNat ((z : Int) + o.2.2).toNat)
          ((l (idx ((x : Int) + o.1).toNat ((y : Int) + o.2.1).toNat ((z : Int) + o.2.2).toNat) &&& 0xF0) |||
            (level - 1)),
        [(((x : Int) + o.1).toNat, ((y : Int) + o.2.1).toNat, ((z : Int) + o.2.2).toNat)])) := by
  unfold propagateBlk
  dsimp only []
  split_ifs <;>
    first
      | exact Or.inl rfl
      | (refine Or.inr ⟨?_, ?_, ?_, ?_, ?_⟩ <;> simp_all)

end LightEngine

/-- The per-neighbour propagation discipline of both flood-fill loops.
Sunlight: whenever propagateSun changes the stored light array, the changed
byte's sun nibble strictly exceeds what was stored (write-only-if-greater),
is at most the source level (monotone attenuation), and equals the source
level only for straight-down propagation at full level 15.  Block light:
whenever propagateBlk changes the array, the changed byte's block nibble
strictly exceeds the stored one and is strictly below the source level. -/
theorem propagate_step_discipline (blocks : ByteFn) (isT : Nat → Bool) (l : ByteFn)
    (level : Nat) (x y z : Nat) (o : Int × Int × Int) (hlev : level ≤ 15) :
    (∀ i, (LightEngine.propagateSun blocks isT l level x y z o).1 i ≠ l i →
      (l i >>> 4 < (LightEngine.propagateSun blocks isT l level x y z o).1 i >>> 4 ∧
       (LightEngine.propagateSun blocks isT l level x y z o).1 i >>> 4 ≤ level ∧
       ((LightEngine.propagateSun blocks isT l level x y z o).1 i >>> 4 = level →
         o.2.1 = -1 ∧ level = 15))) ∧
    (∀ i, (LightEngine.propagateBlk blocks isT l level x y z o).1 i ≠ l i →
      (l i &&& 15 < (LightEngine.propagateBlk blocks isT l level x y z o).1 i &&& 15 ∧
       (LightEngine.propagateBlk blocks isT l level x y z o).1 i &&& 15 < level)) := by
  constructor
  · intro i hi
    rcases LightEngine.propagateSun_cases blocks isT l level x y z o with h | ⟨-, -, hnz, hgt, heq⟩
    · rw [h] at hi
      exact absurd rfl hi
    · rw [heq] at hi ⊢
      unfold LightEngine.writeByte at hi ⊢
      by_cases hieq : i = LightEngine.idx ((x : Int) + o.1).toNat ((y : Int) + o.2.1).toNat
          ((z : Int) + o.2.2).toNat
      · simp only [hieq, eq_self_iff_true, if_true] at hi ⊢
        rw [LightEngine.sunWrite_hi _ _ (LightEngine.and15_lt _)]
        by_cases hdown : o.2.1 = -1 ∧ level = 15
        · rw [if_pos hdown] at hgt ⊢
          exact ⟨hgt, by omega, fun _ => hdown⟩
        · rw [if_neg hdown] at hgt hnz ⊢
          exact ⟨hgt, by omega, fun h => absurd h (by omega)⟩
      · simp only [if_neg hieq] at hi
        exact absurd rfl hi
  · intro i hi
    rcases LightEngine.propagateBlk_cases blocks isT l level x y z o with h | ⟨-, -, hnz, hgt, heq⟩
    · rw [h] at hi
      exact absurd rfl hi
    · rw [heq] at hi ⊢
      unfold LightEngine.writeByte at hi ⊢
      by_cases hieq : i = LightEngine.idx ((x : Int) + o.1).toNat ((y : Int) + o.2.1).toNat
          ((z : Int) + o.2.2).toNat
      · simp only [hieq, eq_self_iff_true, if_true] at hi ⊢
        rw [LightEngine.blkWrite_lo _ _ (by omega)]
        omega
      · simp only [if_neg hieq] at hi
        exact absurd rfl hi

/-- All-air blocks for the C6 witness. -/
def c6blocks : ByteFn := fun _ => 0

/-- Air is the only transparent id in the C6 witness. -/
def c6isT : Nat → Bool := fun b => b = 0

/-- One full-sun voxel at (1,1,1), darkness elsewhere. -/
def c6l : ByteFn := fun i => if i = LightEngine.idx 1 1 1 then 240 else 0

namespace LightEngine

/-- Any in-chunk voxel's flat index is below the chunk volume. -/
theorem idx_lt_volume (x y z : Nat) (hx : x < 16) (hy : y < 256) (hz : z < 16) :
    idx x y z < CHUNK_VOLUME := by
  simp only [idx, CHUNK_VOLUME, CHUNK_SIZE, CHUNK_HEIGHT]
  omega

/-- Decode the bounds check into coordinate bounds. -/
theorem inBounds3_iff (nx ny nz : Int) :
    inBounds3 nx ny nz = true ↔
      0 ≤ nx ∧ nx < 16 ∧ 0 ≤ ny ∧ ny < 256 ∧ 0 ≤ nz ∧ nz < 16 := by
  simp only [inBounds3, CHUNK_SIZE, CHUNK_HEIGHT, Bool.and_eq_true, decide_eq_true_eq]
  norm_num
  tauto

/-- A write that strictly raises the sun nibble of an in-range voxel
strictly lowers the sunlight potential. -/
theorem sunPotential_write (l : ByteFn) (ni v : Nat) (hni : ni < CHUNK_VOLUME)
    (hup : l ni >>> 4 < v >>> 4) (hv : v >>> 4 ≤ 15) :
    sunPotential (writeByte l ni v) + 1 ≤ sunPotential l := by
  unfold sunPotential
  have hmem : ni ∈ Finset.range CHUNK_VOLUME := Finset.mem_range.mpr hni
  rw [← Finset.add_sum_erase _ (fun i => 15 - min 15 (writeByte l ni v i >>> 4)) hmem,
    ← Finset.add_sum_erase _ (fun i => 15 - min 15 (l i >>> 4)) hmem]
  have hrest :
      (Finset.sum ((Finset.range CHUNK_VOLUME).erase ni)
        (fun i => 15 - min 15 (writeByte l ni v i >>> 4))) =
      (Finset.sum ((Finset.range CHUNK_VOLUME).erase ni)
        (fun i => 15 - min 15 (l i >>> 4))) := by
    refine Finset.sum_congr rfl (fun j hj => ?_)
    have hne : j ≠ ni := Finset.ne_of_mem_erase hj
    simp [writeByte, hne]
  rw [hrest]
  have hat : writeByte l ni v ni = v := by simp [writeByte]
  rw [hat]
  have h2 : min 15 (l ni >>> 4) = l ni >>> 4 := min_eq_right (by omega)
  have h1 : min 15 (v >>> 4) = v >>> 4 := min_eq_right hv
  omega

/-- A write that strictly raises the block nibble of an in-range voxel
strictly lowers the block-light potential. -/
theorem blkPotential_write (l : ByteFn) (ni v : Nat) (hni : ni < CHUNK_VOLUME)
    (hup : l ni &&& 15 < v &&& 15) (hv : v &&& 15 ≤ 15) :
    blkPotential (writeByte l ni v) + 1 ≤ blkPotential l := by
  unfold blkPotential
  have hmem : ni ∈ Finset.range CHUNK_VOLUME := Finset.mem_range.mpr hni
  rw [← Finset.add_sum_erase _ (fun i => 15 - min 15 (writeByte l ni v i &&& 15)) hmem,
    ← Finset.add_sum_erase _ (fun i => 15 - min 15 (l i &&& 15)) hmem]
  have hrest :
      (Finset.sum ((Finset.range CHUNK_VOLUME).erase ni)
        (fun i => 15 - min 15 (writeByte l ni v i &&& 15))) =
      (Finset.sum ((Finset.range CHUNK_VOLUME).erase ni)
        (fun i => 15 - min 15 (l i &&& 15))) := by
    refine Finset.sum_congr rfl (fun j hj => ?_)
    have hne : j ≠ ni := Finset.ne_of_mem_erase hj
    simp [writeByte, hne]
  rw [hrest]
  have hat : writeByte l ni v ni = v := by simp [writeByte]
  rw [hat]
  have h2 : min 15 (l ni &&& 15) = l ni &&& 15 := min_eq_right (by omega)
  have h1 : min 15 (v &&& 15) = v &&& 15 := min_eq_right hv
  omega

/-- One sun propagation preserves the byte bound and pays for its push out
of the potential. -/
theorem propagateSun_spec (blocks : ByteFn) (isT : Nat → Bool) (l : ByteFn)
    (level : Nat) (x y z : Nat) (o : Int × Int × Int)
    (hl : ∀ i, l i < 256) (hlev : level ≤ 15) :
    (∀ i, (propagateSun blocks isT l level x y z o).1 i < 256) ∧
    sunPotential (propagateSun blocks isT l level x y z o).1 +
      (propagateSun blocks isT l level x y z o).2.length ≤ sunPotential l := by
  rcases propagateSun_cases blocks isT l level x y z o with h | ⟨hb, -, hnz, hgt, heq⟩
  · rw [h]
    exact ⟨hl, by simp⟩
  · rw [heq]
    dsimp only []
    have hbb := (inBounds3_iff _ _ _).mp hb
    have hni : idx ((x : Int) + o.1).toNat ((y : Int) + o.2.1).toNat ((z : Int) + o.2.2).toNat <
        CHUNK_VOLUME := idx_lt_volume _ _ _ (by omega) (by omega) (by omega)
    have hnl : (if o.2.1 = -1 ∧ level = 15 then 15 else level - 1) ≤ 15 := by
      split <;> omega
    have hhi := sunWrite_hi (if o.2.1 = -1 ∧ level = 15 then 15 else level - 1)
      (l (idx ((x : Int) + o.1).toNat ((y : Int) + o.2.1).toNat ((z : Int) + o.2.2).toNat) &&& 15)
      (and15_lt _)
    constructor
    · intro i
      unfold writeByte
      split
      · exact sunWrite_lt _ _ (by omega) (and15_lt _)
      · exact hl i
    · simp only [List.length_cons, List.length_nil]
      have := sunPotential_write l _ _ hni (by rw [hhi]; exact hgt) (by rw [hhi]; exact hnl)
      omega

/-- One block-light propagation preserves the byte bound and pays for its
push out of the potential. -/
theorem propagateBlk_spec (blocks : ByteFn) (isT : Nat → Bool) (l : ByteFn)
    (level : Nat) (x y z : Nat) (o : Int × Int × Int)
    (hl : ∀ i, l i < 256) (hlev : level ≤ 15) :
    (∀ i, (propagateBlk blocks isT l level x y z o).1 i < 256) ∧
    blkPotential (propagateBlk blocks isT l level x y z o).1 +
      (propagateBlk blocks isT l level x y z o).2.length ≤ blkPotential l := by
  rcases propagateBlk_cases blocks isT l level x y z o with h | ⟨hb, -, hnz, hgt, heq⟩
  · rw [h]
    exact ⟨hl, by simp⟩
  · rw [heq]
    dsimp only []
    have hbb := (inBounds3_iff _ _ _).mp hb
    have hni : idx ((x : Int) + o.1).toNat ((y : Int) + o.2.1).toNat ((z : Int) + o.2.2).toNat <
        CHUNK_VOLUME := idx_lt_volume _ _ _ (by omega) (by omega) (by omega)
    have hlo := blkWrite_lo
      (l (idx ((x : Int) + o.1).toNat ((y : Int) + o.2.1).toNat ((z : Int) + o.2.2).toNat))
      (level - 1) (by omega)
    constructor
    · intro i
      unfold writeByte
      split
      · exact blkWrite_lt _ _ (hl _) (by omega)
      · exact hl i
    · simp only [List.length_cons, List.length_nil]
      have := blkPotential_write l _ _ hni (by rw [hlo]; exact hgt) (by rw [hlo]; omega)
      omega

/-- Invariant and potential bookkeeping for the 6-neighbour sun fold. -/
theorem sunFold_aux (blocks : ByteFn) (isT : Nat → Bool) (level : Nat)
    (x y z : Nat) (hlev : level ≤ 15) :
    ∀ (os : List (Int × Int × Int)) (l0 : ByteFn) (acc : List (Nat × Nat × Nat)),
      (∀ i, l0 i < 256) →
      (∀ i, (List.foldl (fun (a : ByteFn × List (Nat × Nat × Nat)) o =>
          ((propagateSun blocks isT a.1 level x y z o).1,
           a.2 ++ (propagateSun blocks isT a.1 level x y z o).2)) (l0, acc) os).1 i < 256) ∧
      sunPotential (List.foldl (fun (a : ByteFn × List (Nat × Nat × Nat)) o =>
          ((propagateSun blocks isT a.1 level x y z o).1,
           a.2 ++ (propagateSun blocks isT a.1 level x y z o).2)) (l0, acc) os).1 +
        (List.foldl (fun (a : ByteFn × List (Nat × Nat × Nat)) o =>
          ((propagateSun blocks isT a.1 level x y z o).1,
           a.2 ++ (propagateSun blocks isT a.1 level x y z o).2)) (l0, acc) os).2.length ≤
        sunPotential l0 + acc.length := by
  intro os
  induction os with
  | nil => exact fun l0 acc h => ⟨h, by simp⟩
  | cons o os ih =>
      intro l0 acc h
      simp only [List.foldl_cons]
      have hp := propagateSun_spec blocks isT l0 level x y z o h hlev
      have hrec := ih (propagateSun blocks isT l0 level x y z o).1
        (acc ++ (propagateSun blocks isT l0 level x y z o).2) hp.1
      refine ⟨hrec.1, ?_⟩
      have h2 := hrec.2
      rw [List.length_append] at h2
      omega

/-- Invariant and potential bookkeeping for the 6-neighbour block fold. -/
theorem blkFold_aux (blocks : ByteFn) (isT : Nat → Bool) (level : Nat)
    (x y z : Nat) (hlev : level ≤ 15) :
    ∀ (os : List (Int × Int × Int)) (l0 : ByteFn) (acc : List (Nat × Nat × Nat)),
      (∀ i, l0 i < 256) →
      (∀ i, (List.foldl (fun (a : ByteFn × List (Nat × Nat × Nat)) o =>
          ((propagateBlk blocks isT a.1 level x y z o).1,
           a.2 ++ (propagateBlk blocks isT a.1 level x y z o).2)) (l0, acc) os).1 i < 256) ∧
      blkPotential (List.foldl (fun (a : ByteFn × List (Nat × Nat × Nat)) o =>
          ((propagateBlk blocks isT a.1 level x y z o).1,
           a.2 ++ (propagateBlk blocks isT a.1 level x y z o).2)) (l0, acc) os).1 +
        (List.foldl (fun (a : ByteFn × List (Nat × Nat × Nat)) o =>
          ((propagateBlk blocks isT a.1 level x y z o).1,
           a.2 ++ (propagateBlk blocks isT a.1 level x y z o).2)) (l0, acc) os).2.length ≤
        blkPotential l0 + acc.length := by
  intro os
  induction os with
  | nil => exact fun l0 acc h => ⟨h, by simp⟩
  | cons o os ih =>
      intro l0 acc h
      simp only [List.foldl_cons]
      have hp := propagateBlk_spec blocks isT l0 level x y z o h hlev
      have hrec := ih (propagateBlk blocks isT l0 level x y z o).1
        (acc ++ (propagateBlk blocks isT l0 level x y z o).2) hp.1
      refine ⟨hrec.1, ?_⟩
      have h2 := hrec.2
      rw [List.length_append] at h2
      omega

/-- Processing one queue entry of the sun BFS preserves the byte bound and
pays for every push out of the sunlight potential. -/
theorem sunStep_spec (blocks : ByteFn) (isT : Nat → Bool) (l : ByteFn)
    (c : Nat × Nat × Nat) (hl : ∀ i, l i < 256) :
    (∀ i, (sunStep blocks isT l c).1 i < 256) ∧
    sunPotential (sunStep blocks isT l c).1 + (sunStep blocks isT l c).2.length ≤
      sunPotential l := by
  have hlev : l (idx c.1 c.2.1 c.2.2) >>> 4 ≤ 15 := by
    have := shr4_lt (l (idx c.1 c.2.1 c.2.2)) (hl _)
    omega
  have h := sunFold_aux blocks isT (l (idx c.1 c.2.1 c.2.2) >>> 4) c.1 c.2.1 c.2.2 hlev
    neighborOffsets l [] hl
  simpa [sunStep] using h

/-- Processing one queue entry of the block BFS preserves the byte bound
and pays for every push out of the block-light potential. -/
theorem blkStep_spec (blocks : ByteFn) (isT : Nat → Bool) (l : ByteFn)
    (c : Nat × Nat × Nat) (hl : ∀ i, l i < 256) :
    (∀ i, (blkStep blocks isT l c).1 i < 256) ∧
    blkPotential (blkStep blocks isT l c).1 + (blkStep blocks isT l c).2.length ≤
      blkPotential l := by
  have hlev : l (idx c.1 c.2.1 c.2.2) &&& 15 ≤ 15 := by
    have := and15_lt (l (idx c.1 c.2.1 c.2.2))
    omega
  have h := blkFold_aux blocks isT (l (idx c.1 c.2.1 c.2.2) &&& 15) c.1 c.2.1 c.2.2 hlev
    neighborOffsets l [] hl
  simpa [blkStep] using h

/-- Generic termination of the work-queue loop: any step that funds its
pushes from a potential makes the fuel bound 7·pot + |queue| + 1
sufficient. -/
theorem bfsLoop_isSome (step : ByteFn → Nat × Nat × Nat → ByteFn × List (Nat × Nat × Nat))
    (pot : ByteFn → Nat)
    (hstep : ∀ l c, (∀ i, l i < 256) →
      ((∀ i, (step l c).1 i < 256) ∧ pot (step l c).1 + (step l c).2.length ≤ pot l)) :
    ∀ (fuel : Nat) (q : List (Nat × Nat × Nat)) (l : ByteFn),
      (∀ i, l i < 256) → 7 * pot l + q.length < fuel →
      (bfsLoop step fuel q l).isSome := by
  intro fuel
  induction fuel with
  | zero => exact fun q l _ h => absurd h (by omega)
  | succ f ih =>
      intro q l hl hf
      cases q with
      | nil => simp [bfsLoop]
      | cons c rest =>
          have hs := hstep l c hl
          unfold bfsLoop
          apply ih
          · exact hs.1
          · simp only [List.length_cons] at hf
            simp only [List.length_append]
            omega

/-- In-chunk voxel coordinate bounds. -/
def vIn (v : Nat × Nat × Nat) : Prop :=
  v.1 < CHUNK_SIZE ∧ v.2.1 < CHUNK_HEIGHT ∧ v.2.2 < CHUNK_SIZE

/-- The voxel one neighbour offset away. -/
def stepTo (a : Nat × Nat × Nat) (o : Int × Int × Int) : Nat × Nat × Nat :=
  (((a.1 : Int) + o.1).toNat, ((a.2.1 : Int) + o.2.1).toNat, ((a.2.2 : Int) + o.2.2).toNat)

/-- 6-connected adjacency within the chunk, in the offset-table order. -/
def adjacent (a b : Nat × Nat × Nat) : Prop :=
  ∃ o ∈ neighborOffsets,
    inBounds3 ((a.1 : Int) + o.1) ((a.2.1 : Int) + o.2.1) ((a.2.2 : Int) + o.2.2) = true ∧
    b = stepTo a o

/-- A propagation path of the flood fill, ending at voxel b: chained
adjacency, a seeded head, every voxel in bounds, and every voxel the light
was propagated into (everything after the head) transparent. -/
def lightPath (blocks : ByteFn) (isT : Nat → Bool) (src : Nat × Nat × Nat → Prop)
    (p : List (Nat × Nat × Nat)) (b : Nat × Nat × Nat) : Prop :=
  List.Chain' adjacent p ∧
  (∃ s, p.head? = some s ∧ src s) ∧
  p.getLast? = some b ∧
  (∀ w ∈ p, vIn w) ∧
  (∀ w ∈ p.tail, isT (blocks (idx w.1 w.2.1 w.2.2)) = true)

/-- The sun nibble of a voxel. -/
def sunNib (l : ByteFn) (v : Nat × Nat × Nat) : Nat :=
  l (idx v.1 v.2.1 v.2.2) >>> 4

/-- The block-light nibble of a voxel. -/
def blkNib (l : ByteFn) (v : Nat × Nat × Nat) : Nat :=
  l (idx v.1 v.2.1 v.2.2) &&& 15

/-- The sunlight attenuation of one propagation step (the newLevel rule):
straight-down propagation at full level 15 keeps 15, otherwise minus one. -/
def sunAtt (o : Int × Int × Int) (level : Nat) : Nat :=
  if o.2.1 = -1 ∧ level = 15 then 15 else level - 1

/-- Support invariant of the sun BFS: every in-bounds voxel either still
holds at most its seeded sun nibble, or is a transparent voxel whose nibble
is justified by an attenuated propagation step from some in-bounds
neighbour of the current array. -/
def sunSupp (blocks : ByteFn) (isT : Nat → Bool) (l0 l : ByteFn) : Prop :=
  ∀ v, vIn v →
    sunNib l v ≤ sunNib l0 v ∨
    ∃ a o, o ∈ neighborOffsets ∧ vIn a ∧
      inBounds3 ((a.1 : Int) + o.1) ((a.2.1 : Int) + o.2.1) ((a.2.2 : Int) + o.2.2) = true ∧
      v = stepTo a o ∧ isT (blocks (idx v.1 v.2.1 v.2.2)) = true ∧
      sunNib l v ≤ sunAtt o (sunNib l a)

/-- Support invariant of the block-light BFS: every in-bounds voxel either
still holds at most its seeded block nibble, or is a transparent voxel
whose nibble is strictly below some in-bounds neighbour's. -/
def blkSupp (blocks : ByteFn) (isT : Nat → Bool) (l0 l : ByteFn) : Prop :=
  ∀ v, vIn v →
    blkNib l v ≤ blkNib l0 v ∨
    ∃ a o, o ∈ neighborOffsets ∧ vIn a ∧
      inBounds3 ((a.1 : Int) + o.1) ((a.2.1 : Int) + o.2.1) ((a.2.2 : Int) + o.2.2) = true ∧
      v = stepTo a o ∧ isT (blocks (idx v.1 v.2.1 v.2.2)) = true ∧
      blkNib l v < blkNib l a

/-- The light array after the sunlight phases (phase 1 seeding and the sun
BFS of calculateLight). -/
def sunLit (blocks : ByteFn) (isT : Nat → Bool) : ByteFn :=
  (bfsLoop (sunStep blocks isT)
    (fuelBound (sunPotential (phase1 blocks isT))
      (sunSeeds blocks isT (phase1 blocks isT)).length)
    (sunSeeds blocks isT (phase1 blocks isT)) (phase1 blocks isT)).getD
    (phase1 blocks isT)

/-- calculateLight unfolded into its staged form. -/
theorem calculateLight_eq (blocks : ByteFn) (isT : Nat → Bool) (emissions : Nat → Nat) :
    calculateLight blocks isT emissions =
      (bfsLoop (blkStep blocks isT)
        (fuelBound (blkPotential (blkSeeds blocks emissions (sunLit blocks isT)).1)
          (blkSeeds blocks emissions (sunLit blocks isT)).2.length)
        (blkSeeds blocks emissions (sunLit blocks isT)).2
        (blkSeeds blocks emissions (sunLit blocks isT)).1).getD
        (blkSeeds blocks emissions (sunLit blocks isT)).1 := rfl

/-- The flat index is injective on in-bounds coordinates. -/
theorem idx_inj (x y z x2 y2 z2 : Nat) (hy : y < CHUNK_HEIGHT) (hz : z < CHUNK_SIZE)
    (hy2 : y2 < CHUNK_HEIGHT) (hz2 : z2 < CHUNK_SIZE)
    (h : idx x y z = idx x2 y2 z2) : x = x2 ∧ y = y2 ∧ z = z2 := by
  simp only [idx, CHUNK_SIZE, CHUNK_HEIGHT] at *
  omega

/-- An in-bounds neighbour step lands on an in-bounds voxel. -/
theorem vIn_stepTo (a : Nat × Nat × Nat) (o : Int × Int × Int)
    (hb : inBounds3 ((a.1 : Int) + o.1) ((a.2.1 : Int) + o.2.1) ((a.2.2 : Int) + o.2.2) = true) :
    vIn (stepTo a o) := by
  have h := (inBounds3_iff _ _ _).mp hb
  simp only [vIn, stepTo, CHUNK_SIZE, CHUNK_HEIGHT]
  omega

/-- An in-bounds neighbour step never returns to its own voxel. -/
theorem stepTo_ne (a : Nat × Nat × Nat) (o : Int × Int × Int)
    (ho : o ∈ neighborOffsets)
    (hb : inBounds3 ((a.1 : Int) + o.1) ((a.2.1 : Int) + o.2.1) ((a.2.2 : Int) + o.2.2) = true) :
    stepTo a o ≠ a := by
  have h := (inBounds3_iff _ _ _).mp hb
  have ho6 : o = (1, 0, 0) ∨ o = (-1, 0, 0) ∨ o = (0, 1, 0) ∨ o = (0, -1, 0) ∨
      o = (0, 0, 1) ∨ o = (0, 0, -1) := by
    simp only [neighborOffsets, List.mem_cons, List.not_mem_nil, or_false] at ho
    tauto
  intro hcontra
  rcases ho6 with rfl | rfl | rfl | rfl | rfl | rfl <;>
    · simp only [stepTo, Prod.ext_iff] at hcontra
      dsimp only [] at hcontra h
      omega

/-- Attenuation never exceeds the source level. -/
theorem sunAtt_le (o : Int × Int × Int) (level : Nat) : sunAtt o level ≤ level := by
  unfold sunAtt
  split_ifs <;> omega

/-- Attenuation is monotone in the source level. -/
theorem sunAtt_mono (o : Int × Int × Int) (a b : Nat) (h : a ≤ b) :
    sunAtt o a ≤ sunAtt o b := by
  unfold sunAtt
  split_ifs <;> omega

/-- A byte write preserves the byte bound. -/
theorem writeByte_bytes (l : ByteFn) (n v : Nat) (hl : ∀ i, l i < 256) (hv : v < 256) :
    ∀ i, writeByte l n v i < 256 := by
  intro i
  unfold writeByte
  split
  · exact hv
  · exact hl i

/-- A fold preserves any invariant its steps preserve for list members. -/
theorem foldl_mem_preserve {α β : Type} (P : α → Prop) (f : α → β → α) :
    ∀ (xs : List β) (a : α), P a → (∀ a2 x, x ∈ xs → P a2 → P (f a2 x)) →
      P (xs.foldl f a) := by
  intro xs
  induction xs with
  | nil => exact fun a ha _ => ha
  | cons x xs ih =>
      intro a ha h
      exact ih (f a x) (h a x (List.mem_cons_self x xs) ha)
        (fun a2 y hy => h a2 y (List.mem_cons_of_mem x hy))

/-- The element a getLast? points at is a member. -/
theorem mem_of_getLastQ {α : Type} (l : List α) (a : α) (h : l.getLast? = some a) :
    a ∈ l := by
  induction l with
  | nil => simp at h
  | cons x xs ih =>
      cases xs with
      | nil =>
          simp only [List.getLast?_singleton, Option.some.injEq] at h
          simp [h]
      | cons y ys =>
          rw [List.getLast?_cons_cons] at h
          exact List.mem_cons_of_mem x (ih h)

/-- getLast? of a one-element extension. -/
theorem getLastQ_append_single {α : Type} (l : List α) (a : α) :
    (l ++ [a]).getLast? = some a := by
  induction l with
  | nil => rfl
  | cons x xs ih =>
      cases hxs : xs ++ [a] with
      | nil => exact absurd hxs (by simp)
      | cons y ys =>
          rw [List.cons_append, hxs, List.getLast?_cons_cons, ← hxs, ih]

/-- High nibble of a block-light write byte: packing a small value beside
the preserved high bits of a byte keeps the high nibble. -/
theorem blkWrite_hi (hi nl : Nat) (hhi : hi < 256) (hnl : nl < 16) :
    ((hi &&& 240) ||| nl) >>> 4 = hi >>> 4 := by
  apply Nat.eq_of_testBit_eq
  intro j
  have hnlb : nl.testBit (4 + j) = false := by
    apply Nat.testBit_lt_two_pow
    calc nl < 16 := hnl
    _ = 2 ^ 4 := by norm_num
    _ ≤ 2 ^ (4 + j) := Nat.pow_le_pow_right (by norm_num) (by omega)
  simp only [Nat.testBit_shiftRight, Nat.testBit_lor, Nat.testBit_and, hnlb, Bool.or_false]
  by_cases hj : j < 4
  · have h240 : (240 : Nat).testBit (4 + j) = true := by
      interval_cases j <;> decide
    simp [h240]
  · have hhib : hi.testBit (4 + j) = false := by
      apply Nat.testBit_lt_two_pow
      calc hi < 256 := hhi
      _ = 2 ^ 8 := by norm_num
      _ ≤ 2 ^ (4 + j) := Nat.pow_le_pow_right (by norm_num) (by omega)
    simp [hhib]

/-- One sun propagation never lowers any sun nibble. -/
theorem propagateSun_nib_mono (blocks : ByteFn) (isT : Nat → Bool) (l : ByteFn)
    (level : Nat) (x y z : Nat) (o : Int × Int × Int) :
    ∀ i, l i >>> 4 ≤ (propagateSun blocks isT l level x y z o).1 i >>> 4 := by
  intro i
  rcases propagateSun_cases blocks isT l level x y z o with h | ⟨hb, hisT, hnz, hgt, heq⟩
  · rw [h]
  · rw [heq]
    dsimp only []
    unfold writeByte
    split
    · rename_i hieq
      rw [sunWrite_hi _ _ (and15_lt _)]
      rw [hieq]
      omega
    · exact Nat.le_refl _

/-- One sun propagation leaves every low nibble unchanged. -/
theorem propagateSun_lo_eq (blocks : ByteFn) (isT : Nat → Bool) (l : ByteFn)
    (level : Nat) (x y z : Nat) (o : Int × Int × Int) :
    ∀ i, (propagateSun blocks isT l level x y z o).1 i &&& 15 = l i &&& 15 := by
  intro i
  rcases propagateSun_cases blocks isT l level x y z o with h | ⟨hb, hisT, hnz, hgt, heq⟩
  · rw [h]
  · rw [heq]
    dsimp only []
    unfold writeByte
    split
    · rename_i hieq
      rw [sunWrite_lo _ _ (and15_lt _), hieq]
    · rfl

/-- Every push of one sun propagation is in bounds. -/
theorem propagateSun_push_vIn (blocks : ByteFn) (isT : Nat → Bool) (l : ByteFn)
    (level : Nat) (x y z : Nat) (o : Int × Int × Int) :
    ∀ v ∈ (propagateSun blocks isT l level x y z o).2, vIn v := by
  intro v hv
  rcases propagateSun_cases blocks isT l level x y z o with h | ⟨hb, hisT, hnz, hgt, heq⟩
  · rw [h] at hv
    simp at hv
  · rw [heq] at hv
    dsimp only [] at hv
    simp only [List.mem_cons, List.not_mem_nil, or_false] at hv
    subst hv
    exact vIn_stepTo (x, y, z) o hb

/-- One sun propagation from a live source voxel preserves the support
invariant. -/
theorem propagateSun_supp (blocks : ByteFn) (isT : Nat → Bool) (l0 l : ByteFn)
    (level : Nat) (x y z : Nat) (o : Int × Int × Int)
    (ho : o ∈ neighborOffsets) (hxyz : vIn (x, y, z))
    (hsupp : sunSupp blocks isT l0 l)
    (hlev : level ≤ l (idx x y z) >>> 4) :
    sunSupp blocks isT l0 (propagateSun blocks isT l level x y z o).1 := by
  rcases propagateSun_cases blocks isT l level x y z o with h | ⟨hb, hisT, hnz, hgt, heq⟩
  · rw [h]
    exact hsupp
  · rw [heq]
    dsimp only []
    intro v hv
    by_cases hvi : idx v.1 v.2.1 v.2.2 =
        idx ((x : Int) + o.1).toNat ((y : Int) + o.2.1).toNat ((z : Int) + o.2.2).toNat
    · right
      have hnv : vIn (stepTo (x, y, z) o) := vIn_stepTo (x, y, z) o hb
      have hveq : v = stepTo (x, y, z) o := by
        have h3 := idx_inj v.1 v.2.1 v.2.2 (stepTo (x, y, z) o).1 (stepTo (x, y, z) o).2.1
          (stepTo (x, y, z) o).2.2 hv.2.1 hv.2.2 hnv.2.1 hnv.2.2 hvi
        exact Prod.ext h3.1 (Prod.ext h3.2.1 h3.2.2)
      refine ⟨(x, y, z), o, ho, hxyz, hb, hveq, ?_, ?_⟩
      · rw [hvi]
        exact hisT
      · have hxne : idx x y z ≠
            idx ((x : Int) + o.1).toNat ((y : Int) + o.2.1).toNat ((z : Int) + o.2.2).toNat := by
          intro hcontra
          have h3 := idx_inj x y z (stepTo (x, y, z) o).1 (stepTo (x, y, z) o).2.1
            (stepTo (x, y, z) o).2.2 hxyz.2.1 hxyz.2.2 hnv.2.1 hnv.2.2 hcontra
          exact stepTo_ne (x, y, z) o ho hb
            (Eq.symm (Prod.ext h3.1 (Prod.ext h3.2.1 h3.2.2)))
        simp only [sunNib, writeByte]
        rw [if_pos hvi, if_neg hxne]
        rw [sunWrite_hi _ _ (and15_lt _)]
        exact le_trans (le_of_eq rfl) (sunAtt_mono o level _ hlev)
    · rcases hsupp v hv with h1 | ⟨a, o2, ho2, ha, hb2, hveq2, hisT2, hle2⟩
      · left
        simp only [sunNib, writeByte] at h1 ⊢
        rw [if_neg hvi]
        exact h1
      · right
        refine ⟨a, o2, ho2, ha, hb2, hveq2, hisT2, ?_⟩
        simp only [sunNib, writeByte] at hle2 ⊢
        rw [if_neg hvi]
        split
        · rename_i haeq
          rw [sunWrite_hi _ _ (and15_lt _)]
          refine le_trans hle2 (sunAtt_mono o2 _ _ ?_)
          rw [haeq]
          omega
        · exact hle2

/-- One block propagation never lowers any block nibble. -/
theorem propagateBlk_nib_mono (blocks : ByteFn) (isT : Nat → Bool) (l : ByteFn)
    (level : Nat) (x y z : Nat) (o : Int × Int × Int) (hlev : level ≤ 15) :
    ∀ i, l i &&& 15 ≤ (propagateBlk blocks isT l level x y z o).1 i &&& 15 := by
  intro i
  rcases propagateBlk_cases blocks isT l level x y z o with h | ⟨hb, hisT, hnz, hgt, heq⟩
  · rw [h]
  · rw [heq]
    dsimp only []
    unfold writeByte
    split
    · rename_i hieq
      rw [blkWrite_lo _ _ (by omega)]
      rw [hieq]
      omega
    · exact Nat.le_refl _

/-- One block propagation leaves every sun nibble unchanged. -/
theorem propagateBlk_hi_eq (blocks : ByteFn) (isT : Nat → Bool) (l : ByteFn)
    (level : Nat) (x y z : Nat) (o : Int × Int × Int)
    (hl : ∀ i, l i < 256) (hlev : level ≤ 15) :
    ∀ i, (propagateBlk blocks isT l level x y z o).1 i >>> 4 = l i >>> 4 := by
  intro i
  rcases propagateBlk_cases blocks isT l level x y z o with h | ⟨hb, hisT, hnz, hgt, heq⟩
  · rw [h]
  · rw [heq]
    dsimp only []
    unfold writeByte
    split
    · rename_i hieq
      rw [blkWrite_hi _ _ (hl _) (by omega), hieq]
    · rfl

/-- Every push of one block propagation is in bounds. -/
theorem propagateBlk_push_vIn (blocks : ByteFn) (isT : Nat → Bool) (l : ByteFn)
    (level : Nat) (x y z : Nat) (o : Int × Int × Int) :
    ∀ v ∈ (propagateBlk blocks isT l level x y z o).2, vIn v := by
  intro v hv
  rcases propagateBlk_cases blocks isT l level x y z o with h | ⟨hb, hisT, hnz, hgt, heq⟩
  · rw [h] at hv
    simp at hv
  · rw [heq] at hv
    dsimp only [] at hv
    simp only [List.mem_cons, List.not_mem_nil, or_false] at hv
    subst hv
    exact vIn_stepTo (x, y, z) o hb

/-- One block propagation from a live source voxel preserves the support
invariant. -/
theorem propagateBlk_supp (blocks : ByteFn) (isT : Nat → Bool) (l0 l : ByteFn)
    (level : Nat) (x y z : Nat) (o : Int × Int × Int)
    (ho : o ∈ neighborOffsets) (hxyz : vIn (x, y, z))
    (hsupp : blkSupp blocks isT l0 l)
    (hlev : level ≤ l (idx x y z) &&& 15) :
    blkSupp blocks isT l0 (propagateBlk blocks isT l level x y z o).1 := by
  have hlev15 : level ≤ 15 := by
    have := and15_lt (l (idx x y z))
    omega
  rcases propagateBlk_cases blocks isT l level x y z o with h | ⟨hb, hisT, hnz, hgt, heq⟩
  · rw [h]
    exact hsupp
  · rw [heq]
    dsimp only []
    intro v hv
    by_cases hvi : idx v.1 v.2.1 v.2.2 =
        idx ((x : Int) + o.1).toNat ((y : Int) + o.2.1).toNat ((z : Int) + o.2.2).toNat
    · right
      have hnv : vIn (stepTo (x, y, z) o) := vIn_stepTo (x, y, z) o hb
      have hveq : v = stepTo (x, y, z) o := by
        have h3 := idx_inj v.1 v.2.1 v.2.2 (stepTo (x, y, z) o).1 (stepTo (x, y, z) o).2.1
          (stepTo (x, y, z) o).2.2 hv.2.1 hv.2.2 hnv.2.1 hnv.2.2 hvi
        exact Prod.ext h3.1 (Prod.ext h3.2.1 h3.2.2)
      refine ⟨(x, y, z), o, ho, hxyz, hb, hveq, ?_, ?_⟩
      · rw [hvi]
        exact hisT
      · have hxne : idx x y z ≠
            idx ((x : Int) + o.1).toNat ((y : Int) + o.2.1).toNat ((z : Int) + o.2.2).toNat := by
          intro hcontra
          have h3 := idx_inj x y z (stepTo (x, y, z) o).1 (stepTo (x, y, z) o).2.1
            (stepTo (x, y, z) o).2.2 hxyz.2.1 hxyz.2.2 hnv.2.1 hnv.2.2 hcontra
          exact stepTo_ne (x, y, z) o ho hb
            (Eq.symm (Prod.ext h3.1 (Prod.ext h3.2.1 h3.2.2)))
        simp only [blkNib, writeByte]
        rw [if_pos hvi, if_neg hxne]
        rw [blkWrite_lo _ _ (by omega)]
        omega
    · rcases hsupp v hv with h1 | ⟨a, o2, ho2, ha, hb2, hveq2, hisT2, hle2⟩
      · left
        simp only [blkNib, writeByte] at h1 ⊢
        rw [if_neg hvi]
        exact h1
      · right
        refine ⟨a, o2, ho2, ha, hb2, hveq2, hisT2, ?_⟩
        simp only [blkNib, writeByte] at hle2 ⊢
        rw [if_neg hvi]
        split
        · rename_i haeq
          rw [blkWrite_lo _ _ (by omega)]
          rw [haeq] at hle2
          omega
        · exact hle2

/-- The 6-neighbour sun fold preserves the support invariant, keeps the
source level at most the source voxel nibble, and pushes only in-bounds
voxels. -/
theorem sunFold_supp (blocks : ByteFn) (isT : Nat → Bool) (l0 : ByteFn)
    (level : Nat) (x y z : Nat) (hxyz : vIn (x, y, z)) :
    ∀ (os : List (Int × Int × Int)), (∀ o ∈ os, o ∈ neighborOffsets) →
    ∀ (l : ByteFn) (acc : List (Nat × Nat × Nat)),
      sunSupp blocks isT l0 l →
      level ≤ l (idx x y z) >>> 4 →
      (∀ v ∈ acc, vIn v) →
      sunSupp blocks isT l0 (List.foldl (fun (a : ByteFn × List (Nat × Nat × Nat)) o =>
          ((propagateSun blocks isT a.1 level x y z o).1,
           a.2 ++ (propagateSun blocks isT a.1 level x y z o).2)) (l, acc) os).1 ∧
      level ≤ (List.foldl (fun (a : ByteFn × List (Nat × Nat × Nat)) o =>
          ((propagateSun blocks isT a.1 level x y z o).1,
           a.2 ++ (propagateSun blocks isT a.1 level x y z o).2)) (l, acc) os).1 (idx x y z) >>> 4 ∧
      (∀ v ∈ (List.foldl (fun (a : ByteFn × List (Nat × Nat × Nat)) o =>
          ((propagateSun blocks isT a.1 level x y z o).1,
           a.2 ++ (propagateSun blocks isT a.1 level x y z o).2)) (l, acc) os).2, vIn v) := by
  intro os
  induction os with
  | nil => exact fun _ l acc h1 h2 h3 => ⟨h1, h2, h3⟩
  | cons o os ih =>
      intro hos l acc h1 h2 h3
      simp only [List.foldl_cons]
      have ho := hos o (List.mem_cons_self o os)
      have hsupp2 := propagateSun_supp blocks isT l0 l level x y z o ho hxyz h1 h2
      have hmono := propagateSun_nib_mono blocks isT l level x y z o (idx x y z)
      have hpush := propagateSun_push_vIn blocks isT l level x y z o
      exact ih (fun o2 ho2 => hos o2 (List.mem_cons_of_mem o ho2))
        (propagateSun blocks isT l level x y z o).1
        (acc ++ (propagateSun blocks isT l level x y z o).2)
        hsupp2 (le_trans h2 hmono)
        (fun v hv => by
          rcases List.mem_append.mp hv with h | h
          · exact h3 v h
          · exact hpush v h)

/-- Processing one queue entry of the sun BFS preserves the support
invariant and pushes only in-bounds voxels. -/
theorem sunStep_supp (blocks : ByteFn) (isT : Nat → Bool) (l0 l : ByteFn)
    (c : Nat × Nat × Nat) (hc : vIn c) (hsupp : sunSupp blocks isT l0 l) :
    sunSupp blocks isT l0 (sunStep blocks isT l c).1 ∧
    (∀ v ∈ (sunStep blocks isT l c).2, vIn v) := by
  have h := sunFold_supp blocks isT l0 (l (idx c.1 c.2.1 c.2.2) >>> 4) c.1 c.2.1 c.2.2 hc
    neighborOffsets (fun o ho => ho) l [] hsupp (Nat.le_refl _) (by simp)
  exact ⟨by simpa [sunStep] using h.1, by simpa [sunStep] using h.2.2⟩

/-- The sun BFS carries the support invariant and the byte bound to its
final array. -/
theorem bfsLoop_sun_supp (blocks : ByteFn) (isT : Nat → Bool) (l0 : ByteFn) :
    ∀ (fuel : Nat) (q : List (Nat × Nat × Nat)) (l lf : ByteFn),
      (∀ i, l i < 256) → sunSupp blocks isT l0 l → (∀ v ∈ q, vIn v) →
      bfsLoop (sunStep blocks isT) fuel q l = some lf →
      sunSupp blocks isT l0 lf ∧ (∀ i, lf i < 256) := by
  intro fuel
  induction fuel with
  | zero =>
      intro q l lf hb hsupp hq hloop
      cases q with
      | nil =>
          have h2 : (some l : Option ByteFn) = some lf := hloop
          obtain rfl : l = lf := Option.some.inj h2
          exact ⟨hsupp, hb⟩
      | cons c rest =>
          have h2 : (none : Option ByteFn) = some lf := hloop
          simp at h2
  | succ f ih =>
      intro q l lf hb hsupp hq hloop
      cases q with
      | nil =>
          have h2 : (some l : Option ByteFn) = some lf := hloop
          obtain rfl : l = lf := Option.some.inj h2
          exact ⟨hsupp, hb⟩
      | cons c rest =>
          have hstep := sunStep_supp blocks isT l0 l c (hq c (List.mem_cons_self c rest)) hsupp
          have hbytes := (sunStep_spec blocks isT l c hb).1
          have h2 : bfsLoop (sunStep blocks isT) f
              (rest ++ (sunStep blocks isT l c).2) (sunStep blocks isT l c).1 = some lf := hloop
          exact ih (rest ++ (sunStep blocks isT l c).2) (sunStep blocks isT l c).1 lf
            hbytes hstep.1
            (fun v hv => by
              rcases List.mem_append.mp hv with h | h
              · exact hq v (List.mem_cons_of_mem c h)
              · exact hstep.2 v h)
            h2

/-- The 6-neighbour block fold preserves the support invariant, the byte
bound and every sun nibble, keeps the source level at most the source
voxel nibble, and pushes only in-bounds voxels. -/
theorem blkFold_supp (blocks : ByteFn) (isT : Nat → Bool) (l0 : ByteFn)
    (level : Nat) (x y z : Nat) (hxyz : vIn (x, y, z)) (hlev15 : level ≤ 15) :
    ∀ (os : List (Int × Int × Int)), (∀ o ∈ os, o ∈ neighborOffsets) →
    ∀ (l : ByteFn) (acc : List (Nat × Nat × Nat)),
      blkSupp blocks isT l0 l →
      level ≤ l (idx x y z) &&& 15 →
      (∀ v ∈ acc, vIn v) →
      (∀ i, l i < 256) →
      blkSupp blocks isT l0 (List.foldl (fun (a : ByteFn × List (Nat × Nat × Nat)) o =>
          ((propagateBlk blocks isT a.1 level x y z o).1,
           a.2 ++ (propagateBlk blocks isT a.1 level x y z o).2)) (l, acc) os).1 ∧
      level ≤ (List.foldl (fun (a : ByteFn × List (Nat × Nat × Nat)) o =>
          ((propagateBlk blocks isT a.1 level x y z o).1,
           a.2 ++ (propagateBlk blocks isT a.1 level x y z o).2)) (l, acc) os).1 (idx x y z) &&& 15 ∧
      (∀ v ∈ (List.foldl (fun (a : ByteFn × List (Nat × Nat × Nat)) o =>
          ((propagateBlk blocks isT a.1 level x y z o).1,
           a.2 ++ (propagateBlk blocks isT a.1 level x y z o).2)) (l, acc) os).2, vIn v) ∧
      (∀ i, (List.foldl (fun (a : ByteFn × List (Nat × Nat × Nat)) o =>
          ((propagateBlk blocks isT a.1 level x y z o).1,
           a.2 ++ (propagateBlk blocks isT a.1 level x y z o).2)) (l, acc) os).1 i < 256) ∧
      (∀ i, (List.foldl (fun (a : ByteFn × List (Nat × Nat × Nat)) o =>
          ((propagateBlk blocks isT a.1 level x y z o).1,
           a.2 ++ (propagateBlk blocks isT a.1 level x y z o).2)) (l, acc) os).1 i >>> 4 = l i >>> 4) := by
  intro os
  induction os with
  | nil => exact fun _ l acc h1 h2 h3 h4 => ⟨h1, h2, h3, h4, fun i => rfl⟩
  | cons o os ih =>
      intro hos l acc h1 h2 h3 h4
      simp only [List.foldl_cons]
      have ho := hos o (List.mem_cons_self o os)
      have hsupp2 := propagateBlk_supp blocks isT l0 l level x y z o ho hxyz h1 h2
      have hmono := propagateBlk_nib_mono blocks isT l level x y z o hlev15 (idx x y z)
      have hpush := propagateBlk_push_vIn blocks isT l level x y z o
      have hbytes := (propagateBlk_spec blocks isT l level x y z o h4 hlev15).1
      have hhi := propagateBlk_hi_eq blocks isT l level x y z o h4 hlev15
      have hrec := ih (fun o2 ho2 => hos o2 (List.mem_cons_of_mem o ho2))
        (propagateBlk blocks isT l level x y z o).1
        (acc ++ (propagateBlk blocks isT l level x y z o).2)
        hsupp2 (le_trans h2 hmono)
        (fun v hv => by
          rcases List.mem_append.mp hv with h | h
          · exact h3 v h
          · exact hpush v h)
        hbytes
      exact ⟨hrec.1, hrec.2.1, hrec.2.2.1, hrec.2.2.2.1,
        fun i => (hrec.2.2.2.2 i).trans (hhi i)⟩

/-- Processing one queue entry of the block BFS preserves the support
invariant and every sun nibble, and pushes only in-bounds voxels. -/
theorem blkStep_supp (blocks : ByteFn) (isT : Nat → Bool) (l0 l : ByteFn)
    (c : Nat × Nat × Nat) (hc : vIn c) (hsupp : blkSupp blocks isT l0 l)
    (hb : ∀ i, l i < 256) :
    blkSupp blocks isT l0 (blkStep blocks isT l c).1 ∧
    (∀ v ∈ (blkStep blocks isT l c).2, vIn v) ∧
    (∀ i, (blkStep blocks isT l c).1 i >>> 4 = l i >>> 4) := by
  have hlev15 : l (idx c.1 c.2.1 c.2.2) &&& 15 ≤ 15 := by
    have := and15_lt (l (idx c.1 c.2.1 c.2.2))
    omega
  have h := blkFold_supp blocks isT l0 (l (idx c.1 c.2.1 c.2.2) &&& 15) c.1 c.2.1 c.2.2 hc
    hlev15 neighborOffsets (fun o ho => ho) l [] hsupp (Nat.le_refl _) (by simp) hb
  exact ⟨by simpa [blkStep] using h.1, by simpa [blkStep] using h.2.2.1,
    by simpa [blkStep] using h.2.2.2.2⟩

/-- The block BFS carries the support invariant, the byte bound and every
sun nibble to its final array. -/
theorem bfsLoop_blk_supp (blocks : ByteFn) (isT : Nat → Bool) (l0 : ByteFn) :
    ∀ (fuel : Nat) (q : List (Nat × Nat × Nat)) (l lf : ByteFn),
      (∀ i, l i < 256) → blkSupp blocks isT l0 l → (∀ v ∈ q, vIn v) →
      bfsLoop (blkStep blocks isT) fuel q l = some lf →
      blkSupp blocks isT l0 lf ∧ (∀ i, lf i < 256) ∧
      (∀ i, lf i >>> 4 = l i >>> 4) := by
  intro fuel
  induction fuel with
  | zero =>
      intro q l lf hb hsupp hq hloop
      cases q with
      | nil =>
          have h2 : (some l : Option ByteFn) = some lf := hloop
          obtain rfl : l = lf := Option.some.inj h2
          exact ⟨hsupp, hb, fun i => rfl⟩
      | cons c rest =>
          have h2 : (none : Option ByteFn) = some lf := hloop
          simp at h2
  | succ f ih =>
      intro q l lf hb hsupp hq hloop
      cases q with
      | nil =>
          have h2 : (some l : Option ByteFn) = some lf := hloop
          obtain rfl : l = lf := Option.some.inj h2
          exact ⟨hsupp, hb, fun i => rfl⟩
      | cons c rest =>
          have hstep := blkStep_supp blocks isT l0 l c (hq c (List.mem_cons_self c rest)) hsupp hb
          have hbytes := (blkStep_spec blocks isT l c hb).1
          have h2 : bfsLoop (blkStep blocks isT) f
              (rest ++ (blkStep blocks isT l c).2) (blkStep blocks isT l c).1 = some lf := hloop
          have hrec := ih (rest ++ (blkStep blocks isT l c).2) (blkStep blocks isT l c).1 lf
            hbytes hstep.1
            (fun v hv => by
              rcases List.mem_append.mp hv with h | h
              · exact hq v (List.mem_cons_of_mem c h)
              · exact hstep.2.1 v h)
            h2
          exact ⟨hrec.1, hrec.2.1, fun i => (hrec.2.2 i).trans (hstep.2.2 i)⟩

/-- The column scan only writes full-sun bytes. -/
theorem colScan_bytes (blocks : ByteFn) (isT : Nat → Bool) (x z : Nat) :
    ∀ (y : Nat) (l : ByteFn), (∀ i, l i < 256) → ∀ i, colScan blocks isT x z y l i < 256 := by
  intro y
  induction y with
  | zero =>
      intro l hl i
      have heq : colScan blocks isT x z 0 l =
          (if isT (blocks (idx x 0 z)) then writeByte l (idx x 0 z) 0xF0 else l) := rfl
      rw [heq]
      split
      · exact writeByte_bytes l _ _ hl (by norm_num) i
      · exact hl i
  | succ y ih =>
      intro l hl i
      have heq : colScan blocks isT x z (y + 1) l =
          (if isT (blocks (idx x (y + 1) z)) then
            colScan blocks isT x z y (writeByte l (idx x (y + 1) z) 0xF0)
          else l) := rfl
      rw [heq]
      split
      · exact ih (writeByte l (idx x (y + 1) z) 0xF0)
          (writeByte_bytes l _ _ hl (by norm_num)) i
      · exact hl i

/-- The phase 1 array is byte-valued. -/
theorem phase1_bytes (blocks : ByteFn) (isT : Nat → Bool) :
    ∀ i, phase1 blocks isT i < 256 := by
  unfold phase1
  refine foldl_mem_preserve (fun l : ByteFn => ∀ i, l i < 256) _ _ _ (fun i => by norm_num) ?_
  intro l x hx hl
  refine foldl_mem_preserve (fun l : ByteFn => ∀ i, l i < 256) _ _ _ hl ?_
  intro l2 z hz hl2
  exact colScan_bytes blocks isT x z (CHUNK_HEIGHT - 1) l2 hl2

/-- Every voxel the phase 2 column scan enqueues is in bounds. -/
theorem seedColumn_vIn (blocks : ByteFn) (isT : Nat → Bool) (l : ByteFn) (x z : Nat)
    (hx : x < CHUNK_SIZE) (hz : z < CHUNK_SIZE) :
    ∀ (y : Nat) (fd : Bool), y < CHUNK_HEIGHT →
      ∀ v ∈ seedColumn blocks isT l x z y fd, vIn v := by
  intro y
  induction y with
  | zero =>
      intro fd hy v hv
      have heq : seedColumn blocks isT l x z 0 fd =
          (if l (idx x 0 z) >>> 4 = 15 ∧ fd = false then
            (if isFrontier blocks isT l x 0 z then [(x, 0, z)] else [])
          else []) ++ [] := rfl
      rw [heq] at hv
      simp only [List.append_nil] at hv
      split_ifs at hv <;>
        first
          | (simp only [List.not_mem_nil] at hv)
          | (simp only [List.mem_singleton] at hv
             subst hv
             exact ⟨hx, hy, hz⟩)
  | succ y ih =>
      intro fd hy v hv
      have heq : seedColumn blocks isT l x z (y + 1) fd =
          (if l (idx x (y + 1) z) >>> 4 = 15 ∧ fd = false then
            (if isFrontier blocks isT l x (y + 1) z then [(x, y + 1, z)] else [])
          else []) ++
          seedColumn blocks isT l x z y
            (if l (idx x (y + 1) z) >>> 4 = 15 ∧ fd = false then fd
             else if l (idx x (y + 1) z) >>> 4 < 15 then true else fd) := rfl
      rw [heq] at hv
      rcases List.mem_append.mp hv with h | h
      · split_ifs at h <;>
          first
            | (simp only [List.not_mem_nil] at h)
            | (simp only [List.mem_singleton] at h
               subst h
               exact ⟨hx, hy, hz⟩)
      · exact ih _ (by omega) v h

/-- Every sun seed is in bounds. -/
theorem sunSeeds_vIn (blocks : ByteFn) (isT : Nat → Bool) (l : ByteFn) :
    ∀ v ∈ sunSeeds blocks isT l, vIn v := by
  unfold sunSeeds
  refine foldl_mem_preserve (fun acc => ∀ v ∈ acc, vIn v) _ _ _ (by simp) ?_
  intro acc x hx hacc
  refine foldl_mem_preserve (fun acc => ∀ v ∈ acc, vIn v) _ _ _ hacc ?_
  intro acc2 z hz hacc2 v hv
  rcases List.mem_append.mp hv with h | h
  · exact hacc2 v h
  · exact seedColumn_vIn blocks isT l x z (List.mem_range.mp hx) (List.mem_range.mp hz)
      (CHUNK_HEIGHT - 1) false (by norm_num [CHUNK_HEIGHT]) v h

/-- The phase 3 seeding keeps the array byte-valued, leaves every sun
nibble unchanged, and enqueues only in-bounds voxels. -/
theorem blkSeeds_props (blocks : ByteFn) (emissions : Nat → Nat) (l2 : ByteFn)
    (hem : ∀ b, emissions b ≤ 15) (hl2 : ∀ i, l2 i < 256) :
    (∀ i, (blkSeeds blocks emissions l2).1 i < 256) ∧
    (∀ i, (blkSeeds blocks emissions l2).1 i >>> 4 = l2 i >>> 4) ∧
    (∀ v ∈ (blkSeeds blocks emissions l2).2, vIn v) := by
  unfold blkSeeds
  refine foldl_mem_preserve (fun acc : ByteFn × List (Nat × Nat × Nat) =>
      (∀ i, acc.1 i < 256) ∧ (∀ i, acc.1 i >>> 4 = l2 i >>> 4) ∧ (∀ v ∈ acc.2, vIn v))
    _ _ _ ⟨hl2, fun i => rfl, by simp⟩ ?_
  intro acc x hx hacc
  refine foldl_mem_preserve (fun acc : ByteFn × List (Nat × Nat × Nat) =>
      (∀ i, acc.1 i < 256) ∧ (∀ i, acc.1 i >>> 4 = l2 i >>> 4) ∧ (∀ v ∈ acc.2, vIn v))
    _ _ _ hacc ?_
  intro acc2 z hz hacc2
  refine foldl_mem_preserve (fun acc : ByteFn × List (Nat × Nat × Nat) =>
      (∀ i, acc.1 i < 256) ∧ (∀ i, acc.1 i >>> 4 = l2 i >>> 4) ∧ (∀ v ∈ acc.2, vIn v))
    _ _ _ hacc2 ?_
  intro acc3 y hy hacc3
  dsimp only []
  split
  · refine ⟨?_, ?_, ?_⟩
    · exact writeByte_bytes _ _ _ hacc3.1
        (blkWrite_lt _ _ (hacc3.1 _) (by have := hem (blocks (idx x y z)); omega))
    · intro i
      dsimp only []
      unfold writeByte
      split
      · rename_i hieq
        rw [blkWrite_hi _ _ (hacc3.1 _) (by have := hem (blocks (idx x y z)); omega), hieq]
        exact hacc3.2.1 _
      · exact hacc3.2.1 i
    · intro v hv
      rcases List.mem_append.mp hv with h | h
      · exact hacc3.2.2 v h
      · simp only [List.mem_singleton] at h
        subst h
        exact ⟨List.mem_range.mp hx, List.mem_range.mp hy, List.mem_range.mp hz⟩
  · exact hacc3

/-- The one-voxel path from a seeded voxel to itself. -/
theorem path_single (blocks : ByteFn) (isT : Nat → Bool) (src : Nat × Nat × Nat → Prop)
    (v : Nat × Nat × Nat) (hv : vIn v) (hsrc : src v) :
    lightPath blocks isT src [v] v := by
  refine ⟨List.chain'_singleton v, ⟨v, rfl, hsrc⟩, rfl, ?_, ?_⟩
  · intro w hw
    simp only [List.mem_singleton] at hw
    subst hw
    exact hv
  · intro w hw
    simp at hw

/-- Extending a propagation path by one adjacent transparent voxel. -/
theorem path_extend (blocks : ByteFn) (isT : Nat → Bool) (src : Nat × Nat × Nat → Prop)
    (p : List (Nat × Nat × Nat)) (a v : Nat × Nat × Nat)
    (hp : lightPath blocks isT src p a)
    (hadj : adjacent a v) (hv : vIn v)
    (htv : isT (blocks (idx v.1 v.2.1 v.2.2)) = true) :
    lightPath blocks isT src (p ++ [v]) v := by
  obtain ⟨hchain, ⟨s, hs, hsrc⟩, hlast, hvin, htr⟩ := hp
  have hne : p ≠ [] := by
    intro h
    rw [h] at hs
    simp at hs
  refine ⟨?_, ⟨s, ?_, hsrc⟩, getLastQ_append_single p v, ?_, ?_⟩
  · rw [List.chain'_append]
    refine ⟨hchain, List.chain'_singleton v, ?_⟩
    intro a2 ha2 b2 hb2
    rw [hlast] at ha2
    simp only [Option.mem_def, Option.some.injEq] at ha2 hb2
    rw [List.head?_cons, Option.some.injEq] at hb2
    subst ha2
    subst hb2
    exact hadj
  · cases p with
    | nil => exact absurd rfl hne
    | cons x xs => simpa using hs
  · intro w hw
    rcases List.mem_append.mp hw with h | h
    · exact hvin w h
    · simp only [List.mem_singleton] at h
      subst h
      exact hv
  · cases p with
    | nil => exact absurd rfl hne
    | cons x xs =>
        intro w hw
        simp only [List.cons_append, List.tail_cons] at hw
        rcases List.mem_append.mp hw with h | h
        · exact htr w h
        · simp only [List.mem_singleton] at h
          subst h
          exact htv

/-- The supporter of a live sun voxel is live, at least as bright, and
strictly smaller in the descent measure. -/
theorem sunSupp_decrease (L : ByteFn) (hb : ∀ i, L i < 256)
    (a v : Nat × Nat × Nat) (o : Int × Int × Int) (ha : vIn a) (hv : vIn v)
    (hb3 : inBounds3 ((a.1 : Int) + o.1) ((a.2.1 : Int) + o.2.1) ((a.2.2 : Int) + o.2.2) = true)
    (hveq : v = stepTo a o)
    (hle : sunNib L v ≤ sunAtt o (sunNib L a))
    (hpos : 0 < sunNib L v) :
    0 < sunNib L a ∧ sunNib L v ≤ sunNib L a ∧
    (15 - sunNib L a) * 256 + (255 - a.2.1) < (15 - sunNib L v) * 256 + (255 - v.2.1) := by
  have h1 : sunNib L v ≤ sunNib L a := le_trans hle (sunAtt_le o _)
  have ha15 : sunNib L a ≤ 15 := by
    have := shr4_lt (L (idx a.1 a.2.1 a.2.2)) (hb _)
    simp only [sunNib]
    omega
  have hay : a.2.1 < 256 := ha.2.1
  have hvy : v.2.1 < 256 := hv.2.1
  refine ⟨by omega, h1, ?_⟩
  by_cases heq : sunNib L v = sunNib L a
  · have hdown : o.2.1 = -1 ∧ sunNib L a = 15 := by
      by_contra hnd
      have hatt : sunAtt o (sunNib L a) = sunNib L a - 1 := by
        unfold sunAtt
        rw [if_neg hnd]
      omega
    have hy : v.2.1 + 1 = a.2.1 := by
      have hbb := (inBounds3_iff _ _ _).mp hb3
      have hcomp : v.2.1 = ((a.2.1 : Int) + o.2.1).toNat := by
        rw [hveq]
        rfl
      rw [hdown.1] at hcomp hbb
      omega
    omega
  · omega

/-- Every live sun voxel of a supported array lies at the end of a
propagation path from a seeded voxel, with the nibble non-increasing along
the path. -/
theorem sunSupp_path (blocks : ByteFn) (isT : Nat → Bool) (l0 L : ByteFn)
    (hsupp : sunSupp blocks isT l0 L) (hb : ∀ i, L i < 256) :
    ∀ (n : Nat) (v : Nat × Nat × Nat),
      (15 - sunNib L v) * 256 + (255 - v.2.1) ≤ n → vIn v → 0 < sunNib L v →
      ∃ p, lightPath blocks isT (fun s => 0 < sunNib l0 s) p v ∧
        ∀ w ∈ p, sunNib L v ≤ sunNib L w := by
  intro n
  induction n with
  | zero =>
      intro v hn hv hpos
      rcases hsupp v hv with h1 | ⟨a, o, ho, ha, hb3, hveq, htv, hle⟩
      · refine ⟨[v], path_single blocks isT _ v hv (by omega), ?_⟩
        intro w hw
        simp only [List.mem_singleton] at hw
        subst hw
        exact Nat.le_refl _
      · exfalso
        have hdec := sunSupp_decrease L hb a v o ha hv hb3 hveq hle hpos
        omega
  | succ n ih =>
      intro v hn hv hpos
      rcases hsupp v hv with h1 | ⟨a, o, ho, ha, hb3, hveq, htv, hle⟩
      · refine ⟨[v], path_single blocks isT _ v hv (by omega), ?_⟩
        intro w hw
        simp only [List.mem_singleton] at hw
        subst hw
        exact Nat.le_refl _
      · have hdec := sunSupp_decrease L hb a v o ha hv hb3 hveq hle hpos
        obtain ⟨pa, hpa, hall⟩ := ih a (by omega) ha hdec.1
        refine ⟨pa ++ [v], path_extend blocks isT _ pa a v hpa ⟨o, ho, hb3, hveq⟩ hv htv, ?_⟩
        intro w hw
        rcases List.mem_append.mp hw with h | h
        · exact le_trans hdec.2.1 (hall w h)
        · simp only [List.mem_singleton] at h
          subst h
          exact Nat.le_refl _

/-- The supporter of a live block-light voxel is live, brighter, and
strictly smaller in the descent measure. -/
theorem blkSupp_decrease (L : ByteFn)
    (a v : Nat × Nat × Nat)
    (hlt : blkNib L v < blkNib L a)
    (hpos : 0 < blkNib L v) :
    0 < blkNib L a ∧ blkNib L v ≤ blkNib L a ∧
    15 - blkNib L a < 15 - blkNib L v := by
  have ha15 : blkNib L a ≤ 15 := by
    have := and15_lt (L (idx a.1 a.2.1 a.2.2))
    simp only [blkNib]
    omega
  exact ⟨by omega, by omega, by omega⟩

/-- Every live block-light voxel of a supported array lies at the end of a
propagation path from a seeded voxel, with the nibble non-increasing along
the path. -/
theorem blkSupp_path (blocks : ByteFn) (isT : Nat → Bool) (l0 L : ByteFn)
    (hsupp : blkSupp blocks isT l0 L) :
    ∀ (n : Nat) (v : Nat × Nat × Nat),
      15 - blkNib L v ≤ n → vIn v → 0 < blkNib L v →
      ∃ p, lightPath blocks isT (fun s => 0 < blkNib l0 s) p v ∧
        ∀ w ∈ p, blkNib L v ≤ blkNib L w := by
  intro n
  induction n with
  | zero =>
      intro v hn hv hpos
      rcases hsupp v hv with h1 | ⟨a, o, ho, ha, hb3, hveq, htv, hle⟩
      · refine ⟨[v], path_single blocks isT _ v hv (by omega), ?_⟩
        intro w hw
        simp only [List.mem_singleton] at hw
        subst hw
        exact Nat.le_refl _
      · exfalso
        have hdec := blkSupp_decrease L a v hle hpos
        omega
  | succ n ih =>
      intro v hn hv hpos
      rcases hsupp v hv with h1 | ⟨a, o, ho, ha, hb3, hveq, htv, hle⟩
      · refine ⟨[v], path_single blocks isT _ v hv (by omega), ?_⟩
        intro w hw
        simp only [List.mem_singleton] at hw
        subst hw
        exact Nat.le_refl _
      · have hdec := blkSupp_decrease L a v hle hpos
        obtain ⟨pa, hpa, hall⟩ := ih a (by omega) ha hdec.1
        refine ⟨pa ++ [v], path_extend blocks isT _ pa a v hpa ⟨o, ho, hb3, hveq⟩ hv htv, ?_⟩
        intro w hw
        rcases List.mem_append.mp hw with h | h
        · exact le_trans hdec.2.1 (hall w h)
        · simp only [List.mem_singleton] at h
          subst h
          exact Nat.le_refl _

/-- The sunlight stage output: supported over the phase 1 seeds and
byte-valued. -/
theorem sunLit_props (blocks : ByteFn) (isT : Nat → Bool) :
    sunSupp blocks isT (phase1 blocks isT) (sunLit blocks isT) ∧
    (∀ i, sunLit blocks isT i < 256) := by
  have hb := phase1_bytes blocks isT
  have hq := sunSeeds_vIn blocks isT (phase1 blocks isT)
  have hsome := bfsLoop_isSome (sunStep blocks isT) sunPotential
    (fun l2 c h => sunStep_spec blocks isT l2 c h)
    (fuelBound (sunPotential (phase1 blocks isT))
      (sunSeeds blocks isT (phase1 blocks isT)).length)
    (sunSeeds blocks isT (phase1 blocks isT)) (phase1 blocks isT) hb
    (by unfold fuelBound; omega)
  obtain ⟨lf, hlf⟩ := Option.isSome_iff_exists.mp hsome
  have hout : sunLit blocks isT = lf := by
    unfold sunLit
    rw [hlf]
    rfl
  have h := bfsLoop_sun_supp blocks isT (phase1 blocks isT)
    (fuelBound (sunPotential (phase1 blocks isT))
      (sunSeeds blocks isT (phase1 blocks isT)).length)
    (sunSeeds blocks isT (phase1 blocks isT)) (phase1 blocks isT) lf hb
    (fun v hv => Or.inl (Nat.le_refl _)) hq hlf
  rw [hout]
  exact h

/-- The full calculateLight output: supported over the phase 3 block-light
seeds, byte-valued, and with the sun nibbles of the sunlight stage. -/
theorem calculateLight_props (blocks : ByteFn) (isT : Nat → Bool)
    (emissions : Nat → Nat) (hem : ∀ b, emissions b ≤ 15) :
    blkSupp blocks isT (blkSeeds blocks emissions (sunLit blocks isT)).1
      (calculateLight blocks isT emissions) ∧
    (∀ i, calculateLight blocks isT emissions i < 256) ∧
    (∀ i, calculateLight blocks isT emissions i >>> 4 = sunLit blocks isT i >>> 4) := by
  have hsun := sunLit_props blocks isT
  have hseed := blkSeeds_props blocks emissions (sunLit blocks isT) hem hsun.2
  have hsome := bfsLoop_isSome (blkStep blocks isT) blkPotential
    (fun l2 c h => blkStep_spec blocks isT l2 c h)
    (fuelBound (blkPotential (blkSeeds blocks emissions (sunLit blocks isT)).1)
      (blkSeeds blocks emissions (sunLit blocks isT)).2.length)
    (blkSeeds blocks emissions (sunLit blocks isT)).2
    (blkSeeds blocks emissions (sunLit blocks isT)).1 hseed.1
    (by unfold fuelBound; omega)
  obtain ⟨lf, hlf⟩ := Option.isSome_iff_exists.mp hsome
  have hout : calculateLight blocks isT emissions = lf := by
    rw [calculateLight_eq, hlf]
    rfl
  have h := bfsLoop_blk_supp blocks isT (blkSeeds blocks emissions (sunLit blocks isT)).1
    (fuelBound (blkPotential (blkSeeds blocks emissions (sunLit blocks isT)).1)
      (blkSeeds blocks emissions (sunLit blocks isT)).2.length)
    (blkSeeds blocks emissions (sunLit blocks isT)).2
    (blkSeeds blocks emissions (sunLit blocks isT)).1 lf hseed.1
    (fun v hv => Or.inl (Nat.le_refl _)) hseed.2.2 hlf
  rw [hout]
  exact ⟨h.1, h.2.1, fun i => (h.2.2 i).trans (hseed.2.1 i)⟩

end LightEngine

/-- C6: light monotonicity of calculateLight's output.  Sun nibble: for
voxels A and B where every propagation path from a phase 1 sunlight seed to
B runs through A, the produced array satisfies light(B) ≤ light(A); the
only non-attenuating step, straight-down at level 15, keeps the bound.
Block nibble: the same with the phase 3 emissive seeds.  And the per-step
discipline of the claim's last clause: both flood fills overwrite a stored
nibble only when the new value is strictly greater, the new sun nibble is
at most the source level with equality only straight down at 15, and the
new block nibble is strictly below the source level. -/
theorem c6_flood_fill_monotone (blocks : ByteFn) (isT : Nat → Bool)
    (emissions : Nat → Nat) (hem : ∀ b, emissions b ≤ 15) :
    (∀ A B : Nat × Nat × Nat, LightEngine.vIn A → LightEngine.vIn B →
      (∀ p, LightEngine.lightPath blocks isT
          (fun s => 0 < LightEngine.sunNib (LightEngine.phase1 blocks isT) s) p B →
        A ∈ p) →
      LightEngine.sunNib (LightEngine.calculateLight blocks isT emissions) B ≤
        LightEngine.sunNib (LightEngine.calculateLight blocks isT emissions) A) ∧
    (∀ A B : Nat × Nat × Nat, LightEngine.vIn A → LightEngine.vIn B →
      (∀ p, LightEngine.lightPath blocks isT
          (fun s => 0 < LightEngine.blkNib
            (LightEngine.blkSeeds blocks emissions (LightEngine.sunLit blocks isT)).1 s) p B →
        A ∈ p) →
      LightEngine.blkNib (LightEngine.calculateLight blocks isT emissions) B ≤
        LightEngine.blkNib (LightEngine.calculateLight blocks isT emissions) A) ∧
    (∀ (l : ByteFn) (level : Nat) (x y z : Nat) (o : Int × Int × Int), level ≤ 15 →
      (∀ i, (LightEngine.propagateSun blocks isT l level x y z o).1 i ≠ l i →
        (l i >>> 4 < (LightEngine.propagateSun blocks isT l level x y z o).1 i >>> 4 ∧
         (LightEngine.propagateSun blocks isT l level x y z o).1 i >>> 4 ≤ level ∧
         ((LightEngine.propagateSun blocks isT l level x y z o).1 i >>> 4 = level →
           o.2.1 = -1 ∧ level = 15))) ∧
      (∀ i, (LightEngine.propagateBlk blocks isT l level x y z o).1 i ≠ l i →
        (l i &&& 15 < (LightEngine.propagateBlk blocks isT l level x y z o).1 i &&& 15 ∧
         (LightEngine.propagateBlk blocks isT l level x y z o).1 i &&& 15 < level))) := by
  refine ⟨?_, ?_, ?_⟩
  · intro A B hA hB hthrough
    have hP := LightEngine.calculateLight_props blocks isT emissions hem
    have hsun := LightEngine.sunLit_props blocks isT
    by_cases hpos : 0 < LightEngine.sunNib (LightEngine.sunLit blocks isT) B
    · obtain ⟨p, hp, hall⟩ := LightEngine.sunSupp_path blocks isT
        (LightEngine.phase1 blocks isT) (LightEngine.sunLit blocks isT) hsun.1 hsun.2
        ((15 - LightEngine.sunNib (LightEngine.sunLit blocks isT) B) * 256 + (255 - B.2.1))
        B (Nat.le_refl _) hB hpos
      have hAB := hall A (hthrough p hp)
      simp only [LightEngine.sunNib] at hAB ⊢
      rw [hP.2.2, hP.2.2]
      exact hAB
    · simp only [LightEngine.sunNib] at hpos ⊢
      rw [hP.2.2, hP.2.2]
      omega
  · intro A B hA hB hthrough
    have hP := LightEngine.calculateLight_props blocks isT emissions hem
    by_cases hpos : 0 < LightEngine.blkNib (LightEngine.calculateLight blocks isT emissions) B
    · obtain ⟨p, hp, hall⟩ := LightEngine.blkSupp_path blocks isT
        (LightEngine.blkSeeds blocks emissions (LightEngine.sunLit blocks isT)).1
        (LightEngine.calculateLight blocks isT emissions) hP.1
        (15 - LightEngine.blkNib (LightEngine.calculateLight blocks isT emissions) B)
        B (Nat.le_refl _) hB hpos
      exact hall A (hthrough p hp)
    · omega
  · intro l level x y z o hlev
    exact propagate_step_discipline blocks isT l level x y z o hlev

/-- C6 witness: the monotonicity theorem applied to the all-air chunk with
no emissive blocks, with the through-voxel hypothesis discharged at A = B
(the end voxel lies on every path ending at it), plus the write discipline
exercised at a concrete propagation that raises a dark neighbour. -/
theorem c6_flood_fill_monotone_witness :
    (LightEngine.sunNib (LightEngine.calculateLight c6blocks c6isT (fun _ => 0)) (1, 1, 1) ≤
      LightEngine.sunNib (LightEngine.calculateLight c6blocks c6isT (fun _ => 0)) (1, 1, 1)) ∧
    c6l (LightEngine.idx 2 1 1) >>> 4 <
      (LightEngine.propagateSun c6blocks c6isT c6l 15 1 1 1 (1, 0, 0)).1
        (LightEngine.idx 2 1 1) >>> 4 := by
  have h := c6_flood_fill_monotone c6blocks c6isT (fun _ => 0) (fun b => by norm_num)
  constructor
  · exact h.1 (1, 1, 1) (1, 1, 1)
      (by simp [LightEngine.vIn, CHUNK_SIZE, CHUNK_HEIGHT])
      (by simp [LightEngine.vIn, CHUNK_SIZE, CHUNK_HEIGHT])
      (fun p hp => LightEngine.mem_of_getLastQ p (1, 1, 1) hp.2.2.1)
  · exact ((h.2.2 c6l 15 1 1 1 (1, 0, 0) (by norm_num)).1 (LightEngine.idx 2 1 1) (by decide)).1


/-- C10: both flood-fill loops of calculateLight terminate.  A coordinate
is re-enqueued only when a stored 4-bit nibble strictly increases, each
nibble is bounded by 15 over the chunk volume, so the potential argument
makes the explicit fuel bound sufficient: with it, neither loop runs out
of fuel (isSome), for any queue and any light array of bytes. -/
theorem c10_bfs_loops_terminate (blocks : ByteFn) (isT : Nat → Bool)
    (q : List (Nat × Nat × Nat)) (l : ByteFn) (hl : ∀ i, l i < 256) :
    (LightEngine.bfsLoop (LightEngine.sunStep blocks isT)
      (LightEngine.fuelBound (LightEngine.sunPotential l) q.length) q l).isSome = true ∧
    (LightEngine.bfsLoop (LightEngine.blkStep blocks isT)
      (LightEngine.fuelBound (LightEngine.blkPotential l) q.length) q l).isSome = true := by
  constructor
  · exact LightEngine.bfsLoop_isSome _ LightEngine.sunPotential
      (fun l' c h => LightEngine.sunStep_spec blocks isT l' c h) _ q l hl
      (by unfold LightEngine.fuelBound; omega)
  · exact LightEngine.bfsLoop_isSome _ LightEngine.blkPotential
      (fun l' c h => LightEngine.blkStep_spec blocks isT l' c h) _ q l hl
      (by unfold LightEngine.fuelBound; omega)

/-- C10 witness: the termination theorem applied to the all-dark light
array with one queued coordinate. -/
theorem c10_bfs_loops_terminate_witness :
    (LightEngine.bfsLoop (LightEngine.sunStep (fun _ => 0) (fun b => b = 0))
      (LightEngine.fuelBound (LightEngine.sunPotential (fun _ => 0)) 1)
      [(0, 0, 0)] (fun _ => 0)).isSome = true ∧
    (LightEngine.bfsLoop (LightEngine.blkStep (fun _ => 0) (fun b => b = 0))
      (LightEngine.fuelBound (LightEngine.blkPotential (fun _ => 0)) 1)
      [(0, 0, 0)] (fun _ => 0)).isSome = true := by
  have h := c10_bfs_loops_terminate (fun _ => 0) (fun b => b = 0) [(0, 0, 0)]
    (fun _ => 0) (fun i => by norm_num)
  simpa using h

/-! Claim C1: the end-to-end scenario.  General lemmas about the greedy
merge on all-zero masks and on uniform bands first. -/

namespace Mesher

/-- Decode a mask cell index back into its row and column. -/
theorem cell_decode (uS v u : Nat) (hu : u < uS) :
    (v * uS + u) / uS = v ∧ (v * uS + u) % uS = u := by
  constructor
  · rw [Nat.mul_comm v uS, Nat.mul_add_div (by omega), Nat.div_eq_of_lt hu, Nat.add_zero]
  · rw [Nat.mul_comm v uS, Nat.mul_add_mod, Nat.mod_eq_of_lt hu]

/-- The row scan returns nothing once the column index passes the row end. -/
theorem mergeRow_stop (uS vS v : Nat) (m : Nat → Nat) (u : Nat) (hu : uS ≤ u) :
    ∀ fuel, mergeRow uS vS v m u fuel = ([], m) := by
  intro fuel
  cases fuel with
  | zero => rfl
  | succ f =>
      unfold mergeRow
      rw [if_neg (by omega)]

/-- The row scan of an all-zero row tail finds no rectangle. -/
theorem mergeRow_zero (uS vS v : Nat) :
    ∀ (fuel : Nat) (m : Nat → Nat) (u : Nat),
      (∀ u', u ≤ u' → u' < uS → m (v * uS + u') = 0) →
      mergeRow uS vS v m u fuel = ([], m) := by
  intro fuel
  induction fuel with
  | zero => intro m u h; rfl
  | succ f ih =>
      intro m u h
      unfold mergeRow
      split
      · rename_i hu
        rw [h u le_rfl hu]
        rw [if_pos rfl]
        exact ih m (u + 1) (fun u' h1 h2 => h u' (by omega) h2)
      · rfl

/-- The row-by-row merge of a mask that is zero from row v on is empty. -/
theorem mergeRows_zero (uS vS : Nat) :
    ∀ (fuel : Nat) (v : Nat) (m : Nat → Nat),
      (∀ u' < uS, ∀ v', v ≤ v' → v' < vS → m (v' * uS + u') = 0) →
      mergeRows uS vS m v fuel = [] := by
  intro fuel
  induction fuel with
  | zero => intro v m h; rfl
  | succ f ih =>
      intro v m h
      unfold mergeRows
      split
      · rename_i hv
        rw [mergeRow_zero uS vS v uS m 0 (fun u' _ h2 => h u' h2 v le_rfl hv)]
        exact ih (v + 1) m (fun u' h1 v' h2 h3 => h u' h1 v' (by omega) h3)
      · rfl

/-- A mask that is zero on every cell merges to nothing. -/
theorem mergeMask_zero (m : Nat → Nat) (uS vS : Nat)
    (h : ∀ u' < uS, ∀ v' < vS, m (v' * uS + u') = 0) :
    mergeMask m uS vS = [] :=
  mergeRows_zero uS vS vS 0 m (fun u' h1 v' _ h3 => h u' h1 v' h3)

/-- Width growth over a fully matching row reaches the full row width. -/
theorem growWidth_full (m : Nat → Nat) (uS v c : Nat)
    (hrow : ∀ u' < uS, m (v * uS + u') = c) :
    ∀ (fuel w : Nat), 1 ≤ w → w ≤ uS → uS ≤ w + fuel →
      growWidth m uS v 0 c w fuel = uS := by
  intro fuel
  induction fuel with
  | zero =>
      intro w h1 h2 h3
      unfold growWidth
      omega
  | succ f ih =>
      intro w h1 h2 h3
      unfold growWidth
      split
      · rename_i hcond
        exact ih (w + 1) (by omega) (by omega) (by omega)
      · rename_i hcond
        have hw : ¬ (0 + w < uS) := by
          intro hlt
          exact hcond ⟨hlt, hrow (0 + w) (by omega)⟩
        omega

/-- A row of cells all equal to c passes the row-match test. -/
theorem rowMatches_full (m : Nat → Nat) (uS v c : Nat)
    (hrow : ∀ u' < uS, m (v * uS + u') = c) :
    ∀ w, w ≤ uS → rowMatches m uS v 0 c w = true := by
  intro w
  induction w with
  | zero => intro _; rfl
  | succ w ih =>
      intro hw
      unfold rowMatches
      rw [ih (by omega)]
      simp [hrow w (by omega)]

/-- A row whose first cell is zero fails the row-match test for c ≠ 0. -/
theorem rowMatches_false (m : Nat → Nat) (uS v c : Nat) (hc : c ≠ 0)
    (h0 : m (v * uS + 0) = 0) :
    ∀ w, 1 ≤ w → rowMatches m uS v 0 c w = false := by
  intro w
  induction w with
  | zero => intro h; omega
  | succ w ih =>
      intro _
      unfold rowMatches
      cases w with
      | zero =>
          have h0' : m (v * uS) = 0 := by simpa using h0
          simp [rowMatches, h0', Ne.symm hc]
      | succ w' => rw [ih (by omega)]; rfl

/-- Height growth over a uniform band of k rows reaches exactly k. -/
theorem growHeight_band (m : Nat → Nat) (uS vS c k : Nat)
    (hu : 0 < uS) (hc : c ≠ 0) (_hk : 0 < k) (hkv : k ≤ vS)
    (hband : ∀ u' < uS, ∀ v' < vS, m (v' * uS + u') = if v' < k then c else 0) :
    ∀ (fuel h : Nat), 1 ≤ h → h ≤ k → k ≤ h + fuel →
      growHeight m uS vS 0 0 c uS h fuel = k := by
  intro fuel
  induction fuel with
  | zero =>
      intro h h1 h2 h3
      unfold growHeight
      omega
  | succ f ih =>
      intro h h1 h2 h3
      unfold growHeight
      by_cases hhk : h < k
      · rw [if_pos ?side]
        case side =>
          refine ⟨by omega, rowMatches_full m uS (0 + h) c ?_ uS le_rfl⟩
          intro u' hu'
          rw [hband u' hu' (0 + h) (by omega)]
          rw [if_pos (by omega)]
        exact ih (h + 1) (by omega) (by omega) (by omega)
      · have hhk2 : h = k := by omega
        by_cases hkvs : k < vS
        · rw [if_neg ?side2]
          case side2 =>
            intro hcontra
            have hrow0 : m ((0 + h) * uS + 0) = 0 := by
              rw [hband 0 hu (0 + h) (by omega)]
              rw [if_neg (by omega)]
            have := rowMatches_false m uS (0 + h) c hc hrow0 uS (by omega)
            rw [this] at hcontra
            exact absurd hcontra.2 (by simp)
          omega
        · rw [if_neg (by omega)]
          omega

/-- Reading a canonical cell through clearRegion. -/
theorem clearRegion_cell (m : Nat → Nat) (uS u0 v0 w h u v : Nat) (hu : u < uS) :
    clearRegion m uS u0 v0 w h (v * uS + u) =
      if v0 ≤ v ∧ v < v0 + h ∧ u0 ≤ u ∧ u < u0 + w then 0 else m (v * uS + u) := by
  unfold clearRegion
  rw [(cell_decode uS v u hu).1, (cell_decode uS v u hu).2]

/-- The first row scan of a uniform k-row band finds the single full
rectangle and clears it. -/
theorem mergeRow_band (m : Nat → Nat) (uS vS c k : Nat)
    (hu : 0 < uS) (hc : c ≠ 0) (hk : 0 < k) (hkv : k ≤ vS)
    (hband : ∀ u' < uS, ∀ v' < vS, m (v' * uS + u') = if v' < k then c else 0) :
    mergeRow uS vS 0 m 0 uS =
      ([⟨0, 0, uS, k, c⟩], clearRegion m uS 0 0 uS k) := by
  obtain ⟨uS', rfl⟩ : ∃ uS', uS = uS' + 1 := ⟨uS - 1, by omega⟩
  have hrow0 : ∀ u' < uS' + 1, m (0 * (uS' + 1) + u') = c := by
    intro u' hu'
    rw [hband u' hu' 0 (by omega), if_pos hk]
  have hm0 : m (0 * (uS' + 1) + 0) = c := hrow0 0 (by omega)
  unfold mergeRow
  rw [if_pos (by omega : 0 < uS' + 1)]
  rw [hm0, if_neg hc]
  dsimp only []
  rw [growWidth_full m (uS' + 1) 0 c hrow0 (uS' + 1) 1 le_rfl (by omega) (by omega)]
  rw [growHeight_band m (uS' + 1) vS c k (by omega) hc hk hkv hband vS 1 le_rfl hk (by omega)]
  rw [mergeRow_stop (uS' + 1) vS 0 _ (0 + (uS' + 1)) (by omega)]

/-- A uniform k-row band merges into the single k×uS rectangle. -/
theorem mergeMask_band (m : Nat → Nat) (uS vS c k : Nat)
    (hu : 0 < uS) (hc : c ≠ 0) (hk : 0 < k) (hkv : k ≤ vS)
    (hband : ∀ u' < uS, ∀ v' < vS, m (v' * uS + u') = if v' < k then c else 0) :
    mergeMask m uS vS = [⟨0, 0, uS, k, c⟩] := by
  unfold mergeMask
  obtain ⟨vS', rfl⟩ : ∃ vS', vS = vS' + 1 := ⟨vS - 1, by omega⟩
  unfold mergeRows
  rw [if_pos (by omega : 0 < vS' + 1)]
  rw [mergeRow_band m uS (vS' + 1) c k hu hc hk hkv hband]
  dsimp only []
  simp only [Nat.zero_add]
  rw [mergeRows_zero uS (vS' + 1) vS' 1 (clearRegion m uS 0 0 uS k) ?cleared]
  · simp
  case cleared =>
    intro u' hu' v' hv1 hv2
    rw [clearRegion_cell m uS 0 0 uS k u' v' hu']
    by_cases hvk : v' < k
    · rw [if_pos ⟨by omega, by omega, by omega, by omega⟩]
    · rw [if_neg (by omega)]
      rw [hband u' hu' v' hv2, if_neg hvk]

/-- In-range getBlock reads the array directly. -/
theorem getBlock_inRange (blocks : ByteFn) (x y z : Nat)
    (hx : x < 16) (hy : y < 256) (hz : z < 16) :
    getBlock blocks x y z = blocks (blockIndex x y z) := by
  unfold getBlock
  rw [if_neg]
  · simp
  · simp only [CHUNK_SIZE, CHUNK_HEIGHT]
    push_cast
    omega

/-- In-range getBlockOrNeighbor reads the own-chunk array. -/
theorem getBlockOrNeighbor_inRange (blocks : ByteFn) (nbs : NeighborMap)
    (lx ly lz : Int) (hx0 : 0 ≤ lx) (hx1 : lx < 16) (hy0 : 0 ≤ ly) (hy1 : ly < 256)
    (hz0 : 0 ≤ lz) (hz1 : lz < 16) :
    getBlockOrNeighbor blocks lx ly lz nbs = blocks (blockIndex lx.toNat ly.toNat lz.toNat) := by
  unfold getBlockOrNeighbor
  simp only [CHUNK_SIZE, CHUNK_HEIGHT]
  push_cast
  split_ifs <;> first | rfl | omega | simp_all

/-- Out-of-world getBlockOrNeighbor reads air. -/
theorem getBlockOrNeighbor_yOut (blocks : ByteFn) (nbs : NeighborMap)
    (lx ly lz : Int) (hy : ly < 0 ∨ 256 ≤ ly) :
    getBlockOrNeighbor blocks lx ly lz nbs = 0 := by
  unfold getBlockOrNeighbor
  rw [if_pos (by simp only [CHUNK_HEIGHT]; push_cast; omega)]

/-- The scenario neighbour map: all four lateral neighbours are absent. -/
def scNone : NeighborMap := fun _ => none

/-- With absent neighbours, a laterally out-of-chunk block sample is air. -/
theorem getBlockOrNeighbor_none (blocks : ByteFn) (lx ly lz : Int)
    (hy0 : 0 ≤ ly) (hy1 : ly < 256)
    (hlat : lx < 0 ∨ 16 ≤ lx ∨ lz < 0 ∨ 16 ≤ lz) :
    getBlockOrNeighbor blocks lx ly lz scNone = 0 := by
  unfold getBlockOrNeighbor
  simp only [CHUNK_SIZE, CHUNK_HEIGHT]
  push_cast
  rw [if_neg (by omega)]
  rw [if_neg ?hcond]
  case hcond => split_ifs <;> simp_all
  simp [scNone]

/-- In-range getLightOrNeighbor reads the own-chunk array. -/
theorem getLightOrNeighbor_inRange (light : ByteFn) (nls : NeighborMap)
    (lx ly lz : Int) (hx0 : 0 ≤ lx) (hx1 : lx < 16) (hy0 : 0 ≤ ly) (hy1 : ly < 256)
    (hz0 : 0 ≤ lz) (hz1 : lz < 16) :
    getLightOrNeighbor light lx ly lz nls = light (blockIndex lx.toNat ly.toNat lz.toNat) := by
  unfold getLightOrNeighbor
  simp only [CHUNK_SIZE, CHUNK_HEIGHT]
  push_cast
  split_ifs <;> first | rfl | omega | simp_all

/-- Below-world light reads dark. -/
theorem getLightOrNeighbor_below (light : ByteFn) (nls : NeighborMap)
    (lx ly lz : Int) (hy : ly < 0) :
    getLightOrNeighbor light lx ly lz nls = 0 := by
  unfold getLightOrNeighbor
  rw [if_neg (by simp only [CHUNK_HEIGHT]; push_cast; omega)]
  rw [if_pos hy]

/-- With absent neighbours, a laterally out-of-chunk light sample reads
full sunlight. -/
theorem getLightOrNeighbor_none (light : ByteFn) (lx ly lz : Int)
    (hy0 : 0 ≤ ly) (hy1 : ly < 256)
    (hlat : lx < 0 ∨ 16 ≤ lx ∨ lz < 0 ∨ 16 ≤ lz) :
    getLightOrNeighbor light lx ly lz scNone = 0xF0 := by
  unfold getLightOrNeighbor
  simp only [CHUNK_SIZE, CHUNK_HEIGHT]
  push_cast
  rw [if_neg (by omega)]
  rw [if_neg (by omega)]
  rw [if_neg ?hcond]
  case hcond => split_ifs <;> simp_all
  simp [scNone]

/-- Scenario blocks: stone (id 1) for y in 0..9, air above. -/
def scBlocks : ByteFn := fun i => if i % 256 ≤ 9 then 1 else 0

/-- The air descriptor of the scenario table. -/
def scAir : BlockInfo := ⟨0, true, false, 0, 0, 0, 0⟩

/-- The stone descriptor of the scenario table: opaque and solid. -/
def scStone : BlockInfo := ⟨1, false, true, 0, 1, 1, 1⟩

/-- Scenario block table: air and stone only. -/
def scInfo : BlockTable := fun id =>
  if id = 0 then some scAir else if id = 1 then some scStone else none

/-- Scenario light: full sunlight at y in 10..255, dark below. -/
def scLight : ByteFn := fun i => if 10 ≤ i % 256 then 0xF0 else 0

/-- Scenario block lookup through the flat index. -/
theorem scBlocks_at (x y z : Nat) (hy : y < 256) :
    scBlocks (blockIndex x y z) = if y ≤ 9 then 1 else 0 := by
  have hmod : blockIndex x y z % 256 = y := by
    simp only [blockIndex, CHUNK_SIZE, CHUNK_HEIGHT]
    omega
  simp only [scBlocks, hmod]

/-- Scenario light lookup through the flat index. -/
theorem scLight_at (x y z : Nat) (hy : y < 256) :
    scLight (blockIndex x y z) = if 10 ≤ y then 0xF0 else 0 := by
  have hmod : blockIndex x y z % 256 = y := by
    simp only [blockIndex, CHUNK_SIZE, CHUNK_HEIGHT]
    omega
  simp only [scLight, hmod]

/-- Scenario mask, facing up: only slice d = 9 (the flat stone top) is
visible, uniformly lit from above. -/
theorem maskCell_up (d u v : Nat) (hd : d < 256) (hu : u < 16) (hv : v < 16) :
    maskCell DIR_UP d u v scBlocks scNone scInfo scLight scNone =
      if d = 9 then 61441 else 0 := by
  have hpos : maskCell DIR_UP d u v scBlocks scNone scInfo scLight scNone =
      maskAt DIR_UP u d v scBlocks scNone scInfo scLight scNone := rfl
  rw [hpos]
  unfold maskAt
  rw [getBlock_inRange scBlocks u d v hu hd hv, scBlocks_at u d v hd]
  by_cases hd9 : d ≤ 9
  · rw [if_pos hd9]
    rw [if_neg one_ne_zero]
    have hinfo : scInfo 1 = some scStone := rfl
    rw [hinfo]
    dsimp only [DIR_UP, dirNormal]
    norm_num
    have hnb : getBlockOrNeighbor scBlocks (u : Int) ((d : Int) + 1) (v : Int) scNone =
        if d + 1 ≤ 9 then 1 else 0 := by
      rw [getBlockOrNeighbor_inRange scBlocks scNone u ((d : Int) + 1) v
        (by omega) (by omega) (by omega) (by omega) (by omega) (by omega)]
      rw [show ((d : Int) + 1).toNat = d + 1 from Int.toNat_natCast_add_one]
      simp only [Int.toNat_natCast]
      exact scBlocks_at u (d + 1) v (by omega)
    rw [hnb]
    by_cases hd8 : d + 1 ≤ 9
    · rw [if_pos hd8]
      have hfv : faceVisible scStone 1 1 scInfo = false := by
        simp [faceVisible, scInfo, scStone]
      rw [hfv]
      rw [if_neg (by simp)]
      rw [if_neg (by omega)]
    · rw [if_neg hd8]
      have hfv : faceVisible scStone 1 0 scInfo = true := by
        simp [faceVisible]
      rw [hfv]
      rw [if_pos rfl]
      have hlight : getLightOrNeighbor scLight (u : Int) ((d : Int) + 1) (v : Int) scNone = 0xF0 := by
        rw [getLightOrNeighbor_inRange scLight scNone u ((d : Int) + 1) v
          (by omega) (by omega) (by omega) (by omega) (by omega) (by omega)]
        rw [show ((d : Int) + 1).toNat = d + 1 from Int.toNat_natCast_add_one]
        simp only [Int.toNat_natCast]
        rw [scLight_at u (d + 1) v (by omega)]
        rw [if_pos (by omega)]
      rw [hlight]
      rw [if_pos (by omega : d = 9)]
      decide
  · rw [if_neg hd9]
    rw [if_pos rfl]
    rw [if_neg (by omega : ¬ d = 9)]

/-- Scenario mask, facing down: only slice d = 0 (the world floor, where
the missing below-world neighbour reads as air) is visible, dark. -/
theorem maskCell_down (d u v : Nat) (hd : d < 256) (hu : u < 16) (hv : v < 16) :
    maskCell DIR_DOWN d u v scBlocks scNone scInfo scLight scNone =
      if d = 0 then 1 else 0 := by
  have hpos : maskCell DIR_DOWN d u v scBlocks scNone scInfo scLight scNone =
      maskAt DIR_DOWN u d v scBlocks scNone scInfo scLight scNone := rfl
  rw [hpos]
  unfold maskAt
  rw [getBlock_inRange scBlocks u d v hu hd hv, scBlocks_at u d v hd]
  by_cases hd9 : d ≤ 9
  · rw [if_pos hd9]
    rw [if_neg one_ne_zero]
    have hinfo : scInfo 1 = some scStone := rfl
    rw [hinfo]
    dsimp only [DIR_UP, DIR_DOWN, dirNormal]
    norm_num
    by_cases hd0 : d = 0
    · have hnb : getBlockOrNeighbor scBlocks (u : Int) ((d : Int) + -1) (v : Int) scNone = 0 :=
        getBlockOrNeighbor_yOut scBlocks scNone _ _ _ (Or.inl (by omega))
      rw [hnb]
      have hfv : faceVisible scStone 1 0 scInfo = true := by
        simp [faceVisible]
      rw [hfv]
      rw [if_pos rfl]
      have hlight : getLightOrNeighbor scLight (u : Int) ((d : Int) + -1) (v : Int) scNone = 0 :=
        getLightOrNeighbor_below scLight scNone _ _ _ (by omega)
      rw [hlight]
      rw [if_pos hd0]
      decide
    · have hnb : getBlockOrNeighbor scBlocks (u : Int) ((d : Int) + -1) (v : Int) scNone = 1 := by
        rw [getBlockOrNeighbor_inRange scBlocks scNone u ((d : Int) + -1) v
          (by omega) (by omega) (by omega) (by omega) (by omega) (by omega)]
        rw [show ((d : Int) + -1).toNat = d - 1 by omega]
        simp only [Int.toNat_natCast]
        rw [scBlocks_at u (d - 1) v (by omega)]
        rw [if_pos (by omega)]
      rw [hnb]
      have hfv : faceVisible scStone 1 1 scInfo = false := by
        simp [faceVisible, scInfo, scStone]
      rw [hfv]
      rw [if_neg (by simp)]
      rw [if_neg hd0]
  · rw [if_neg hd9]
    rw [if_pos rfl]
    rw [if_neg (by omega : ¬ d = 0)]

/-- Scenario mask, facing north: with the -Z neighbour absent, the whole
d = 0 boundary wall of the stone band is visible, lit by the default
full-sun fallback. -/
theorem maskCell_north (d u v : Nat) (hd : d < 16) (hu : u < 16) (hv : v < 256) :
    maskCell DIR_NORTH d u v scBlocks scNone scInfo scLight scNone =
      if d = 0 ∧ v ≤ 9 then 61441 else 0 := by
  have hpos : maskCell DIR_NORTH d u v scBlocks scNone scInfo scLight scNone =
      maskAt DIR_NORTH u v d scBlocks scNone scInfo scLight scNone := rfl
  rw [hpos]
  unfold maskAt
  rw [getBlock_inRange scBlocks u v d hu hv hd, scBlocks_at u v d hv]
  by_cases hv9 : v ≤ 9
  · rw [if_pos hv9]
    rw [if_neg one_ne_zero]
    have hinfo : scInfo 1 = some scStone := rfl
    rw [hinfo]
    dsimp only [DIR_UP, DIR_DOWN, DIR_NORTH, dirNormal]
    norm_num
    by_cases hd0 : d = 0
    · have hnb : getBlockOrNeighbor scBlocks (u : Int) (v : Int) ((d : Int) + -1) scNone = 0 :=
        getBlockOrNeighbor_none scBlocks _ _ _ (by omega) (by omega) (by omega)
      rw [hnb]
      have hfv : faceVisible scStone 1 0 scInfo = true := by
        simp [faceVisible]
      rw [hfv]
      rw [if_pos rfl]
      have hlight : getLightOrNeighbor scLight (u : Int) (v : Int) ((d : Int) + -1) scNone = 0xF0 :=
        getLightOrNeighbor_none scLight _ _ _ (by omega) (by omega) (by omega)
      rw [hlight]
      rw [if_pos ⟨hd0, hv9⟩]
      decide
    · have hnb : getBlockOrNeighbor scBlocks (u : Int) (v : Int) ((d : Int) + -1) scNone = 1 := by
        rw [getBlockOrNeighbor_inRange scBlocks scNone u v ((d : Int) + -1)
          (by omega) (by omega) (by omega) (by omega) (by omega) (by omega)]
        rw [show ((d : Int) + -1).toNat = d - 1 by omega]
        simp only [Int.toNat_natCast]
        rw [scBlocks_at u v (d - 1) hv]
        rw [if_pos hv9]
      rw [hnb]
      have hfv : faceVisible scStone 1 1 scInfo = false := by
        simp [faceVisible, scInfo, scStone]
      rw [hfv]
      rw [if_neg (by simp)]
      rw [if_neg (by omega)]
  · rw [if_neg hv9]
    rw [if_pos rfl]
    rw [if_neg (by omega)]

/-- Scenario mask, facing south: with the +Z neighbour absent, the whole
d = 15 boundary wall of the stone band is visible. -/
theorem maskCell_south (d u v : Nat) (hd : d < 16) (hu : u < 16) (hv : v < 256) :
    maskCell DIR_SOUTH d u v scBlocks scNone scInfo scLight scNone =
      if d = 15 ∧ v ≤ 9 then 61441 else 0 := by
  have hpos : maskCell DIR_SOUTH d u v scBlocks scNone scInfo scLight scNone =
      maskAt DIR_SOUTH u v d scBlocks scNone scInfo scLight scNone := rfl
  rw [hpos]
  unfold maskAt
  rw [getBlock_inRange scBlocks u v d hu hv hd, scBlocks_at u v d hv]
  by_cases hv9 : v ≤ 9
  · rw [if_pos hv9]
    rw [if_neg one_ne_zero]
    have hinfo : scInfo 1 = some scStone := rfl
    rw [hinfo]
    dsimp only [DIR_UP, DIR_DOWN, DIR_NORTH, DIR_SOUTH, dirNormal]
    norm_num
    by_cases hd15 : d = 15
    · have hnb : getBlockOrNeighbor scBlocks (u : Int) (v : Int) ((d : Int) + 1) scNone = 0 :=
        getBlockOrNeighbor_none scBlocks _ _ _ (by omega) (by omega) (by omega)
      rw [hnb]
      have hfv : faceVisible scStone 1 0 scInfo = true := by
        simp [faceVisible]
      rw [hfv]
      rw [if_pos rfl]
      have hlight : getLightOrNeighbor scLight (u : Int) (v : Int) ((d : Int) + 1) scNone = 0xF0 :=
        getLightOrNeighbor_none scLight _ _ _ (by omega) (by omega) (by omega)
      rw [hlight]
      rw [if_pos ⟨hd15, hv9⟩]
      decide
    · have hnb : getBlockOrNeighbor scBlocks (u : Int) (v : Int) ((d : Int) + 1) scNone = 1 := by
        rw [getBlockOrNeighbor_inRange scBlocks scNone u v ((d : Int) + 1)
          (by omega) (by omega) (by omega) (by omega) (by omega) (by omega)]
        rw [show ((d : Int) + 1).toNat = d + 1 from Int.toNat_natCast_add_one]
        simp only [Int.toNat_natCast]
        rw [scBlocks_at u v (d + 1) hv]
        rw [if_pos hv9]
      rw [hnb]
      have hfv : faceVisible scStone 1 1 scInfo = false := by
        simp [faceVisible, scInfo, scStone]
      rw [hfv]
      rw [if_neg (by simp)]
      rw [if_neg (by omega)]
  · rw [if_neg hv9]
    rw [if_pos rfl]
    rw [if_neg (by omega)]

/-- Scenario mask, facing east: with the +X neighbour absent, the whole
d = 15 boundary wall of the stone band is visible. -/
theorem maskCell_east (d u v : Nat) (hd : d < 16) (hu : u < 16) (hv : v < 256) :
    maskCell DIR_EAST d u v scBlocks scNone scInfo scLight scNone =
      if d = 15 ∧ v ≤ 9 then 61441 else 0 := by
  have hpos : maskCell DIR_EAST d u v scBlocks scNone scInfo scLight scNone =
      maskAt DIR_EAST d v u scBlocks scNone scInfo scLight scNone := rfl
  rw [hpos]
  unfold maskAt
  rw [getBlock_inRange scBlocks d v u hd hv hu, scBlocks_at d v u hv]
  by_cases hv9 : v ≤ 9
  · rw [if_pos hv9]
    rw [if_neg one_ne_zero]
    have hinfo : scInfo 1 = some scStone := rfl
    rw [hinfo]
    dsimp only [DIR_UP, DIR_DOWN, DIR_NORTH, DIR_SOUTH, DIR_EAST, dirNormal]
    norm_num
    by_cases hd15 : d = 15
    · have hnb : getBlockOrNeighbor scBlocks ((d : Int) + 1) (v : Int) (u : Int) scNone = 0 :=
        getBlockOrNeighbor_none scBlocks _ _ _ (by omega) (by omega) (by omega)
      rw [hnb]
      have hfv : faceVisible scStone 1 0 scInfo = true := by
        simp [faceVisible]
      rw [hfv]
      rw [if_pos rfl]
      have hlight : getLightOrNeighbor scLight ((d : Int) + 1) (v : Int) (u : Int) scNone = 0xF0 :=
        getLightOrNeighbor_none scLight _ _ _ (by omega) (by omega) (by omega)
      rw [hlight]
      rw [if_pos ⟨hd15, hv9⟩]
      decide
    · have hnb : getBlockOrNeighbor scBlocks ((d : Int) + 1) (v : Int) (u : Int) scNone = 1 := by
        rw [getBlockOrNeighbor_inRange scBlocks scNone ((d : Int) + 1) v u
          (by omega) (by omega) (by omega) (by omega) (by omega) (by omega)]
        rw [show ((d : Int) + 1).toNat = d + 1 from Int.toNat_natCast_add_one]
        simp only [Int.toNat_natCast]
        rw [scBlocks_at (d + 1) v u hv]
        rw [if_pos hv9]
      rw [hnb]
      have hfv : faceVisible scStone 1 1 scInfo = false := by
        simp [faceVisible, scInfo, scStone]
      rw [hfv]
      rw [if_neg (by simp)]
      rw [if_neg (by omega)]
  · rw [if_neg hv9]
    rw [if_pos rfl]
    rw [if_neg (by omega)]

/-- Scenario mask, facing west: with the -X neighbour absent, the whole
d = 0 boundary wall of the stone band is visible. -/
theorem maskCell_west (d u v : Nat) (hd : d < 16) (hu : u < 16) (hv : v < 256) :
    maskCell DIR_WEST d u v scBlocks scNone scInfo scLight scNone =
      if d = 0 ∧ v ≤ 9 then 61441 else 0 := by
  have hpos : maskCell DIR_WEST d u v scBlocks scNone scInfo scLight scNone =
      maskAt DIR_WEST d v u scBlocks scNone scInfo scLight scNone := rfl
  rw [hpos]
  unfold maskAt
  rw [getBlock_inRange scBlocks d v u hd hv hu, scBlocks_at d v u hv]
  by_cases hv9 : v ≤ 9
  · rw [if_pos hv9]
    rw [if_neg one_ne_zero]
    have hinfo : scInfo 1 = some scStone := rfl
    rw [hinfo]
    dsimp only [DIR_UP, DIR_DOWN, DIR_NORTH, DIR_SOUTH, DIR_EAST, DIR_WEST, dirNormal]
    norm_num
    by_cases hd0 : d = 0
    · have hnb : getBlockOrNeighbor scBlocks ((d : Int) + -1) (v : Int) (u : Int) scNone = 0 :=
        getBlockOrNeighbor_none scBlocks _ _ _ (by omega) (by omega) (by omega)
      rw [hnb]
      have hfv : faceVisible scStone 1 0 scInfo = true := by
        simp [faceVisible]
      rw [hfv]
      rw [if_pos rfl]
      have hlight : getLightOrNeighbor scLight ((d : Int) + -1) (v : Int) (u : Int) scNone = 0xF0 :=
        getLightOrNeighbor_none scLight _ _ _ (by omega) (by omega) (by omega)
      rw [hlight]
      rw [if_pos ⟨hd0, hv9⟩]
      decide
    · have hnb : getBlockOrNeighbor scBlocks ((d : Int) + -1) (v : Int) (u : Int) scNone = 1 := by
        rw [getBlockOrNeighbor_inRange scBlocks scNone ((d : Int) + -1) v u
          (by omega) (by omega) (by omega) (by omega) (by omega) (by omega)]
        rw [show ((d : Int) + -1).toNat = d - 1 by omega]
        simp only [Int.toNat_natCast]
        rw [scBlocks_at (d - 1) v u hv]
        rw [if_pos hv9]
      rw [hnb]
      have hfv : faceVisible scStone 1 1 scInfo = false := by
        simp [faceVisible, scInfo, scStone]
      rw [hfv]
      rw [if_neg (by simp)]
      rw [if_neg (by omega)]
  · rw [if_neg hv9]
    rw [if_pos rfl]
    rw [if_neg (by omega)]

/-- Reading a canonical cell index through the slice mask gives the cell. -/
theorem sliceMask_cell (dir d u v : Nat) (hu : u < uSize dir) :
    sliceMask dir d scBlocks scNone scInfo scLight scNone (v * uSize dir + u) =
      maskCell dir d u v scBlocks scNone scInfo scLight scNone := by
  unfold sliceMask
  rw [(cell_decode (uSize dir) v u hu).1, (cell_decode (uSize dir) v u hu).2]

/-- A range flat-map whose pieces are all empty is empty. -/
theorem flatMap_range_nil {α : Type} (f : Nat → List α) :
    ∀ n, (∀ i < n, f i = []) → (List.range n).flatMap f = [] := by
  intro n
  induction n with
  | zero => intro _; rfl
  | succ n ih =>
      intro h
      rw [List.range_succ, List.flatMap_append,
        ih (fun i hi => h i (by omega))]
      simp [h n (by omega)]

/-- A range flat-map with a single non-empty piece collapses to that piece. -/
theorem flatMap_range_single {α : Type} (f : Nat → List α) (n j : Nat) (hj : j < n)
    (h : ∀ i < n, i ≠ j → f i = []) :
    (List.range n).flatMap f = f j := by
  induction n with
  | zero => omega
  | succ n ih =>
      rw [List.range_succ, List.flatMap_append]
      by_cases hjn : j = n
      · subst hjn
        rw [flatMap_range_nil f j (fun i hi => h i (by omega) (by omega))]
        simp
      · rw [ih (by omega) (fun i hi hne => h i (by omega) hne)]
        simp [h n (by omega) (fun hc => hjn hc.symm)]

/-- Up slices other than the stone top are all-zero masks: no quads. -/
theorem sliceQuads_up_empty (cx cz : Int) (d : Nat) (hd : d < 256) (hne : d ≠ 9) :
    sliceQuads cx cz DIR_UP d scBlocks scNone scInfo scLight scNone = [] := by
  unfold sliceQuads
  rw [mergeMask_zero _ (uSize DIR_UP) (vSize DIR_UP) ?hz]
  · rfl
  case hz =>
    intro u' hu' v' hv'
    rw [sliceMask_cell DIR_UP d u' v' hu']
    rw [maskCell_up d u' v' hd hu' hv']
    rw [if_neg hne]

/-- The up slice at the stone top merges to the single full 16 by 16 quad. -/
theorem sliceQuads_up_top (cx cz : Int) :
    sliceQuads cx cz DIR_UP 9 scBlocks scNone scInfo scLight scNone =
      [emitQuad cx cz DIR_UP 9 ⟨0, 0, 16, 16, 61441⟩ scBlocks scNone scInfo] := by
  have hband : ∀ u' < uSize DIR_UP, ∀ v' < vSize DIR_UP,
      sliceMask DIR_UP 9 scBlocks scNone scInfo scLight scNone (v' * uSize DIR_UP + u') =
        if v' < 16 then 61441 else 0 := by
    intro u' hu' v' hv'
    rw [sliceMask_cell DIR_UP 9 u' v' hu']
    rw [maskCell_up 9 u' v' (by omega) hu' hv']
    rw [if_pos rfl, if_pos (show v' < 16 from hv')]
  unfold sliceQuads
  rw [mergeMask_band _ (uSize DIR_UP) (vSize DIR_UP) 61441 16
    (by decide) (by decide) (by decide) (by decide) hband]
  rfl

/-- Down slices above the world floor are all-zero masks: no quads. -/
theorem sliceQuads_down_empty (cx cz : Int) (d : Nat) (hd : d < 256) (hne : d ≠ 0) :
    sliceQuads cx cz DIR_DOWN d scBlocks scNone scInfo scLight scNone = [] := by
  unfold sliceQuads
  rw [mergeMask_zero _ (uSize DIR_DOWN) (vSize DIR_DOWN) ?hz]
  · rfl
  case hz =>
    intro u' hu' v' hv'
    rw [sliceMask_cell DIR_DOWN d u' v' hu']
    rw [maskCell_down d u' v' hd hu' hv']
    rw [if_neg hne]

/-- The down slice at the world floor merges to a single dark 16 by 16
quad: the missing below-world neighbour samples as air, so a bottom
boundary face is emitted. -/
theorem sliceQuads_down_floor (cx cz : Int) :
    sliceQuads cx cz DIR_DOWN 0 scBlocks scNone scInfo scLight scNone =
      [emitQuad cx cz DIR_DOWN 0 ⟨0, 0, 16, 16, 1⟩ scBlocks scNone scInfo] := by
  have hband : ∀ u' < uSize DIR_DOWN, ∀ v' < vSize DIR_DOWN,
      sliceMask DIR_DOWN 0 scBlocks scNone scInfo scLight scNone (v' * uSize DIR_DOWN + u') =
        if v' < 16 then 1 else 0 := by
    intro u' hu' v' hv'
    rw [sliceMask_cell DIR_DOWN 0 u' v' hu']
    rw [maskCell_down 0 u' v' (by omega) hu' hv']
    rw [if_pos rfl, if_pos (show v' < 16 from hv')]
  unfold sliceQuads
  rw [mergeMask_band _ (uSize DIR_DOWN) (vSize DIR_DOWN) 1 16
    (by decide) (by decide) (by decide) (by decide) hband]
  rfl

/-- North slices past the boundary wall are all-zero masks: no quads. -/
theorem sliceQuads_north_empty (cx cz : Int) (d : Nat) (hd : d < 16) (hne : d ≠ 0) :
    sliceQuads cx cz DIR_NORTH d scBlocks scNone scInfo scLight scNone = [] := by
  unfold sliceQuads
  rw [mergeMask_zero _ (uSize DIR_NORTH) (vSize DIR_NORTH) ?hz]
  · rfl
  case hz =>
    intro u' hu' v' hv'
    rw [sliceMask_cell DIR_NORTH d u' v' hu']
    rw [maskCell_north d u' v' hd hu' hv']
    rw [if_neg (fun hc => hne hc.1)]

/-- The north boundary slice merges to a single 16 by 10 wall quad. -/
theorem sliceQuads_north_wall (cx cz : Int) :
    sliceQuads cx cz DIR_NORTH 0 scBlocks scNone scInfo scLight scNone =
      [emitQuad cx cz DIR_NORTH 0 ⟨0, 0, 16, 10, 61441⟩ scBlocks scNone scInfo] := by
  have hband : ∀ u' < uSize DIR_NORTH, ∀ v' < vSize DIR_NORTH,
      sliceMask DIR_NORTH 0 scBlocks scNone scInfo scLight scNone (v' * uSize DIR_NORTH + u') =
        if v' < 10 then 61441 else 0 := by
    intro u' hu' v' hv'
    rw [sliceMask_cell DIR_NORTH 0 u' v' hu']
    rw [maskCell_north 0 u' v' (by omega) hu' hv']
    by_cases h9 : v' ≤ 9
    · rw [if_pos ⟨rfl, h9⟩, if_pos (by omega)]
    · rw [if_neg (fun hc => h9 hc.2), if_neg (by omega)]
  unfold sliceQuads
  rw [mergeMask_band _ (uSize DIR_NORTH) (vSize DIR_NORTH) 61441 10
    (by decide) (by decide) (by decide) (by decide) hband]
  rfl

/-- South slices before the boundary wall are all-zero masks: no quads. -/
theorem sliceQuads_south_empty (cx cz : Int) (d : Nat) (hd : d < 16) (hne : d ≠ 15) :
    sliceQuads cx cz DIR_SOUTH d scBlocks scNone scInfo scLight scNone = [] := by
  unfold sliceQuads
  rw [mergeMask_zero _ (uSize DIR_SOUTH) (vSize DIR_SOUTH) ?hz]
  · rfl
  case hz =>
    intro u' hu' v' hv'
    rw [sliceMask_cell DIR_SOUTH d u' v' hu']
    rw [maskCell_south d u' v' hd hu' hv']
    rw [if_neg (fun hc => hne hc.1)]

/-- The south boundary slice merges to a single 16 by 10 wall quad. -/
theorem sliceQuads_south_wall (cx cz : Int) :
    sliceQuads cx cz DIR_SOUTH 15 scBlocks scNone scInfo scLight scNone =
      [emitQuad cx cz DIR_SOUTH 15 ⟨0, 0, 16, 10, 61441⟩ scBlocks scNone scInfo] := by
  have hband : ∀ u' < uSize DIR_SOUTH, ∀ v' < vSize DIR_SOUTH,
      sliceMask DIR_SOUTH 15 scBlocks scNone scInfo scLight scNone (v' * uSize DIR_SOUTH + u') =
        if v' < 10 then 61441 else 0 := by
    intro u' hu' v' hv'
    rw [sliceMask_cell DIR_SOUTH 15 u' v' hu']
    rw [maskCell_south 15 u' v' (by omega) hu' hv']
    by_cases h9 : v' ≤ 9
    · rw [if_pos ⟨rfl, h9⟩, if_pos (by omega)]
    · rw [if_neg (fun hc => h9 hc.2), if_neg (by omega)]
  unfold sliceQuads
  rw [mergeMask_band _ (uSize DIR_SOUTH) (vSize DIR_SOUTH) 61441 10
    (by decide) (by decide) (by decide) (by decide) hband]
  rfl

/-- East slices before the boundary wall are all-zero masks: no quads. -/
theorem sliceQuads_east_empty (cx cz : Int) (d : Nat) (hd : d < 16) (hne : d ≠ 15) :
    sliceQuads cx cz DIR_EAST d scBlocks scNone scInfo scLight scNone = [] := by
  unfold sliceQuads
  rw [mergeMask_zero _ (uSize DIR_EAST) (vSize DIR_EAST) ?hz]
  · rfl
  case hz =>
    intro u' hu' v' hv'
    rw [sliceMask_cell DIR_EAST d u' v' hu']
    rw [maskCell_east d u' v' hd hu' hv']
    rw [if_neg (fun hc => hne hc.1)]

/-- The east boundary slice merges to a single 16 by 10 wall quad. -/
theorem sliceQuads_east_wall (cx cz : Int) :
    sliceQuads cx cz DIR_EAST 15 scBlocks scNone scInfo scLight scNone =
      [emitQuad cx cz DIR_EAST 15 ⟨0, 0, 16, 10, 61441⟩ scBlocks scNone scInfo] := by
  have hband : ∀ u' < uSize DIR_EAST, ∀ v' < vSize DIR_EAST,
      sliceMask DIR_EAST 15 scBlocks scNone scInfo scLight scNone (v' * uSize DIR_EAST + u') =
        if v' < 10 then 61441 else 0 := by
    intro u' hu' v' hv'
    rw [sliceMask_cell DIR_EAST 15 u' v' hu']
    rw [maskCell_east 15 u' v' (by omega) hu' hv']
    by_cases h9 : v' ≤ 9
    · rw [if_pos ⟨rfl, h9⟩, if_pos (by omega)]
    · rw [if_neg (fun hc => h9 hc.2), if_neg (by omega)]
  unfold sliceQuads
  rw [mergeMask_band _ (uSize DIR_EAST) (vSize DIR_EAST) 61441 10
    (by decide) (by decide) (by decide) (by decide) hband]
  rfl

/-- West slices past the boundary wall are all-zero masks: no quads. -/
theorem sliceQuads_west_empty (cx cz : Int) (d : Nat) (hd : d < 16) (hne : d ≠ 0) :
    sliceQuads cx cz DIR_WEST d scBlocks scNone scInfo scLight scNone = [] := by
  unfold sliceQuads
  rw [mergeMask_zero _ (uSize DIR_WEST) (vSize DIR_WEST) ?hz]
  · rfl
  case hz =>
    intro u' hu' v' hv'
    rw [sliceMask_cell DIR_WEST d u' v' hu']
    rw [maskCell_west d u' v' hd hu' hv']
    rw [if_neg (fun hc => hne hc.1)]

/-- The west boundary slice merges to a single 16 by 10 wall quad. -/
theorem sliceQuads_west_wall (cx cz : Int) :
    sliceQuads cx cz DIR_WEST 0 scBlocks scNone scInfo scLight scNone =
      [emitQuad cx cz DIR_WEST 0 ⟨0, 0, 16, 10, 61441⟩ scBlocks scNone scInfo] := by
  have hband : ∀ u' < uSize DIR_WEST, ∀ v' < vSize DIR_WEST,
      sliceMask DIR_WEST 0 scBlocks scNone scInfo scLight scNone (v' * uSize DIR_WEST + u') =
        if v' < 10 then 61441 else 0 := by
    intro u' hu' v' hv'
    rw [sliceMask_cell DIR_WEST 0 u' v' hu']
    rw [maskCell_west 0 u' v' (by omega) hu' hv']
    by_cases h9 : v' ≤ 9
    · rw [if_pos ⟨rfl, h9⟩, if_pos (by omega)]
    · rw [if_neg (fun hc => h9 hc.2), if_neg (by omega)]
  unfold sliceQuads
  rw [mergeMask_band _ (uSize DIR_WEST) (vSize DIR_WEST) 61441 10
    (by decide) (by decide) (by decide) (by decide) hband]
  rfl

/-- The up sweep of the scenario emits exactly the merged top quad. -/
theorem dirQuads_up (cx cz : Int) :
    dirQuads cx cz DIR_UP scBlocks scNone scInfo scLight scNone =
      [emitQuad cx cz DIR_UP 9 ⟨0, 0, 16, 16, 61441⟩ scBlocks scNone scInfo] := by
  unfold dirQuads
  rw [flatMap_range_single _ (dSize DIR_UP) 9 (by decide)
    (fun d hd hne => sliceQuads_up_empty cx cz d hd hne)]
  exact sliceQuads_up_top cx cz

/-- The down sweep of the scenario emits exactly the world-floor quad. -/
theorem dirQuads_down (cx cz : Int) :
    dirQuads cx cz DIR_DOWN scBlocks scNone scInfo scLight scNone =
      [emitQuad cx cz DIR_DOWN 0 ⟨0, 0, 16, 16, 1⟩ scBlocks scNone scInfo] := by
  unfold dirQuads
  rw [flatMap_range_single _ (dSize DIR_DOWN) 0 (by decide)
    (fun d hd hne => sliceQuads_down_empty cx cz d hd hne)]
  exact sliceQuads_down_floor cx cz

/-- The north sweep of the scenario emits exactly the boundary wall quad. -/
theorem dirQuads_north (cx cz : Int) :
    dirQuads cx cz DIR_NORTH scBlocks scNone scInfo scLight scNone =
      [emitQuad cx cz DIR_NORTH 0 ⟨0, 0, 16, 10, 61441⟩ scBlocks scNone scInfo] := by
  unfold dirQuads
  rw [flatMap_range_single _ (dSize DIR_NORTH) 0 (by decide)
    (fun d hd hne => sliceQuads_north_empty cx cz d hd hne)]
  exact sliceQuads_north_wall cx cz

/-- The south sweep of the scenario emits exactly the boundary wall quad. -/
theorem dirQuads_south (cx cz : Int) :
    dirQuads cx cz DIR_SOUTH scBlocks scNone scInfo scLight scNone =
      [emitQuad cx cz DIR_SOUTH 15 ⟨0, 0, 16, 10, 61441⟩ scBlocks scNone scInfo] := by
  unfold dirQuads
  rw [flatMap_range_single _ (dSize DIR_SOUTH) 15 (by decide)
    (fun d hd hne => sliceQuads_south_empty cx cz d hd hne)]
  exact sliceQuads_south_wall cx cz

/-- The east sweep of the scenario emits exactly the boundary wall quad. -/
theorem dirQuads_east (cx cz : Int) :
    dirQuads cx cz DIR_EAST scBlocks scNone scInfo scLight scNone =
      [emitQuad cx cz DIR_EAST 15 ⟨0, 0, 16, 10, 61441⟩ scBlocks scNone scInfo] := by
  unfold dirQuads
  rw [flatMap_range_single _ (dSize DIR_EAST) 15 (by decide)
    (fun d hd hne => sliceQuads_east_empty cx cz d hd hne)]
  exact sliceQuads_east_wall cx cz

/-- The west sweep of the scenario emits exactly the boundary wall quad. -/
theorem dirQuads_west (cx cz : Int) :
    dirQuads cx cz DIR_WEST scBlocks scNone scInfo scLight scNone =
      [emitQuad cx cz DIR_WEST 0 ⟨0, 0, 16, 10, 61441⟩ scBlocks scNone scInfo] := by
  unfold dirQuads
  rw [flatMap_range_single _ (dSize DIR_WEST) 0 (by decide)
    (fun d hd hne => sliceQuads_west_empty cx cz d hd hne)]
  exact sliceQuads_west_wall cx cz

/-- The six quads of the scenario chunk at (0, 0), in source emission
order: the merged 16 by 16 top at y = 10, the 16 by 16 world-floor bottom,
and the four 16 by 10 boundary walls. -/
def scQuads : List Quad :=
  [emitQuad 0 0 DIR_UP 9 ⟨0, 0, 16, 16, 61441⟩ scBlocks scNone scInfo,
   emitQuad 0 0 DIR_DOWN 0 ⟨0, 0, 16, 16, 1⟩ scBlocks scNone scInfo,
   emitQuad 0 0 DIR_NORTH 0 ⟨0, 0, 16, 10, 61441⟩ scBlocks scNone scInfo,
   emitQuad 0 0 DIR_SOUTH 15 ⟨0, 0, 16, 10, 61441⟩ scBlocks scNone scInfo,
   emitQuad 0 0 DIR_EAST 15 ⟨0, 0, 16, 10, 61441⟩ scBlocks scNone scInfo,
   emitQuad 0 0 DIR_WEST 0 ⟨0, 0, 16, 10, 61441⟩ scBlocks scNone scInfo]

/-- The scenario chunk meshes to exactly the six quads of scQuads. -/
theorem allQuads_scenario :
    allQuads 0 0 scBlocks scNone scInfo scLight scNone = scQuads := by
  have h : allQuads 0 0 scBlocks scNone scInfo scLight scNone =
      dirQuads 0 0 DIR_UP scBlocks scNone scInfo scLight scNone ++
      (dirQuads 0 0 DIR_DOWN scBlocks scNone scInfo scLight scNone ++
      (dirQuads 0 0 DIR_NORTH scBlocks scNone scInfo scLight scNone ++
      (dirQuads 0 0 DIR_SOUTH scBlocks scNone scInfo scLight scNone ++
      (dirQuads 0 0 DIR_EAST scBlocks scNone scInfo scLight scNone ++
      (dirQuads 0 0 DIR_WEST scBlocks scNone scInfo scLight scNone ++ []))))) := rfl
  rw [h, dirQuads_up, dirQuads_down, dirQuads_north, dirQuads_south,
    dirQuads_east, dirQuads_west]
  rfl

/-- The per-pass index buffer grows by one diagonal's worth of indices. -/
theorem pushQuad_indices_length (t : TempArrays) (q : Quad) :
    (pushQuad t q).indices.length = t.indices.length + 6 := by
  have h : (pushQuad t q).indices = t.indices ++
      (if q.ao.1 + q.ao.2.2.1 > q.ao.2.1 + q.ao.2.2.2 then
        [t.vertexCount, t.vertexCount + 1, t.vertexCount + 2,
         t.vertexCount, t.vertexCount + 2, t.vertexCount + 3]
       else
        [t.vertexCount + 1, t.vertexCount + 2, t.vertexCount + 3,
         t.vertexCount, t.vertexCount + 1, t.vertexCount + 3]) := rfl
  rw [h, List.length_append]
  split <;> rfl

/-- The per-pass position buffer grows by twelve coordinates. -/
theorem pushQuad_positions_length (t : TempArrays) (q : Quad) :
    (pushQuad t q).positions.length = t.positions.length + 12 := by
  unfold pushQuad
  simp only [List.length_append, List.length_cons, List.length_nil]

/-- The per-pass normal buffer grows by twelve components. -/
theorem pushQuad_normals_length (t : TempArrays) (q : Quad) :
    (pushQuad t q).normals.length = t.normals.length + 12 := by
  unfold pushQuad
  simp only [List.length_append, List.length_cons, List.length_nil]

/-- The per-pass uv buffer grows by eight coordinates. -/
theorem pushQuad_uvs_length (t : TempArrays) (q : Quad) :
    (pushQuad t q).uvs.length = t.uvs.length + 8 := by
  unfold pushQuad
  simp only [List.length_append, List.length_cons, List.length_nil]

/-- The per-pass light buffer grows by four entries. -/
theorem pushQuad_lights_length (t : TempArrays) (q : Quad) :
    (pushQuad t q).lights.length = t.lights.length + 4 := by
  unfold pushQuad
  simp only [List.length_append, List.length_cons, List.length_nil]

/-- Routing an opaque-pass quad pushes it onto the first pass only. -/
theorem routeQuad_opaque (acc : TempArrays × TempArrays) (q : Quad)
    (h : q.transparentPass = false) :
    routeQuad acc q = (pushQuad acc.1 q, acc.2) := by
  unfold routeQuad
  rw [if_neg (by simp [h])]

/-- Folding routeQuad over opaque quads only: every buffer of the opaque
pass grows by the per-quad stride and the transparent pass is untouched. -/
theorem foldl_routeQuad_opaque_len (qs : List Quad) :
    ∀ acc : TempArrays × TempArrays,
      (∀ q ∈ qs, q.transparentPass = false) →
      (qs.foldl routeQuad acc).1.positions.length = acc.1.positions.length + 12 * qs.length ∧
      (qs.foldl routeQuad acc).1.normals.length = acc.1.normals.length + 12 * qs.length ∧
      (qs.foldl routeQuad acc).1.uvs.length = acc.1.uvs.length + 8 * qs.length ∧
      (qs.foldl routeQuad acc).1.aos.length = acc.1.aos.length + 4 * qs.length ∧
      (qs.foldl routeQuad acc).1.lights.length = acc.1.lights.length + 4 * qs.length ∧
      (qs.foldl routeQuad acc).1.indices.length = acc.1.indices.length + 6 * qs.length ∧
      (qs.foldl routeQuad acc).2 = acc.2 := by
  induction qs with
  | nil =>
      intro acc h
      simp
  | cons q qs ih =>
      intro acc h
      rw [List.foldl_cons, routeQuad_opaque acc q (h q (List.mem_cons_self q qs))]
      obtain ⟨h1, h2, h3, h4, h5, h6, h7⟩ :=
        ih (pushQuad acc.1 q, acc.2) (fun p hp => h p (List.mem_cons_of_mem q hp))
      refine ⟨?_, ?_, ?_, ?_, ?_, ?_, ?_⟩
      · rw [h1]
        dsimp only []
        rw [pushQuad_positions_length]
        simp only [List.length_cons]
        omega
      · rw [h2]
        dsimp only []
        rw [pushQuad_normals_length]
        simp only [List.length_cons]
        omega
      · rw [h3]
        dsimp only []
        rw [pushQuad_uvs_length]
        simp only [List.length_cons]
        omega
      · rw [h4]
        dsimp only []
        rw [pushQuad_aos, List.length_append]
        simp only [List.length_cons]
        simp
        omega
      · rw [h5]
        dsimp only []
        rw [pushQuad_lights_length]
        simp only [List.length_cons]
        omega
      · rw [h6]
        dsimp only []
        rw [pushQuad_indices_length]
        simp only [List.length_cons]
        omega
      · rw [h7]

/-- Every scenario quad carries the stone id, so it routes to the opaque
pass: the packed mask value decodes to block id 1 and stone is not
transparent. -/
theorem emitQuad_sc_opaque (cx cz : Int) (dir d u v w h c : Nat)
    (hc : c &&& 0xFF = 1) :
    (emitQuad cx cz dir d ⟨u, v, w, h, c⟩ scBlocks scNone scInfo).transparentPass = false := by
  have hp : (emitQuad cx cz dir d ⟨u, v, w, h, c⟩ scBlocks scNone scInfo).transparentPass =
      ((scInfo (c &&& 0xFF)).getD (fallbackInfo (c &&& 0xFF))).transparent := rfl
  rw [hp, hc]
  rfl

/-- Full buffer accounting of the scenario mesh: six opaque quads give 24
vertices, 36 indices and an empty transparent pass. -/
theorem scenario_mesh_counts :
    (meshChunk scBlocks 0 0 scNone scInfo scLight scNone).1.positions.length = 72 ∧
    (meshChunk scBlocks 0 0 scNone scInfo scLight scNone).1.normals.length = 72 ∧
    (meshChunk scBlocks 0 0 scNone scInfo scLight scNone).1.uvs.length = 48 ∧
    (meshChunk scBlocks 0 0 scNone scInfo scLight scNone).1.aos.length = 24 ∧
    (meshChunk scBlocks 0 0 scNone scInfo scLight scNone).1.lights.length = 24 ∧
    (meshChunk scBlocks 0 0 scNone scInfo scLight scNone).1.indices.length = 36 ∧
    (meshChunk scBlocks 0 0 scNone scInfo scLight scNone).2 = toMeshData createTemp := by
  have hop : ∀ q ∈ scQuads, q.transparentPass = false := by
    intro q hq
    simp only [scQuads, List.mem_cons, List.not_mem_nil, or_false] at hq
    rcases hq with rfl | rfl | rfl | rfl | rfl | rfl <;>
      exact emitQuad_sc_opaque _ _ _ _ _ _ _ _ _ (by decide)
  obtain ⟨h1, h2, h3, h4, h5, h6, h7⟩ :=
    foldl_routeQuad_opaque_len scQuads (createTemp, createTemp) hop
  have hm1 : (meshChunk scBlocks 0 0 scNone scInfo scLight scNone).1 =
      toMeshData ((allQuads 0 0 scBlocks scNone scInfo scLight scNone).foldl routeQuad
        (createTemp, createTemp)).1 := rfl
  have hm2 : (meshChunk scBlocks 0 0 scNone scInfo scLight scNone).2 =
      toMeshData ((allQuads 0 0 scBlocks scNone scInfo scLight scNone).foldl routeQuad
        (createTemp, createTemp)).2 := rfl
  refine ⟨?_, ?_, ?_, ?_, ?_, ?_, ?_⟩
  · rw [hm1, allQuads_scenario]
    show (scQuads.foldl routeQuad (createTemp, createTemp)).1.positions.length = 72
    rw [h1]
    rfl
  · rw [hm1, allQuads_scenario]
    show (scQuads.foldl routeQuad (createTemp, createTemp)).1.normals.length = 72
    rw [h2]
    rfl
  · rw [hm1, allQuads_scenario]
    show (scQuads.foldl routeQuad (createTemp, createTemp)).1.uvs.length = 48
    rw [h3]
    rfl
  · rw [hm1, allQuads_scenario]
    show (scQuads.foldl routeQuad (createTemp, createTemp)).1.aos.length = 24
    rw [h4]
    rfl
  · rw [hm1, allQuads_scenario]
    show (scQuads.foldl routeQuad (createTemp, createTemp)).1.lights.length = 24
    rw [h5]
    rfl
  · rw [hm1, allQuads_scenario]
    show (scQuads.foldl routeQuad (createTemp, createTemp)).1.indices.length = 36
    rw [h6]
    rfl
  · rw [hm2, allQuads_scenario]
    show toMeshData (scQuads.foldl routeQuad (createTemp, createTemp)).2 = toMeshData createTemp
    rw [h7]

end Mesher

/-- C1: counterexample to the claimed scenario counts.  With no chunk below
the world, getBlockOrNeighbor samples air for y < 0, so the scenario chunk
also emits a 16 by 16 bottom face at the world floor: the down sweep is
non-empty and the opaque pass holds 24 vertices, not the claimed 20. -/
theorem c1_scenario_bottom_face_emitted :
    Mesher.dirQuads 0 0 Mesher.DIR_DOWN Mesher.scBlocks Mesher.scNone Mesher.scInfo
      Mesher.scLight Mesher.scNone ≠ [] ∧
    (Mesher.meshChunk Mesher.scBlocks 0 0 Mesher.scNone Mesher.scInfo Mesher.scLight
      Mesher.scNone).1.aos.length ≠ 20 := by
  constructor
  · rw [Mesher.dirQuads_down]
    simp
  · obtain ⟨-, -, -, h4, -, -, -⟩ := Mesher.scenario_mesh_counts
    omega

/-- C1 (amended): the scenario chunk meshes to exactly six merged quads —
one 16 by 16 top at y = 10, one 16 by 16 bottom boundary face at the world
floor, and four 16 by 10 side walls — all routed to the opaque pass, which
therefore holds 24 vertices and 36 indices (12 triangles); the transparent
pass stays empty. -/
theorem c1_scenario_mesh :
    Mesher.allQuads 0 0 Mesher.scBlocks Mesher.scNone Mesher.scInfo Mesher.scLight
      Mesher.scNone = Mesher.scQuads ∧
    (Mesher.meshChunk Mesher.scBlocks 0 0 Mesher.scNone Mesher.scInfo Mesher.scLight
      Mesher.scNone).1.positions.length = 72 ∧
    (Mesher.meshChunk Mesher.scBlocks 0 0 Mesher.scNone Mesher.scInfo Mesher.scLight
      Mesher.scNone).1.normals.length = 72 ∧
    (Mesher.meshChunk Mesher.scBlocks 0 0 Mesher.scNone Mesher.scInfo Mesher.scLight
      Mesher.scNone).1.uvs.length = 48 ∧
    (Mesher.meshChunk Mesher.scBlocks 0 0 Mesher.scNone Mesher.scInfo Mesher.scLight
      Mesher.scNone).1.aos.length = 24 ∧
    (Mesher.meshChunk Mesher.scBlocks 0 0 Mesher.scNone Mesher.scInfo Mesher.scLight
      Mesher.scNone).1.lights.length = 24 ∧
    (Mesher.meshChunk Mesher.scBlocks 0 0 Mesher.scNone Mesher.scInfo Mesher.scLight
      Mesher.scNone).1.indices.length = 36 ∧
    (Mesher.meshChunk Mesher.scBlocks 0 0 Mesher.scNone Mesher.scInfo Mesher.scLight
      Mesher.scNone).2 = Mesher.toMeshData Mesher.createTemp := by
  obtain ⟨h1, h2, h3, h4, h5, h6, h7⟩ := Mesher.scenario_mesh_counts
  exact ⟨Mesher.allQuads_scenario, h1, h2, h3, h4, h5, h6, h7⟩

end MyCraft
